import Mathlib

/-!
# MarkHub backend: bookmark / folder consistency engine

A shallow embedding of the request handlers and record hooks of
`backend/main.go`.  The PocketBase record store is modelled as three lists
of records (insertion order is listing order), every store call that the Go
code checks for an error is driven by an oracle in `Env`, and Go maps are
association lists whose newest binding wins.
-/

namespace MarkHub

/-! ## Data model -/

/-- Record of the `folders` collection.  `parentId = ""` is what
`GetString("parentId")` yields for a root folder. -/
structure Folder where
  id : String
  userId : String
  name : String
  parentId : String
  createdAt : String
  updatedAt : String
deriving DecidableEq, Repr

/-- Record of the `bookmarks` collection.  `tags` is the stored JSON array,
`folderId = ""` stands for a bookmark at the root. -/
structure Bookmark where
  id : String
  userId : String
  title : String
  url : String
  tags : List String
  folderId : String
  faviconUrl : String
  createdAt : String
  updatedAt : String
  isFavorite : Bool := false
  chromeBookmarkId : String := ""
deriving DecidableEq, Repr

/-- Record of the `user_settings` collection (the fields the engine reads or
writes).  `tagList` is the stored JSON array of the tag vocabulary. -/
structure UserSettings where
  id : String
  userId : String
  tagList : List String
  darkMode : Bool
  accentColor : String
  defaultView : String
  language : String
deriving DecidableEq, Repr

/-- The record store: one list per collection, in listing order. -/
structure Store where
  folders : List Folder
  bookmarks : List Bookmark
  settings : List UserSettings
deriving DecidableEq, Repr

/-- `FolderBackup`: a folder entry of a snapshot, with the ids it had in the
source system. -/
structure FolderBackup where
  OriginalID : String
  ParentID : String
  Name : String
  CreatedAt : String
  UpdatedAt : String
deriving DecidableEq, Repr

/-- Outcome of the store calls whose error the handlers inspect.  `newId` is
the id the store assigns to the next inserted record; a save is judged on the
record as it is handed to `Save`, a delete on the id of the record. -/
structure Env where
  hasCollection : String → Bool
  fetchOk : String → Bool
  newId : Store → String
  saveFolderOk : Folder → Bool
  saveBookmarkOk : Bookmark → Bool
  saveSettingsOk : UserSettings → Bool
  deleteFolderOk : String → Bool
  deleteBookmarkOk : String → Bool

/-! ## Go maps with string keys -/

/-- A Go `map[string]β`: association list, the newest binding first. -/
abbrev GoMap (β : Type) := List (String × β)

/-- Map read `m[k]` with the comma-ok result as an option. -/
def GoMap.get {β : Type} (m : GoMap β) (k : String) : Option β :=
  List.lookup k m

/-- Map write `m[k] = v`. -/
def GoMap.set {β : Type} (m : GoMap β) (k : String) (v : β) : GoMap β :=
  (k, v) :: m

/-! ## Record accessors and store primitives -/

/-- Loop of PocketBase `list.NonzeroUniques`: keeps the first occurrence of
every non-empty string, in order. -/
def NonzeroUniques.loop (result : List String) : List String → List String
  | [] => result
  | v :: rest =>
    if v = "" then NonzeroUniques.loop result rest
    else if v ∈ result then NonzeroUniques.loop result rest
    else NonzeroUniques.loop (result ++ [v]) rest

/-- PocketBase `list.NonzeroUniques` on strings. -/
def NonzeroUniques (list : List String) : List String :=
  NonzeroUniques.loop [] list

/-- `record.GetStringSlice(key)` on a stored JSON array of strings: PocketBase
returns "a slice of non-zero unique strings" (`list.ToUniqueStringSlice`). -/
def GetStringSlice (stored : List String) : List String :=
  NonzeroUniques stored

/-- `FindFirstRecordByFilter("user_settings", "userId = {:userId}")`. -/
def findUserSettings (st : Store) (userId : String) : Option UserSettings :=
  st.settings.find? (fun s => s.userId = userId)

/-- `FindRecordsByFilter("folders", "userId = {:userId}")` / the record query
of the clearer: the folders of one user, in listing order. -/
def userFolders (st : Store) (userId : String) : List Folder :=
  st.folders.filter (fun f => f.userId = userId)

/-- `FindRecordsByFilter("bookmarks", "userId = {:userId}")`. -/
def userBookmarks (st : Store) (userId : String) : List Bookmark :=
  st.bookmarks.filter (fun b => b.userId = userId)

/-- `FindFirstRecordByFilter` with a filter made of two conditions and the
word that joins them.  The filter language of the store joins conditions with
`&&` and `||` only; a filter with another word between its conditions is
rejected with an error and the call returns no record. -/
def FindFirstRecordByFilter {α : Type} (joinWord : String) (records : List α)
    (left right : α → Bool) : Option α :=
  if joinWord = "&&" then records.find? (fun r => left r && right r)
  else if joinWord = "||" then records.find? (fun r => left r || right r)
  else none

/-- `FindFirstRecordByFilter("folders", "userId = {:userId} AND name = {:name}")`
as pass 1 of the importer calls it, the error discarded: the filter is written
with `AND`, so the call finds no record. -/
def findFolderByName (st : Store) (userId name : String) : Option Folder :=
  FindFirstRecordByFilter "AND" st.folders (fun f => f.userId = userId)
    (fun f => f.name = name)

/-- `record.Set` on an autodate field (`createdAt`, `updatedAt`): the store
gives these fields their values itself and ignores the call. -/
def SetAutodate {α : Type} (record : α) (_ : String) : α := record

/-- `FindRecordById("folders", id)`. -/
def findFolderById (st : Store) (id : String) : Option Folder :=
  st.folders.find? (fun f => f.id = id)

/-- `app.Save` on a settings record that was read from the store. -/
def saveSettings (env : Env) (st : Store) (r : UserSettings) : Option Store :=
  if env.saveSettingsOk r then
    some { st with settings := st.settings.map (fun x => if x.id = r.id then r else x) }
  else none

/-- `app.Save` on a bookmark record that was read from the store. -/
def saveBookmark (env : Env) (st : Store) (r : Bookmark) : Option Store :=
  if env.saveBookmarkOk r then
    some { st with bookmarks := st.bookmarks.map (fun x => if x.id = r.id then r else x) }
  else none

/-- `app.Save` on a folder record that was read from the store. -/
def saveFolder (env : Env) (st : Store) (r : Folder) : Option Store :=
  if env.saveFolderOk r then
    some { st with folders := st.folders.map (fun x => if x.id = r.id then r else x) }
  else none

/-- `app.Save` on a folder made by `core.NewRecord`: the store assigns the id
and appends the record; the saved record (with its id) is returned. -/
def createFolder (env : Env) (st : Store) (r : Folder) : Option (Folder × Store) :=
  if env.saveFolderOk r then
    let saved := { r with id := env.newId st }
    some (saved, { st with folders := st.folders ++ [saved] })
  else none

/-- `app.Delete` on a folder.  `parentId` and `folderId` are non-required
relation fields without cascade, so the store clears the references to the
deleted folder. -/
def deleteFolder (env : Env) (st : Store) (r : Folder) : Option Store :=
  if env.deleteFolderOk r.id then
    some { st with
      folders := (st.folders.filter (fun x => x.id ≠ r.id)).map
        (fun x => if x.parentId = r.id then { x with parentId := "" } else x)
      bookmarks := st.bookmarks.map
        (fun b => if b.folderId = r.id then { b with folderId := "" } else b) }
  else none

/-- `app.Delete` on a bookmark. -/
def deleteBookmark (env : Env) (st : Store) (r : Bookmark) : Option Store :=
  if env.deleteBookmarkOk r.id then
    some { st with bookmarks := st.bookmarks.filter (fun x => x.id ≠ r.id) }
  else none

/-- `app.RunInTransaction`: the writes of the closure are kept when it
returns no error and rolled back when it returns one. -/
def RunInTransaction {ε α : Type} (st : Store) (fn : Store → Store × α × Option ε) :
    Store × α × Option ε :=
  match fn st with
  | (st', a, none) => (st', a, none)
  | (_, a, some e) => (st, a, some e)

/-! ## Folder path resolver -/

/-- Response of `ensureFolderPathHandler`. -/
inductive EnsureFolderPathResult where
  | unauthorized
  | internalServerError (message : String)
  | ok (folderId : Option String) (created : List String)
deriving DecidableEq, Repr

/-- The variables of the path loop: `currentParentId`, `createdFolders` and the
lookup `folderMap` keyed by `name + ":" + parentId`. -/
structure PathCursor where
  currentParentId : Option String
  createdFolders : List String
  folderMap : GoMap Folder
deriving DecidableEq, Repr

/-- The loop filling `folderMap` from the listing of the user's folders. -/
def buildFolderMap : List Folder → GoMap Folder → GoMap Folder
  | [], m => m
  | record :: rest, m =>
    buildFolderMap rest (m.set (record.name ++ ":" ++ record.parentId) record)

/-- `parentIdStr`: the current parent id, or the empty string while the
cursor is still at the root (`currentParentId == nil`). -/
def parentIdStrOf (currentParentId : Option String) : String :=
  match currentParentId with
  | some id => id
  | none => ""

/-- The `for _, folderName := range requestData.FolderPath` loop.  An error
returns at once and keeps the folders saved so far.  The new record gets
`parentId` only when the cursor is not at the root, which stores the same
string as `parentIdStr`. -/
def ensureFolderPathLoop (env : Env) (userId : String) :
    List String → PathCursor → Store → Store × Except String PathCursor
  | [], cur, st => (st, .ok cur)
  | folderName :: rest, cur, st =>
    let parentIdStr := parentIdStrOf cur.currentParentId
    let lookupKey := folderName ++ ":" ++ parentIdStr
    match cur.folderMap.get lookupKey with
    | some existingFolder =>
      ensureFolderPathLoop env userId rest
        { cur with currentParentId := some existingFolder.id } st
    | none =>
      if env.hasCollection "folders" then
        let newFolder : Folder :=
          { id := "", userId := userId, name := folderName,
            parentId := parentIdStrOf cur.currentParentId, createdAt := "", updatedAt := "" }
        match createFolder env st newFolder with
        | none => (st, .error ("Failed to create folder: " ++ folderName))
        | some (saved, st') =>
          ensureFolderPathLoop env userId rest
            { currentParentId := some saved.id
              createdFolders := cur.createdFolders ++ [folderName]
              folderMap := cur.folderMap.set (folderName ++ ":" ++ parentIdStr) saved } st'
      else (st, .error "Failed to find folders collection.")

/-- `ensureFolderPathHandler`: the store after the request and the response. -/
def ensureFolderPathHandler (env : Env) (auth : Option String) (folderPath : List String)
    (st : Store) : Store × EnsureFolderPathResult :=
  match auth with
  | none => (st, .unauthorized)
  | some userId =>
    if folderPath.length = 0 then (st, .ok none [])
    else if env.fetchOk "folders" then
      let folderMap := buildFolderMap (userFolders st userId) []
      match ensureFolderPathLoop env userId folderPath
          { currentParentId := none, createdFolders := [], folderMap := folderMap } st with
      | (st', .ok cur) => (st', .ok cur.currentParentId cur.createdFolders)
      | (st', .error message) => (st', .internalServerError message)
    else (st, .internalServerError "Failed to fetch user's folders.")

/-- A chain of folders of one user: each entry gives a name and an id, the
first folder has parent `parent`, every later one the folder before it. -/
def chainFolders (userId : String) : String → List (String × String) → List Folder
  | _, [] => []
  | parent, (name, id) :: rest =>
    { id := id, userId := userId, name := name, parentId := parent, createdAt := "",
      updatedAt := "" } :: chainFolders userId id rest

/-! ## Snapshot importer: the two folder passes -/

/-- The two `if folderBackup.CreatedAt != ""` / `UpdatedAt != ""` updates of
pass 1: `createdAt` and `updatedAt` are autodate fields, so neither `Set`
changes the record. -/
def setBackupTimestamps (folderRecord : Folder) (folderBackup : FolderBackup) : Folder :=
  let r := if folderBackup.CreatedAt ≠ "" then
      SetAutodate folderRecord folderBackup.CreatedAt else folderRecord
  if folderBackup.UpdatedAt ≠ "" then SetAutodate r folderBackup.UpdatedAt else r

/-- `core.NewRecord(collection)` with `userId` and `name` set. -/
def newFolderRecord (userId name : String) : Folder :=
  { id := "", userId := userId, name := name, parentId := "", createdAt := "", updatedAt := "" }

/-- Pass 1 of `webdavRestoreHandler` (create or match by name): the loop over
`backupData.Folders` that fills `oldFolderIdToNewFolderIdMap`.  An entry whose
collection lookup or save fails is skipped. -/
def webdavRestorePass1 (env : Env) (userId : String) :
    List FolderBackup → GoMap String → Store → GoMap String × Store
  | [], m, st => (m, st)
  | folderBackup :: rest, m, st =>
    match findFolderByName st userId folderBackup.Name with
    | some existingFolder =>
      let folderRecord := setBackupTimestamps existingFolder folderBackup
      match saveFolder env st folderRecord with
      | none => webdavRestorePass1 env userId rest m st
      | some st' =>
        webdavRestorePass1 env userId rest (m.set folderBackup.OriginalID folderRecord.id) st'
    | none =>
      if env.hasCollection "folders" then
        let folderRecord :=
          setBackupTimestamps (newFolderRecord userId folderBackup.Name) folderBackup
        match createFolder env st folderRecord with
        | none => webdavRestorePass1 env userId rest m st
        | some (saved, st') =>
          webdavRestorePass1 env userId rest (m.set folderBackup.OriginalID saved.id) st'
      else webdavRestorePass1 env userId rest m st

/-- Pass 2 of `webdavRestoreHandler` (re-link parents): for an entry with a
parent id, when both ids are in the mapping and the live folder is found, its
`parentId` is set and saved; a failed save is only logged. -/
def webdavRestorePass2 (env : Env) : List FolderBackup → GoMap String → Store → Store
  | [], _, st => st
  | folderBackup :: rest, m, st =>
    if folderBackup.ParentID ≠ "" then
      match m.get folderBackup.OriginalID, m.get folderBackup.ParentID with
      | some newFolderId, some newParentId =>
        match findFolderById st newFolderId with
        | some folderRecord =>
          match saveFolder env st { folderRecord with parentId := newParentId } with
          | some st' => webdavRestorePass2 env rest m st'
          | none => webdavRestorePass2 env rest m st
        | none => webdavRestorePass2 env rest m st
      | _, _ => webdavRestorePass2 env rest m st
    else webdavRestorePass2 env rest m st

/-- The two folder passes of `webdavRestoreHandler` in sequence: the id
mapping built by pass 1 and the store after pass 2. -/
def webdavRestoreFolders (env : Env) (userId : String) (folders : List FolderBackup)
    (st : Store) : GoMap String × Store :=
  let pass1 := webdavRestorePass1 env userId folders [] st
  (pass1.1, webdavRestorePass2 env folders pass1.1 pass1.2)

/-- The parent relation of a list of folders: `a` has parent `b`. -/
def FolderEdge (folders : List Folder) (a b : String) : Prop :=
  ∃ f ∈ folders, f.id = a ∧ f.parentId = b ∧ b ≠ ""

/-- The parent relation of the folder entries of a snapshot, on original ids. -/
def SnapshotEdge (folders : List FolderBackup) (a b : String) : Prop :=
  ∃ e ∈ folders, e.OriginalID = a ∧ e.ParentID = b ∧ b ≠ ""

/-- The forest invariant: nothing is its own parent or ancestor. -/
def Acyclic (r : String → String → Prop) : Prop :=
  ∀ x, ¬ Relation.TransGen r x x

/-! ## Snapshot importer: bookmarks, vocabulary and settings -/

/-- `BookmarkBackup`: a bookmark entry of a snapshot.  `Tags` is empty both
for an absent and for an empty array (the code only takes its length). -/
structure BookmarkBackup where
  OriginalID : String
  FolderID : String
  URL : String
  Title : String
  Tags : List String
  FaviconURL : String
  CreatedAt : String
  UpdatedAt : String
deriving DecidableEq, Repr

/-- `UserSettingsBackupData`: the settings section of a snapshot.  `TagList`
is `none` for a nil slice (key absent or null) and `some` for an array, also
an empty one. -/
structure UserSettingsBackupData where
  TagList : Option (List String)
  DarkMode : Bool
  AccentColor : String
  DefaultView : String
  Language : String
deriving DecidableEq, Repr

/-- `WebDAVBackupData`: a parsed snapshot.  An absent settings section is the
zero value of `UserSettingsBackupData`. -/
structure WebDAVBackupData where
  Version : String
  Bookmarks : List BookmarkBackup
  Folders : List FolderBackup
  UserSettings : UserSettingsBackupData
deriving DecidableEq, Repr

/-- `FindFirstRecordByFilter("bookmarks", "userId = {:userId} AND url = {:url}")`
as the bookmark loop of the importer calls it, the error discarded: the filter
is written with `AND`, so the call finds no record. -/
def findBookmarkByUrl (st : Store) (userId url : String) : Option Bookmark :=
  FindFirstRecordByFilter "AND" st.bookmarks (fun b => b.userId = userId)
    (fun b => b.url = url)

/-- `app.Save` on a bookmark made by `core.NewRecord`: the store assigns the
id and appends the record. -/
def createBookmark (env : Env) (st : Store) (r : Bookmark) : Option (Bookmark × Store) :=
  if env.saveBookmarkOk r then
    let saved := { r with id := env.newId st }
    some (saved, { st with bookmarks := st.bookmarks ++ [saved] })
  else none

/-- The destination record of a bookmark entry (match by url or new record)
with title and favicon taken from the entry; the flag tells a new record.
No record when the collection lookup for a new record fails. -/
def restoreBookmarkRecord (env : Env) (userId : String) (st : Store)
    (bookmarkBackup : BookmarkBackup) : Option (Bookmark × Bool) :=
  match findBookmarkByUrl st userId bookmarkBackup.URL with
  | some existingBookmark =>
    let r := if bookmarkBackup.Title ≠ "" then
        { existingBookmark with title := bookmarkBackup.Title } else existingBookmark
    let r := if bookmarkBackup.FaviconURL ≠ "" then
        { r with faviconUrl := bookmarkBackup.FaviconURL } else r
    some (r, false)
  | none =>
    if env.hasCollection "bookmarks" then
      let r : Bookmark :=
        { id := "", userId := userId, title := bookmarkBackup.Title, url := bookmarkBackup.URL,
          tags := [], folderId := "", faviconUrl := "", createdAt := "", updatedAt := "" }
      let r := if bookmarkBackup.FaviconURL ≠ "" then
          { r with faviconUrl := bookmarkBackup.FaviconURL } else r
      some (r, true)
    else none

/-- The `if bookmarkBackup.FolderID != ""` step: the folder is set only when
the original folder id is in the mapping. -/
def restoreBookmarkFolder (m : GoMap String) (bookmarkBackup : BookmarkBackup)
    (bookmarkRecord : Bookmark) : Bookmark :=
  if bookmarkBackup.FolderID ≠ "" then
    match m.get bookmarkBackup.FolderID with
    | some newFolderId => { bookmarkRecord with folderId := newFolderId }
    | none => bookmarkRecord
  else bookmarkRecord

/-- The loop building `updatedTagList`: every tag of the entry that is not in
`currentTagList` is appended. -/
def unionRestoredTags (currentTagList : List String) : List String → List String → List String
  | [], updatedTagList => updatedTagList
  | tag :: rest, updatedTagList =>
    if currentTagList.contains tag then unionRestoredTags currentTagList rest updatedTagList
    else unionRestoredTags currentTagList rest (updatedTagList ++ [tag])

/-- The `if len(bookmarkBackup.Tags) > 0` step: the record takes the tags of
the entry, and the vocabulary of the user, when there is a settings record,
is extended and saved (a failed save is only logged). -/
def restoreBookmarkTags (env : Env) (userId : String) (bookmarkBackup : BookmarkBackup)
    (bookmarkRecord : Bookmark) (st : Store) : Bookmark × Store :=
  if bookmarkBackup.Tags.length > 0 then
    let bookmarkRecord := { bookmarkRecord with tags := bookmarkBackup.Tags }
    match findUserSettings st userId with
    | none => (bookmarkRecord, st)
    | some userSettings =>
      let currentTagList := GetStringSlice userSettings.tagList
      let updatedTagList := unionRestoredTags currentTagList bookmarkBackup.Tags currentTagList
      if updatedTagList.length > currentTagList.length then
        match saveSettings env st { userSettings with tagList := updatedTagList } with
        | some st' => (bookmarkRecord, st')
        | none => (bookmarkRecord, st)
      else (bookmarkRecord, st)
  else (bookmarkRecord, st)

/-- The two timestamp updates of the bookmark pass: `createdAt` and
`updatedAt` are autodate fields, so neither `Set` changes the record. -/
def setBookmarkTimestamps (bookmarkRecord : Bookmark) (bookmarkBackup : BookmarkBackup) :
    Bookmark :=
  let r := if bookmarkBackup.CreatedAt ≠ "" then
      SetAutodate bookmarkRecord bookmarkBackup.CreatedAt else bookmarkRecord
  if bookmarkBackup.UpdatedAt ≠ "" then SetAutodate r bookmarkBackup.UpdatedAt else r

/-- Body of the bookmark loop of `webdavRestoreHandler` for one entry: the
store afterwards and whether the entry counts as restored (its bookmark was
saved). -/
def webdavRestoreBookmark (env : Env) (userId : String) (m : GoMap String)
    (bookmarkBackup : BookmarkBackup) (st : Store) : Store × Bool :=
  match restoreBookmarkRecord env userId st bookmarkBackup with
  | none => (st, false)
  | some (bookmarkRecord, isNew) =>
    let bookmarkRecord := restoreBookmarkFolder m bookmarkBackup bookmarkRecord
    let tagged := restoreBookmarkTags env userId bookmarkBackup bookmarkRecord st
    let bookmarkRecord := setBookmarkTimestamps tagged.1 bookmarkBackup
    if isNew then
      match createBookmark env tagged.2 bookmarkRecord with
      | some (_, st') => (st', true)
      | none => (tagged.2, false)
    else
      match saveBookmark env tagged.2 bookmarkRecord with
      | some st' => (st', true)
      | none => (tagged.2, false)

/-- The bookmark loop of `webdavRestoreHandler`, counting `restoredBookmarks`. -/
def webdavRestoreBookmarks (env : Env) (userId : String) (m : GoMap String) :
    List BookmarkBackup → Store → Nat → Store × Nat
  | [], st, restoredBookmarks => (st, restoredBookmarks)
  | bookmarkBackup :: rest, st, restoredBookmarks =>
    let step := webdavRestoreBookmark env userId m bookmarkBackup st
    webdavRestoreBookmarks env userId m rest step.1
      (if step.2 then restoredBookmarks + 1 else restoredBookmarks)

/-- Settings restoration, the last step of `webdavRestoreHandler`: the store
afterwards and the records handed to `Save`. -/
def webdavRestoreSettings (env : Env) (userId : String) (settings : UserSettingsBackupData)
    (st : Store) : Store × List UserSettings :=
  if settings.TagList.isSome || settings.AccentColor ≠ "" || settings.DefaultView ≠ "" ||
      settings.Language ≠ "" then
    match findUserSettings st userId with
    | none => (st, [])
    | some userSettingsRecord =>
      let r := match settings.TagList with
        | some tagList => { userSettingsRecord with tagList := tagList }
        | none => userSettingsRecord
      let r := { r with darkMode := settings.DarkMode }
      let r := if settings.AccentColor ≠ "" then
          { r with accentColor := settings.AccentColor } else r
      let r := if settings.DefaultView ≠ "" then
          { r with defaultView := settings.DefaultView } else r
      let r := if settings.Language ≠ "" then { r with language := settings.Language } else r
      match saveSettings env st r with
      | some st' => (st', [r])
      | none => (st, [r])
  else (st, [])

/-- The JSON answer of `webdavRestoreHandler`. -/
structure RestoreResponse where
  success : Bool
  message : String
  restored_bookmarks : Nat
  restored_folders : Nat
deriving DecidableEq, Repr

/-- The part of `webdavRestoreHandler` that applies a parsed snapshot, read
from the file `downloadedFileName`, to the store: folder passes, bookmark
loop, settings restoration, answer. -/
def webdavRestoreBackupData (env : Env) (userId : String) (downloadedFileName : String)
    (backupData : WebDAVBackupData) (st : Store) : Store × RestoreResponse :=
  let folders := webdavRestoreFolders env userId backupData.Folders st
  let bookmarks := webdavRestoreBookmarks env userId folders.1 backupData.Bookmarks folders.2 0
  let settings := webdavRestoreSettings env userId backupData.UserSettings bookmarks.1
  (settings.1,
    { success := true
      message := "Restore successful from " ++ downloadedFileName
      restored_bookmarks := bookmarks.2
      restored_folders := backupData.Folders.length })

/-! ## Snapshot exporter -/

/-- The loop filling the `folderMap` of the exporter, keyed by record id. -/
def exportFolderMap : List Folder → GoMap Folder → GoMap Folder
  | [], m => m
  | record :: rest, m => exportFolderMap rest (m.set record.id record)

/-- The recursive closure `buildFolderPath`.  The Go recursion has no bound;
here it stops with `none` when `fuel` calls are used up. -/
def buildFolderPath (folderMap : GoMap Folder) : Nat → String → Option (List String)
  | 0, _ => none
  | fuel + 1, folderId =>
    if folderId = "" then some []
    else
      match folderMap.get folderId with
      | none => some []
      | some folder =>
        if folder.parentId = "" then some [folder.name]
        else
          match buildFolderPath folderMap fuel folder.parentId with
          | some parentPath => some (parentPath ++ [folder.name])
          | none => none

/-- A folder entry of the export; `parentId = none` is JSON null. -/
structure ExportedFolder where
  id : String
  name : String
  parentId : Option String
  path : List String
  createdAt : String
  updatedAt : String
deriving DecidableEq, Repr

/-- A bookmark entry of the export; `none` is JSON null. -/
structure ExportedBookmark where
  id : String
  title : String
  url : String
  folderId : Option String
  folderPath : List String
  tags : List String
  isFavorite : Bool
  chromeBookmarkId : Option String
  createdAt : String
  updatedAt : String
deriving DecidableEq, Repr

/-- The `syncMetadata` object; `exportTime` is the clock reading. -/
structure SyncMetadata where
  totalFolders : Nat
  totalBookmarks : Nat
  exportTime : String
  isIncremental : Bool
deriving DecidableEq, Repr

/-- Response of `syncExportDataHandler`. -/
inductive SyncExportResult where
  | unauthorized
  | internalServerError (message : String)
  | ok (folders : List ExportedFolder) (bookmarks : List ExportedBookmark)
      (syncMetadata : SyncMetadata)
deriving DecidableEq, Repr

/-- The record filter of the export: the records of the user, and for an
incremental export only those with `updatedAt > lastSyncTime` (the store
compares the two date strings as text, character by character). -/
def exportFilter (userId lastSyncTime recordUserId updatedAt : String) : Bool :=
  decide (recordUserId = userId) &&
    (lastSyncTime = "" || decide (lastSyncTime.data < updatedAt.data))

/-- The loop preparing the folder entries of the export. -/
def exportFolders (folderMap : GoMap Folder) (fuel : Nat) :
    List Folder → Option (List ExportedFolder)
  | [] => some []
  | record :: rest =>
    match buildFolderPath folderMap fuel record.id with
    | none => none
    | some folderPath =>
      match exportFolders folderMap fuel rest with
      | none => none
      | some folders =>
        some ({ id := record.id, name := record.name,
                parentId := (if record.parentId = "" then none else some record.parentId),
                path := folderPath, createdAt := record.createdAt,
                updatedAt := record.updatedAt } :: folders)

/-- The loop preparing the bookmark entries of the export. -/
def exportBookmarks (folderMap : GoMap Folder) (fuel : Nat) :
    List Bookmark → Option (List ExportedBookmark)
  | [] => some []
  | record :: rest =>
    match (if record.folderId ≠ "" then buildFolderPath folderMap fuel record.folderId
           else some []) with
    | none => none
    | some folderPath =>
      match exportBookmarks folderMap fuel rest with
      | none => none
      | some bookmarks =>
        some ({ id := record.id, title := record.title, url := record.url,
                folderId := (if record.folderId = "" then none else some record.folderId),
                folderPath := folderPath, tags := GetStringSlice record.tags,
                isFavorite := record.isFavorite,
                chromeBookmarkId :=
                  (if record.chromeBookmarkId = "" then none else some record.chromeBookmarkId),
                createdAt := record.createdAt, updatedAt := record.updatedAt } :: bookmarks)

/-- `syncExportDataHandler` with `lastSyncTime` the query parameter (empty for
a full export), `exportTime` the clock reading and `fuel` the bound on the
depth of `buildFolderPath`; `none` stands for a recursion that did not end
within the bound. -/
def syncExportDataHandler (env : Env) (auth : Option String) (lastSyncTime exportTime : String)
    (fuel : Nat) (st : Store) : Option SyncExportResult :=
  match auth with
  | none => some .unauthorized
  | some userId =>
    if env.fetchOk "bookmarks" then
      let bookmarkRecords := st.bookmarks.filter
        (fun b => exportFilter userId lastSyncTime b.userId b.updatedAt)
      if env.fetchOk "folders" then
        let folderRecords := st.folders.filter
          (fun f => exportFilter userId lastSyncTime f.userId f.updatedAt)
        let folderMap := exportFolderMap folderRecords []
        match exportFolders folderMap fuel folderRecords with
        | none => none
        | some folders =>
          match exportBookmarks folderMap fuel bookmarkRecords with
          | none => none
          | some bookmarks =>
            some (.ok folders bookmarks
              { totalFolders := folders.length, totalBookmarks := bookmarks.length,
                exportTime := exportTime, isIncremental := decide (lastSyncTime ≠ "") })
      else some (.internalServerError "Failed to fetch user's folders for sync export.")
    else some (.internalServerError "Failed to fetch user's bookmarks for sync export.")

/-! ## Tag vocabulary reconciler -/

/-- Inner loops of the bookmark hooks: the tags of `existingTags` that are
not in `tagList`, in order. -/
def newUniqueTags (tagList : List String) : List String → List String
  | [] => []
  | tag :: rest =>
    if tagList.contains tag then newUniqueTags tagList rest
    else tag :: newUniqueTags tagList rest

/-- Body shared by the two bookmark request hooks, up to `e.Next()`: the
record with its owner set, and the store after the vocabulary update. -/
def bookmarkRequestHook (env : Env) (auth : Option String) (record : Bookmark) (st : Store) :
    Bookmark × Store :=
  let record := match auth with
    | some authId => { record with userId := authId }
    | none => record
  let existingTags := GetStringSlice record.tags
  match auth with
  | none => (record, st)
  | some authId =>
    if existingTags.length > 0 then
      match findUserSettings st authId with
      | none => (record, st)
      | some userSettings =>
        let tagList := GetStringSlice userSettings.tagList
        let fresh := newUniqueTags tagList existingTags
        if fresh.length > 0 then
          let updatedTagList := tagList ++ fresh
          match saveSettings env st { userSettings with tagList := updatedTagList } with
          | some st' => (record, st')
          | none => (record, st)
        else (record, st)
    else (record, st)

/-- `OnRecordCreateRequest("bookmarks")` hook. -/
def onBookmarkCreateRequest (env : Env) (auth : Option String) (record : Bookmark)
    (st : Store) : Bookmark × Store :=
  bookmarkRequestHook env auth record st

/-- `OnRecordUpdateRequest("bookmarks")` hook (same body as the create hook). -/
def onBookmarkUpdateRequest (env : Env) (auth : Option String) (record : Bookmark)
    (st : Store) : Bookmark × Store :=
  bookmarkRequestHook env auth record st

/-- The per-bookmark loop of both cascades: `updatedBookmarkTags` and the
`tagsChanged` flag for one bookmark, given the deleted tags. -/
def removeDeletedTags (deleted : List String) : List String → List String × Bool
  | [] => ([], false)
  | tag :: rest =>
    let (updated, changed) := removeDeletedTags deleted rest
    if deleted.contains tag then (updated, true) else (tag :: updated, changed)

/-- Unicode white space as Go's `unicode.IsSpace` defines it. -/
def isSpace (c : Char) : Bool :=
  c.toNat ∈ [0x09, 0x0A, 0x0B, 0x0C, 0x0D, 0x20, 0x85, 0xA0, 0x1680, 0x2028, 0x2029,
    0x202F, 0x205F, 0x3000] || (0x2000 ≤ c.toNat && c.toNat ≤ 0x200A)

/-- Go's `strings.TrimSpace`. -/
def TrimSpace (s : String) : String :=
  String.mk ((s.data.dropWhile isSpace).reverse.dropWhile isSpace).reverse

/-- The error the transaction closure of the clearer stores in `firstError`. -/
inductive ClearError where
  | findCollection (name : String)
  | fetchRecords (name : String)
  | deleteFolder (id : String)
  | deleteBookmark (id : String)
  | clearTagList (userId : String)
deriving DecidableEq, Repr

/-- Response of `clearAllUserDataHandler`. -/
inductive ClearResult where
  | unauthorized
  | internalServerError (cause : ClearError)
  | cleared (cleared_bookmarks_count cleared_folders_count : Nat) (tags_cleared : Bool)
deriving DecidableEq, Repr

/-- The `for _, folder := range foldersToDelete` loop: every folder is tried,
the first failure is kept in `firstError`, successes are counted. -/
def deleteFoldersLoop (env : Env) :
    List Folder → Store → Nat → Option ClearError → Store × Nat × Option ClearError
  | [], st, count, firstError => (st, count, firstError)
  | folder :: rest, st, count, firstError =>
    match deleteFolder env st folder with
    | none =>
      deleteFoldersLoop env rest st count
        (match firstError with
          | none => some (.deleteFolder folder.id)
          | some e => some e)
    | some st' => deleteFoldersLoop env rest st' (count + 1) firstError

/-- The `for _, bookmark := range bookmarksToDelete` loop. -/
def deleteBookmarksLoop (env : Env) :
    List Bookmark → Store → Nat → Option ClearError → Store × Nat × Option ClearError
  | [], st, count, firstError => (st, count, firstError)
  | bookmark :: rest, st, count, firstError =>
    match deleteBookmark env st bookmark with
    | none =>
      deleteBookmarksLoop env rest st count
        (match firstError with
          | none => some (.deleteBookmark bookmark.id)
          | some e => some e)
    | some st' => deleteBookmarksLoop env rest st' (count + 1) firstError

/-- Counters captured by the transaction closure of the clearer. -/
structure ClearCounts where
  clearedBookmarksCount : Nat
  clearedFoldersCount : Nat
  tagsCleared : Bool
deriving DecidableEq, Repr

/-- Transaction closure of `clearAllUserDataHandler`. -/
def clearAllUserDataTx (env : Env) (userId : String) (st : Store) :
    Store × ClearCounts × Option ClearError :=
  if env.hasCollection "folders" then
    if env.fetchOk "folders" then
      match deleteFoldersLoop env (userFolders st userId) st 0 none with
      | (st1, clearedFoldersCount, some e) => (st1, ⟨0, clearedFoldersCount, false⟩, some e)
      | (st1, clearedFoldersCount, none) =>
        if env.hasCollection "bookmarks" then
          if env.fetchOk "bookmarks" then
            match deleteBookmarksLoop env (userBookmarks st1 userId) st1 0 none with
            | (st2, clearedBookmarksCount, some e) =>
              (st2, ⟨clearedBookmarksCount, clearedFoldersCount, false⟩, some e)
            | (st2, clearedBookmarksCount, none) =>
              match findUserSettings st2 userId with
              | none => (st2, ⟨clearedBookmarksCount, clearedFoldersCount, false⟩, none)
              | some userSettings =>
                match saveSettings env st2 { userSettings with tagList := [] } with
                | none =>
                  (st2, ⟨clearedBookmarksCount, clearedFoldersCount, false⟩,
                    some (.clearTagList userId))
                | some st3 => (st3, ⟨clearedBookmarksCount, clearedFoldersCount, true⟩, none)
          else (st1, ⟨0, clearedFoldersCount, false⟩, some (.fetchRecords "bookmarks"))
        else (st1, ⟨0, clearedFoldersCount, false⟩, some (.findCollection "bookmarks"))
    else (st, ⟨0, 0, false⟩, some (.fetchRecords "folders"))
  else (st, ⟨0, 0, false⟩, some (.findCollection "folders"))

/-- `clearAllUserDataHandler`: the store after the request and the response. -/
def clearAllUserDataHandler (env : Env) (auth : Option String) (st : Store) :
    Store × ClearResult :=
  match auth with
  | none => (st, .unauthorized)
  | some userId =>
    match RunInTransaction st (clearAllUserDataTx env userId) with
    | (st', _, some err) => (st', .internalServerError err)
    | (st', counts, none) =>
      (st', .cleared counts.clearedBookmarksCount counts.clearedFoldersCount counts.tagsCleared)

/-- What a cascade does to one bookmark: the deleted tags are taken out of
the list the engine reads, and a bookmark without any of them stays as it is. -/
def stripBookmark (deleted : List String) (b : Bookmark) : Bookmark :=
  if (removeDeletedTags deleted (GetStringSlice b.tags)).2 then
    { b with tags := (removeDeletedTags deleted (GetStringSlice b.tags)).1 }
  else b

/-! ## Concrete inputs used to exercise the theorems -/

/-- An environment in which every store call succeeds; the assigned id is
longer than every folder id of the store, so it is new. -/
def okEnv : Env where
  hasCollection := fun _ => true
  fetchOk := fun _ => true
  newId := fun st => String.mk (List.replicate (1 + (st.folders.map (fun f => f.id.length)).sum) 'x')
  saveFolderOk := fun _ => true
  saveBookmarkOk := fun _ => true
  saveSettingsOk := fun _ => true
  deleteFolderOk := fun _ => true
  deleteBookmarkOk := fun _ => true

/-- Settings record of user `u1` with a two-entry vocabulary. -/
def settingsU1 : UserSettings :=
  { id := "s1", userId := "u1", tagList := ["go", "lean"], darkMode := false,
    accentColor := "", defaultView := "", language := "" }

/-- A store holding only the settings record of `u1`. -/
def storeU1 : Store :=
  { folders := [], bookmarks := [], settings := [settingsU1] }

/-- A bookmark write carrying one known tag, a differently cased one, a new
one and a repetition. -/
def taggedRecord : Bookmark :=
  { id := "", userId := "", title := "Lean", url := "https://lean-lang.org",
    tags := ["lean", "Go", "rust", "rust"], folderId := "", faviconUrl := "",
    createdAt := "", updatedAt := "" }

/-- Two folders and three bookmarks of `u1` (vocabulary of five tags) next to
a folder and a bookmark of `u2`. -/
def storeToClear : Store :=
  { folders :=
      [ { id := "f1", userId := "u1", name := "Work", parentId := "", createdAt := "",
          updatedAt := "" },
        { id := "f2", userId := "u1", name := "Reports", parentId := "f1", createdAt := "",
          updatedAt := "" },
        { id := "g1", userId := "u2", name := "Other", parentId := "", createdAt := "",
          updatedAt := "" } ]
    bookmarks :=
      [ { id := "b1", userId := "u1", title := "A", url := "https://a.example",
          tags := ["a", "b"], folderId := "f1", faviconUrl := "", createdAt := "",
          updatedAt := "" },
        { id := "b2", userId := "u1", title := "B", url := "https://b.example", tags := [],
          folderId := "", faviconUrl := "", createdAt := "", updatedAt := "" },
        { id := "b3", userId := "u1", title := "C", url := "https://c.example", tags := ["c"],
          folderId := "f2", faviconUrl := "", createdAt := "", updatedAt := "" },
        { id := "c1", userId := "u2", title := "D", url := "https://d.example", tags := ["a"],
          folderId := "g1", faviconUrl := "", createdAt := "", updatedAt := "" } ]
    settings :=
      [ { id := "s1", userId := "u1", tagList := ["a", "b", "c", "d", "e"], darkMode := false,
          accentColor := "", defaultView := "", language := "" } ] }

/-- An environment in which only the delete of bookmark `b2` fails. -/
def failSecondBookmarkEnv : Env :=
  { okEnv with deleteBookmarkOk := fun id => id != "b2" }

/-- Every binding of `m` is a binding of `m'`. -/
def GoMap.le {β : Type} (m m' : GoMap β) : Prop :=
  ∀ k v, m.get k = some v → m'.get k = some v

/-- What one entry of pass 2 does to one live folder when its save succeeds:
the folder mapped from the entry gets the folder mapped from the entry's
parent as parent, every other folder stays. -/
def relinkFolder (m : GoMap String) (e : FolderBackup) (x : Folder) : Folder :=
  if e.ParentID ≠ "" then
    match m.get e.OriginalID, m.get e.ParentID with
    | some newFolderId, some newParentId =>
      if x.id = newFolderId then { x with parentId := newParentId } else x
    | _, _ => x
  else x

/-- The example snapshot of the specification: `Work` at the root and
`Reports` below it. -/
def snapshotWorkReports : List FolderBackup :=
  [ { OriginalID := "f1", ParentID := "", Name := "Work", CreatedAt := "", UpdatedAt := "" },
    { OriginalID := "f2", ParentID := "f1", Name := "Reports", CreatedAt := "",
      UpdatedAt := "" } ]

/-- A snapshot in which `Work` lies below `Reports`, the reverse of the live
folders of `u1` in `storeToClear`. -/
def snapshotReversed : List FolderBackup :=
  [ { OriginalID := "s1", ParentID := "", Name := "Reports", CreatedAt := "", UpdatedAt := "" },
    { OriginalID := "s2", ParentID := "s1", Name := "Work", CreatedAt := "", UpdatedAt := "" } ]

/-- State of the mapping and the store during pass 1, whose lookup by name
finds no record: the store is the initial one followed by the folders created
so far, which have no parent and ids of their own, and the mapping sends
different original ids to different created folders. -/
def Pass1Inv (st0 : Store) (m : GoMap String) (cur : Store) : Prop :=
  ∃ news : List Folder, cur.folders = st0.folders ++ news ∧
    (∀ f ∈ news, f.parentId = "" ∧ f.id ∉ st0.folders.map (fun f => f.id)) ∧
    (news.map (fun f => f.id)).Nodup ∧
    (∀ k x, m.get k = some x → x ∈ news.map (fun f => f.id)) ∧
    (∀ k1 k2 x, m.get k1 = some x → m.get k2 = some x → k1 = k2)

/-- State of the store during pass 2: the initial folders are untouched and
every created folder has no parent or the parent an entry of the snapshot
gives it through the mapping. -/
def Pass2Inv (st0 : Store) (all : List FolderBackup) (m : GoMap String)
    (newIds : List String) (cur : Store) : Prop :=
  ∃ news : List Folder, cur.folders = st0.folders ++ news ∧
    news.map (fun f => f.id) = newIds ∧
    (∀ f ∈ news, f.parentId = "" ∨ ∃ e ∈ all, e.ParentID ≠ "" ∧
      m.get e.OriginalID = some f.id ∧ m.get e.ParentID = some f.parentId)

/-- An environment in which every store call succeeds and the assigned id is
longer than every folder id and every bookmark id of the store. -/
def restoreEnv : Env :=
  { okEnv with
    newId := fun st => String.mk (List.replicate
      (1 + (st.folders.map (fun f => f.id.length)).sum +
        (st.bookmarks.map (fun b => b.id.length)).sum) 'x') }

/-- Two root folders of `u1` with the same name. -/
def storeTwoWork : Store :=
  { folders :=
      [ { id := "f1", userId := "u1", name := "Work", parentId := "", createdAt := "",
          updatedAt := "" },
        { id := "f2", userId := "u1", name := "Work", parentId := "", createdAt := "",
          updatedAt := "" } ]
    bookmarks := []
    settings := [] }

/-- A snapshot entry for the url of bookmark `b1` of `storeToClear` that
carries the title of `b1`, one tag and neither favicon nor folder. -/
def entryRetag : BookmarkBackup :=
  { OriginalID := "o1", FolderID := "", URL := "https://a.example", Title := "A",
    Tags := ["new"], FaviconURL := "", CreatedAt := "", UpdatedAt := "" }

/-- A snapshot entry for the url of bookmark `b1` of `storeToClear` with a new
title and a favicon. -/
def entryRetitle : BookmarkBackup :=
  { OriginalID := "o1", FolderID := "", URL := "https://a.example", Title := "Alpha",
    Tags := [], FaviconURL := "https://a.example/favicon.ico", CreatedAt := "",
    UpdatedAt := "" }

/-- A snapshot entry for a url that `u1` does not have, filed under the
original folder `of2`. -/
def entryNew : BookmarkBackup :=
  { OriginalID := "o9", FolderID := "of2", URL := "https://new.example", Title := "New",
    Tags := [], FaviconURL := "", CreatedAt := "", UpdatedAt := "" }

/-- The tag update of the bookmark loop on the record alone. -/
def retagBookmark (e : BookmarkBackup) (r : Bookmark) : Bookmark :=
  if e.Tags.length > 0 then { r with tags := e.Tags } else r

/-- The new record of the bookmark loop for an entry, before the folder, tag
and timestamp steps. -/
def newBookmarkRecord (u : String) (e : BookmarkBackup) : Bookmark :=
  { id := "", userId := u, title := e.Title, url := e.URL, tags := [], folderId := "",
    faviconUrl := e.FaviconURL, createdAt := "", updatedAt := "" }

/-- The record that the bookmark loop hands to `Save` for an entry: the new
record after the folder, tag and timestamp steps (the lookup by url finds no
record, so every entry gets a new record). -/
def createdBookmarkRecord (u : String) (m : GoMap String) (e : BookmarkBackup) : Bookmark :=
  setBookmarkTimestamps (retagBookmark e (restoreBookmarkFolder m e (newBookmarkRecord u e))) e

/-- The store after the vocabulary step of the bookmark loop for one entry. -/
def restoreVocabulary (env : Env) (u : String) (e : BookmarkBackup) (st : Store) : Store :=
  (restoreBookmarkTags env u e
    { id := "", userId := "", title := "", url := "", tags := [], folderId := "",
      faviconUrl := "", createdAt := "", updatedAt := "" } st).2

/-- A snapshot with the given bookmark entries, no folder entry and no
settings section. -/
def snapshotOfBookmarks (entries : List BookmarkBackup) : WebDAVBackupData :=
  { Version := "1", Bookmarks := entries, Folders := []
    UserSettings :=
      { TagList := none, DarkMode := false, AccentColor := "", DefaultView := "",
        Language := "" } }

/-- A settings section of a snapshot that carries an empty `tagList` array and
nothing else. -/
def settingsEmptyTagList : UserSettingsBackupData :=
  { TagList := some [], DarkMode := false, AccentColor := "", DefaultView := "", Language := "" }

/-- A settings section of a snapshot with an accent colour and a language, no
`tagList` and no default view. -/
def settingsAccentLanguage : UserSettingsBackupData :=
  { TagList := none, DarkMode := true, AccentColor := "#ff0000", DefaultView := "",
    Language := "de" }

/-- The settings record of `u1` in `storeToClear`. -/
def liveSettingsA : UserSettings :=
  { id := "s1", userId := "u1", tagList := ["a", "b", "c", "d", "e"], darkMode := false,
    accentColor := "", defaultView := "", language := "" }

/-- The record that the settings restoration hands to `Save`. -/
def restoredSettingsRecord (settings : UserSettingsBackupData)
    (userSettingsRecord : UserSettings) : UserSettings :=
  let r := match settings.TagList with
    | some tagList => { userSettingsRecord with tagList := tagList }
    | none => userSettingsRecord
  let r := { r with darkMode := settings.DarkMode }
  let r := if settings.AccentColor ≠ "" then
      { r with accentColor := settings.AccentColor } else r
  let r := if settings.DefaultView ≠ "" then
      { r with defaultView := settings.DefaultView } else r
  if settings.Language ≠ "" then { r with language := settings.Language } else r

/-- The materialized path as the specification words it, "the ordered list of
ancestor folder names from root to an entity", relative to a starting point:
`PathBelow folders top f path` says that `path` lists the names of the folders
of `folders` on the parent chain of `f`, from the folder whose parent is `top`
down to and including `f`.  With `top = ""` the chain starts at a root folder
and `path` is the complete path of `f`. -/
inductive PathBelow (folders : List Folder) (top : String) : Folder → List String → Prop
  | start (f : Folder) : f ∈ folders → f.parentId = top → PathBelow folders top f [f.name]
  | next (p f : Folder) (path : List String) : PathBelow folders top p path → f ∈ folders →
      f.parentId = p.id → PathBelow folders top f (path ++ [f.name])

/-- The folder records that the export loads for a user: all of them, or for
an incremental export those updated after `lastSyncTime`. -/
def loadedFolders (st : Store) (userId lastSyncTime : String) : List Folder :=
  st.folders.filter (fun f => exportFilter userId lastSyncTime f.userId f.updatedAt)

/-- The bookmark records that the export loads for a user. -/
def loadedBookmarks (st : Store) (userId lastSyncTime : String) : List Bookmark :=
  st.bookmarks.filter (fun b => exportFilter userId lastSyncTime b.userId b.updatedAt)

/-- Folders `Work` (not updated since January) and `Reports` below it
(updated in March) of `u1`, with one bookmark in `Work` updated in March, an
older one in `Work`, and one in `Reports` updated in March. -/
def storeDated : Store :=
  { folders :=
      [ { id := "f1", userId := "u1", name := "Work", parentId := "",
          createdAt := "2024-01-01 00:00:00.000Z", updatedAt := "2024-01-01 00:00:00.000Z" },
        { id := "f2", userId := "u1", name := "Reports", parentId := "f1",
          createdAt := "2024-01-01 00:00:00.000Z", updatedAt := "2024-03-01 00:00:00.000Z" } ]
    bookmarks :=
      [ { id := "b1", userId := "u1", title := "A", url := "https://a.example", tags := [],
          folderId := "f1", faviconUrl := "", createdAt := "2024-01-02 00:00:00.000Z",
          updatedAt := "2024-03-02 00:00:00.000Z" },
        { id := "b2", userId := "u1", title := "B", url := "https://b.example", tags := [],
          folderId := "f1", faviconUrl := "", createdAt := "2024-01-02 00:00:00.000Z",
          updatedAt := "2024-01-02 00:00:00.000Z" },
        { id := "b3", userId := "u1", title := "C", url := "https://c.example", tags := [],
          folderId := "f2", faviconUrl := "", createdAt := "2024-01-02 00:00:00.000Z",
          updatedAt := "2024-03-03 00:00:00.000Z" } ]
    settings := [] }

/-- The ids and paths of the folder entries and the ids and folder paths of
the bookmark entries of an export response. -/
def exportedPaths (response : Option SyncExportResult) :
    Option (List (String × List String) × List (String × List String)) :=
  match response with
  | some (.ok folders bookmarks _) =>
    some (folders.map (fun x => (x.id, x.path)), bookmarks.map (fun x => (x.id, x.folderPath)))
  | _ => none

/-- What pass 1 and the listings see of a folder: id, owner and name. -/
def folderKey (f : Folder) : String × String × String := (f.id, f.userId, f.name)

/-- A snapshot with the folder `Work`, a folder `Archive` below it, a bookmark
entry for the url of `b1` and one for a new url filed under `Archive`. -/
def snapshotWorkArchive : WebDAVBackupData :=
  { Version := "1"
    Bookmarks := [entryRetag, entryNew]
    Folders :=
      [ { OriginalID := "of1", ParentID := "", Name := "Work", CreatedAt := "", UpdatedAt := "" },
        { OriginalID := "of2", ParentID := "of1", Name := "Archive", CreatedAt := "",
          UpdatedAt := "" } ]
    UserSettings :=
      { TagList := none, DarkMode := false, AccentColor := "", DefaultView := "",
        Language := "" } }

/-! ## Snapshot importer: choice of the snapshot file -/

/-- Go's `strings.HasPrefix`. -/
def HasPrefix (s p : String) : Bool := p.data.isPrefixOf s.data

/-- Go's `strings.HasSuffix`. -/
def HasSuffix (s p : String) : Bool := p.data.isSuffixOf s.data

/-- An `os.FileInfo` of a directory listing; `ModTime` is the instant of the
last modification on a linear time scale. -/
structure FileInfo where
  Name : String
  IsDir : Bool
  ModTime : Int
deriving DecidableEq, Repr

/-- The calls on the `gowebdav` client; `none` stands for a returned error. -/
structure WebDAVClient where
  Read : String → Option String
  ReadDir : String → Option (List FileInfo)

/-- The `for _, file := range files` loop of `webdavRestoreHandler` with its
variables `latestFile` and `latestTime`. -/
def latestBackupLoop : List FileInfo → Option FileInfo → Int → Option FileInfo × Int
  | [], latestFile, latestTime => (latestFile, latestTime)
  | file :: rest, latestFile, latestTime =>
    if !file.IsDir && HasPrefix file.Name "backup_" && HasSuffix file.Name ".json" then
      if latestFile.isNone || decide (latestTime < file.ModTime) then
        latestBackupLoop rest (some file) file.ModTime
      else latestBackupLoop rest latestFile latestTime
    else latestBackupLoop rest latestFile latestTime

/-- Outcome of the file choice of `webdavRestoreHandler`: an error response or
the name and the content of the snapshot file. -/
inductive ReadBackupResult where
  | internalServerError (message : String)
  | badRequest (message : String)
  | ok (downloadedFileName : String) (backupFileData : String)
deriving DecidableEq, Repr

/-- The part of `webdavRestoreHandler` that fetches the snapshot file: the
well-known file first, else the latest `backup_*.json` of the directory.
`Join` is `path.Join`, `configPath` is `webdavConfig.Path`. -/
def webdavRestoreReadBackup (client : WebDAVClient) (Join : String → String → String)
    (configPath : String) : ReadBackupResult :=
  let defaultPath := Join configPath "markhub_backup.json"
  match client.Read defaultPath with
  | some backupFileData => .ok "markhub_backup.json" backupFileData
  | none =>
    match client.ReadDir configPath with
    | none => .internalServerError ("Failed to list files in WebDAV directory " ++ configPath)
    | some files =>
      match (latestBackupLoop files none 0).1 with
      | none => .badRequest "No backup files found in WebDAV storage."
      | some latestFile =>
        let downloadedFileName := latestFile.Name
        let latestFilePath := Join configPath downloadedFileName
        match client.Read latestFilePath with
        | none => .internalServerError ("Failed to read latest backup file " ++ latestFilePath)
        | some backupFileData => .ok downloadedFileName backupFileData

/-- A directory entry that the file choice considers, in the words of the
specification: not a directory, with a name that starts with `backup_` and
ends with `.json`. -/
def IsBackupEntry (file : FileInfo) : Prop :=
  file.IsDir = false ∧ (∃ rest, file.Name = "backup_" ++ rest) ∧
    (∃ front, file.Name = front ++ ".json")

/-- A directory listing with two snapshot files of the same, latest
modification time, an older one, a directory and a file of another name. -/
def listingTwoLatest : List FileInfo :=
  [ { Name := "backup_2024-01-01.json", IsDir := false, ModTime := 100 },
    { Name := "notes.txt", IsDir := false, ModTime := 900 },
    { Name := "backup_2024-03-01.json", IsDir := false, ModTime := 300 },
    { Name := "backup_old.json", IsDir := true, ModTime := 800 },
    { Name := "backup_2024-03-01-copy.json", IsDir := false, ModTime := 300 } ]

/-- A client whose directory holds `listingTwoLatest` and no well-known file;
every listed file can be read and has its own name as content. -/
def clientTwoLatest : WebDAVClient :=
  { Read := fun p => if p = "dav/markhub_backup.json" then none else some p
    ReadDir := fun _ => some listingTwoLatest }

/-- A bookmark write that carries an empty tag, a tag of two blanks and the
known tag `go`. -/
def blankTagRecord : Bookmark :=
  { id := "", userId := "", title := "Blank", url := "https://blank.example",
    tags := ["", "  ", "go"], folderId := "", faviconUrl := "", createdAt := "",
    updatedAt := "" }

/-! ## Batch tagging of one bookmark -/

/-- The pieces of a character list between the characters that satisfy
`sep`; there is one piece more than there are separators. -/
def splitChars (sep : Char → Bool) : List Char → List (List Char)
  | [] => [[]]
  | c :: rest =>
    if sep c then [] :: splitChars sep rest
    else
      match splitChars sep rest with
      | [] => [[c]]
      | piece :: pieces => (c :: piece) :: pieces

/-- The ids with the `parentId` of the folder entries and the ids with the
`folderId` of the bookmark entries of an export response. -/
def exportedParents (response : Option SyncExportResult) :
    Option (List (String × Option String) × List (String × Option String)) :=
  match response with
  | some (.ok folders bookmarks _) =>
    some (folders.map (fun x => (x.id, x.parentId)), bookmarks.map (fun x => (x.id, x.folderId)))
  | _ => none

/-- A snapshot with two entries named `Work` (the second below `Top`), a
folder `Notes` below the first of them, and a bookmark in each. -/
def snapshotTwinFolders : WebDAVBackupData :=
  { Version := "1"
    Bookmarks :=
      [ { OriginalID := "o1", FolderID := "a1", URL := "https://one.example", Title := "One",
          Tags := [], FaviconURL := "", CreatedAt := "", UpdatedAt := "" },
        { OriginalID := "o2", FolderID := "a2", URL := "https://two.example", Title := "Two",
          Tags := [], FaviconURL := "", CreatedAt := "", UpdatedAt := "" } ]
    Folders :=
      [ { OriginalID := "p", ParentID := "", Name := "Top", CreatedAt := "", UpdatedAt := "" },
        { OriginalID := "a1", ParentID := "", Name := "Work", CreatedAt := "", UpdatedAt := "" },
        { OriginalID := "c1", ParentID := "a1", Name := "Notes", CreatedAt := "",
          UpdatedAt := "" },
        { OriginalID := "a2", ParentID := "p", Name := "Work", CreatedAt := "",
          UpdatedAt := "" } ]
    UserSettings :=
      { TagList := none, DarkMode := false, AccentColor := "", DefaultView := "",
        Language := "" } }

/-- The path loop with the statement `folderMap[newKey] = newFolder` left
out: the lookup stays the listing made at the start of the request. -/
def ensureFolderPathLoopListingOnly (env : Env) (userId : String) :
    List String → PathCursor → Store → Store × Except String PathCursor
  | [], cur, st => (st, .ok cur)
  | folderName :: rest, cur, st =>
    let parentIdStr := parentIdStrOf cur.currentParentId
    let lookupKey := folderName ++ ":" ++ parentIdStr
    match cur.folderMap.get lookupKey with
    | some existingFolder =>
      ensureFolderPathLoopListingOnly env userId rest
        { cur with currentParentId := some existingFolder.id } st
    | none =>
      if env.hasCollection "folders" then
        let newFolder : Folder :=
          { id := "", userId := userId, name := folderName,
            parentId := parentIdStrOf cur.currentParentId, createdAt := "", updatedAt := "" }
        match createFolder env st newFolder with
        | none => (st, .error ("Failed to create folder: " ++ folderName))
        | some (saved, st') =>
          ensureFolderPathLoopListingOnly env userId rest
            { currentParentId := some saved.id
              createdFolders := cur.createdFolders ++ [folderName]
              folderMap := cur.folderMap } st'
      else (st, .error "Failed to find folders collection.")

/-- `ensureFolderPathHandler` over `ensureFolderPathLoopListingOnly`. -/
def ensureFolderPathHandlerListingOnly (env : Env) (auth : Option String)
    (folderPath : List String) (st : Store) : Store × EnsureFolderPathResult :=
  match auth with
  | none => (st, .unauthorized)
  | some userId =>
    if folderPath.length = 0 then (st, .ok none [])
    else if env.fetchOk "folders" then
      let folderMap := buildFolderMap (userFolders st userId) []
      match ensureFolderPathLoopListingOnly env userId folderPath
          { currentParentId := none, createdFolders := [], folderMap := folderMap } st with
      | (st', .ok cur) => (st', .ok cur.currentParentId cur.createdFolders)
      | (st', .error message) => (st', .internalServerError message)
    else (st, .internalServerError "Failed to fetch user's folders.")

/-- What the response of the handler takes from the outcome of the loop. -/
def cursorView (r : Except String PathCursor) : Except String (Option String × List String) :=
  match r with
  | .ok cur => .ok (cur.currentParentId, cur.createdFolders)
  | .error message => .error message

/-- The string `p` is empty or in use in the store as the id or the
`parentId` of a folder. -/
def UsedId (st : Store) (p : String) : Prop :=
  p = "" ∨ p ∈ st.folders.map (fun f => f.id) ∨ p ∈ st.folders.map (fun f => f.parentId)

/-- Every key of the lookup is `name + ":" + p` with `p` free of colons and in
use in the store. -/
def LookupKeys (m : GoMap Folder) (st : Store) : Prop :=
  ∀ kv ∈ m, ∃ n p, kv.1 = n ++ ":" ++ p ∧ ':' ∉ p.data ∧ UsedId st p

/-- As `LookupKeys`, and no key has `c` as its parent part. -/
def LookupAwayFrom (m : GoMap Folder) (c : String) (st : Store) : Prop :=
  ∀ kv ∈ m, ∃ n p, kv.1 = n ++ ":" ++ p ∧ ':' ∉ p.data ∧ p ≠ c ∧ UsedId st p

/-- An environment in which every store call succeeds; the assigned id is
longer than every folder id and every `parentId` of the store. -/
def pathEnv : Env :=
  { okEnv with
    newId := fun st => String.mk (List.replicate
      (1 + (st.folders.map (fun f => f.id.length)).sum +
        (st.folders.map (fun f => f.parentId.length)).sum) 'x') }

/-- A settings section of a snapshot that carries `darkMode = true` and none
of `tagList`, `accentColor`, `defaultView`, `language`. -/
def settingsDarkOnly : UserSettingsBackupData :=
  { TagList := none, DarkMode := true, AccentColor := "", DefaultView := "", Language := "" }

/-- A snapshot without folders and bookmarks around a settings section. -/
def snapshotOfSettings (settings : UserSettingsBackupData) : WebDAVBackupData :=
  { Version := "1", Bookmarks := [], Folders := [], UserSettings := settings }

/-- Go's `strings.TrimPrefix`. -/
def TrimPrefix (s p : String) : String :=
  if HasPrefix s p then String.mk (s.data.drop p.data.length) else s

/-- Go's `strings.TrimSuffix`. -/
def TrimSuffix (s p : String) : String :=
  if HasSuffix s p then String.mk (s.data.take (s.data.length - p.data.length)) else s

/-- Outcome of the exchange with the AI API: the request could not be built,
the call failed, or an answer arrived with its status code and its body;
`decoded` is `none` when the body is no JSON object, else it holds the string
at `choices[0].message.content` when the body has one. -/
inductive AIExchange where
  | requestFailed
  | callFailed
  | answered (statusCode : Nat) (decoded : Option (Option String))
deriving DecidableEq, Repr

/-- Response of `suggestFolderHandler`. -/
inductive SuggestFolderResult where
  | unauthorized
  | badRequest (message : String)
  | notFound
  | internalServerError (message : String)
  | ok (suggested_folder : String)
deriving DecidableEq, Repr

/-- The clean-up of the AI content before it is parsed: surrounding white
space and a surrounding code fence are taken off. -/
def cleanAIContent (content : String) : String :=
  let cleanContent := TrimSpace content
  let cleanContent :=
    if HasPrefix cleanContent "```json" then
      TrimSuffix (TrimPrefix cleanContent "```json") "```"
    else if HasPrefix cleanContent "```" then
      TrimSuffix (TrimPrefix cleanContent "```") "```"
    else cleanContent
  TrimSpace cleanContent

/-- The loop over `existingFolderNames`: the first name that `EqualFold`
matches, trimmed, with the trimmed suggestion. -/
def matchExistingName (EqualFold : String → String → Bool) (trimmedAISuggestion : String) :
    List String → Option String
  | [] => none
  | existingName :: rest =>
    let trimmedExistingName := TrimSpace existingName
    if EqualFold trimmedAISuggestion trimmedExistingName then some existingName
    else matchExistingName EqualFold trimmedAISuggestion rest

/-- The value of `suggestedFolder` after the answer of the AI was read.
`Unmarshal` is `json.Unmarshal` into the `folder_name` field. -/
def suggestedFolderOf (Unmarshal : String → Option String)
    (EqualFold : String → String → Bool) (existingFolderNames : List String)
    (content : Option String) : String :=
  match content with
  | none => ""
  | some content =>
    match Unmarshal (cleanAIContent content) with
    | none => ""
    | some FolderName =>
      match matchExistingName EqualFold (TrimSpace FolderName) existingFolderNames with
      | some matchedExistingName => matchedExistingName
      | none => ""

/-- `suggestFolderHandler`.  `body` is the bound request body (title and
url), `geminiApiKey` reads the field of that name from a settings record,
`exchange` is the outcome of the call of the AI API. -/
def suggestFolderHandler (env : Env) (geminiApiKey : UserSettings → String)
    (Unmarshal : String → Option String) (EqualFold : String → String → Bool)
    (auth : Option String) (body : Option (String × String)) (exchange : AIExchange)
    (st : Store) : SuggestFolderResult :=
  match auth with
  | none => .unauthorized
  | some userId =>
    match body with
    | none => .badRequest "Failed to parse request data (expected title and url)"
    | some (title, url) =>
      if title = "" ∨ url = "" then
        .badRequest "Title and URL are required for folder suggestion."
      else
        match findUserSettings st userId with
        | none => .notFound
        | some userSettings =>
          if geminiApiKey userSettings = "" then
            .badRequest
              "Gemini API configuration not found in user settings for folder suggestion."
          else if env.fetchOk "folders" then
            let folderRecords := userFolders st userId
            if folderRecords.length = 0 then .ok ""
            else
              let existingFolderNames := folderRecords.map (fun record => record.name)
              match exchange with
              | .requestFailed =>
                .internalServerError "SuggestFolder: Failed to create AI HTTP request."
              | .callFailed => .internalServerError "SuggestFolder: Failed to call AI API."
              | .answered statusCode decoded =>
                if statusCode ≠ 200 then
                  .internalServerError
                    ("SuggestFolder: AI API returned non-200 status: " ++ toString statusCode)
                else
                  match decoded with
                  | none =>
                    .internalServerError "SuggestFolder: Failed to parse AI API response."
                  | some content =>
                    .ok (suggestedFolderOf Unmarshal EqualFold existingFolderNames content)
          else .internalServerError "Failed to fetch user's folders."

/-- A stand-in for `strings.EqualFold` in examples: equality after the
letters of both strings were put in lower case. -/
def lowerCaseEqual (a b : String) : Bool :=
  a.data.map Char.toLower == b.data.map Char.toLower

/-- A stand-in for the JSON decoding in examples: the text after `name=`. -/
def plainUnmarshal (s : String) : Option String :=
  if HasPrefix s "name=" then some (TrimPrefix s "name=") else none

theorem NonzeroUniques.loop_mem (l : List String) : ∀ (acc : List String) (x : String),
    x ∈ NonzeroUniques.loop acc l ↔ x ∈ acc ∨ (x ∈ l ∧ x ≠ "") := by
  induction l with
  | nil => intro acc x; simp [NonzeroUniques.loop]
  | cons v rest ih =>
    intro acc x
    unfold NonzeroUniques.loop
    by_cases hv : v = ""
    · simp only [hv, if_true, ih, List.mem_cons]
      constructor
      · rintro (h | ⟨h, hne⟩)
        · exact Or.inl h
        · exact Or.inr ⟨Or.inr h, hne⟩
      · rintro (h | ⟨h | h, hne⟩)
        · exact Or.inl h
        · exact absurd h hne
        · exact Or.inr ⟨h, hne⟩
    · by_cases hm : v ∈ acc
      · simp only [hv, if_false, hm, if_true, ih, List.mem_cons]
        constructor
        · rintro (h | ⟨h, hne⟩)
          · exact Or.inl h
          · exact Or.inr ⟨Or.inr h, hne⟩
        · rintro (h | ⟨h | h, hne⟩)
          · exact Or.inl h
          · exact Or.inl (h ▸ hm)
          · exact Or.inr ⟨h, hne⟩
      · simp only [hv, if_false, hm, ih, List.mem_append, List.mem_cons, List.not_mem_nil,
          or_false]
        constructor
        · rintro ((h | h) | ⟨h, hne⟩)
          · exact Or.inl h
          · exact Or.inr ⟨Or.inl h, h ▸ hv⟩
          · exact Or.inr ⟨Or.inr h, hne⟩
        · rintro (h | ⟨h | h, hne⟩)
          · exact Or.inl (Or.inl h)
          · exact Or.inl (Or.inr h)
          · exact Or.inr ⟨h, hne⟩

theorem NonzeroUniques.loop_nodup (l : List String) : ∀ (acc : List String),
    acc.Nodup → (NonzeroUniques.loop acc l).Nodup := by
  induction l with
  | nil => intro acc h; simpa [NonzeroUniques.loop] using h
  | cons v rest ih =>
    intro acc h
    unfold NonzeroUniques.loop
    by_cases hv : v = ""
    · simp only [hv, if_true]; exact ih acc h
    · by_cases hm : v ∈ acc
      · simp only [hv, if_false, hm, if_true]; exact ih acc h
      · simp only [hv, if_false, hm]
        apply ih
        rw [List.nodup_append]
        refine ⟨h, List.nodup_singleton v, ?_⟩
        intro a ha hb
        rw [List.mem_singleton] at hb
        exact hm (hb ▸ ha)

theorem GetStringSlice_mem (stored : List String) (x : String) :
    x ∈ GetStringSlice stored ↔ x ∈ stored ∧ x ≠ "" := by
  simp [GetStringSlice, NonzeroUniques, NonzeroUniques.loop_mem]

theorem GetStringSlice_nodup (stored : List String) : (GetStringSlice stored).Nodup :=
  NonzeroUniques.loop_nodup stored [] List.nodup_nil

theorem GetStringSlice_no_empty (stored : List String) : "" ∉ GetStringSlice stored := by
  intro h
  exact ((GetStringSlice_mem stored "").1 h).2 rfl

theorem newUniqueTags_eq_filter (tagList existingTags : List String) :
    newUniqueTags tagList existingTags = existingTags.filter (fun t => t ∉ tagList) := by
  induction existingTags with
  | nil => rfl
  | cons t rest ih =>
    unfold newUniqueTags
    by_cases h : t ∈ tagList
    · simp [h, ih]
    · simp [h, ih]

theorem find_settings_after_save (r s : UserSettings) (u : String) (hid : r.id = s.id)
    (hu : r.userId = u) : ∀ (l : List UserSettings),
    l.find? (fun x => x.userId = u) = some s →
    (l.map (fun x => if x.id = r.id then r else x)).find? (fun x => x.userId = u) = some r := by
  intro l
  induction l with
  | nil => intro h; simp at h
  | cons x xs ih =>
    intro h
    rw [List.find?_cons] at h
    rw [List.map_cons, List.find?_cons]
    by_cases hx : x.userId = u
    · simp only [hx, decide_True] at h
      injection h with h
      subst h
      simp [hid, hu]
    · simp only [hx, decide_False] at h
      by_cases hxi : x.id = r.id
      · simp [hxi, hu]
      · simp only [hxi, if_false, hx, decide_False]
        exact ih h

theorem stripBookmark_userId (deleted : List String) (b : Bookmark) :
    (stripBookmark deleted b).userId = b.userId := by
  unfold stripBookmark; split_ifs <;> rfl

theorem GoMap.get_set {β : Type} (m : GoMap β) (k k' : String) (v : β) :
    (m.set k v).get k' = if k' = k then some v else m.get k' := by
  unfold GoMap.set GoMap.get
  rw [List.lookup_cons]
  by_cases h : k' = k
  · simp [h]
  · have : (k' == k) = false := by simpa using h
    simp [this, h]

/-- C8: the bookmark create and update hooks keep the stored vocabulary free
of repetitions: whatever tag list the bookmark carries and whether or not the
settings save succeeds, a user's `tagList` without duplicates before the hook
has none after it. -/
theorem bookmark_hook_keeps_vocabulary_nodup (env : Env) (authId : String) (record : Bookmark)
    (st : Store) (userSettings : UserSettings)
    (hfind : findUserSettings st authId = some userSettings)
    (hnd : userSettings.tagList.Nodup)
    (hook : Env → Option String → Bookmark → Store → Bookmark × Store)
    (hhook : hook = onBookmarkCreateRequest ∨ hook = onBookmarkUpdateRequest) :
    ∃ s', findUserSettings (hook env (some authId) record st).2 authId = some s' ∧
      s'.tagList.Nodup := by
  have hbody : hook env (some authId) record st =
      bookmarkRequestHook env (some authId) record st := by
    rcases hhook with h | h <;> subst h <;> rfl
  rw [hbody]
  have hu : userSettings.userId = authId := by
    have := List.find?_some hfind
    simpa using this
  unfold bookmarkRequestHook
  simp only [hfind]
  split_ifs with h1 h2
  · cases hs : saveSettings env st { userSettings with tagList :=
        (GetStringSlice userSettings.tagList ++ newUniqueTags
          (GetStringSlice userSettings.tagList) (GetStringSlice record.tags)) } with
    | none => exact ⟨userSettings, hfind, hnd⟩
    | some st' =>
      unfold saveSettings at hs
      split_ifs at hs
      injection hs with hs
      subst hs
      refine ⟨_, find_settings_after_save { userSettings with tagList :=
        (GetStringSlice userSettings.tagList ++ newUniqueTags
          (GetStringSlice userSettings.tagList) (GetStringSlice record.tags)) }
        userSettings authId rfl hu _ hfind, ?_⟩
      show (GetStringSlice userSettings.tagList ++ newUniqueTags
          (GetStringSlice userSettings.tagList) (GetStringSlice record.tags)).Nodup
      rw [newUniqueTags_eq_filter, List.nodup_append]
      refine ⟨GetStringSlice_nodup _, (GetStringSlice_nodup _).filter _, ?_⟩
      intro a ha hb
      have := (List.mem_filter.1 hb).2
      simp only [decide_eq_true_eq] at this
      exact this ha
  · exact ⟨userSettings, hfind, hnd⟩
  · exact ⟨userSettings, hfind, hnd⟩

/-- The hook at `taggedRecord`, whose tag list repeats `rust`: discharges the
hypotheses of C8. -/
theorem bookmark_hook_keeps_vocabulary_nodup_witness :
    findUserSettings storeU1 "u1" = some settingsU1 ∧ settingsU1.tagList.Nodup ∧
    ∃ s', findUserSettings (onBookmarkUpdateRequest okEnv (some "u1") taggedRecord storeU1).2
        "u1" = some s' ∧ s'.tagList.Nodup :=
  ⟨by decide, by decide, bookmark_hook_keeps_vocabulary_nodup okEnv "u1" taggedRecord storeU1
    settingsU1 (by decide) (by decide) onBookmarkUpdateRequest (Or.inr rfl)⟩

/-- The error the folder loop leaves in `firstError`: the one it started with,
else the first folder of the listing whose delete fails. -/
theorem deleteFoldersLoop_error (env : Env) : ∀ (l : List Folder) (st : Store) (count : Nat)
    (firstError : Option ClearError),
    (deleteFoldersLoop env l st count firstError).2.2 =
      match firstError with
      | some e => some e
      | none => (l.find? (fun f => !env.deleteFolderOk f.id)).map
          (fun f => ClearError.deleteFolder f.id) := by
  intro l
  induction l with
  | nil => intro st count fe; cases fe <;> simp [deleteFoldersLoop]
  | cons f rest ih =>
    intro st count fe
    unfold deleteFoldersLoop deleteFolder
    by_cases hok : env.deleteFolderOk f.id = true
    · simp only [hok, if_true]
      rw [ih]
      cases fe <;> simp [hok]
    · simp only [hok, Bool.false_eq_true, if_false]
      rw [ih]
      cases fe <;> simp [hok]

/-- The folder loop when every delete of the listing succeeds. -/
theorem deleteFoldersLoop_ok (env : Env) : ∀ (l : List Folder) (st : Store) (count : Nat)
    (firstError : Option ClearError),
    (∀ f ∈ l, env.deleteFolderOk f.id = true) →
    ∃ st1, deleteFoldersLoop env l st count firstError = (st1, count + l.length, firstError) ∧
      st1.settings = st.settings ∧
      (∃ g : Bookmark → Bookmark, (∀ b, (g b).id = b.id ∧ (g b).userId = b.userId) ∧
        st1.bookmarks = st.bookmarks.map g) ∧
      (∀ x ∈ st1.folders, ∃ y ∈ st.folders, y.id = x.id ∧ y.userId = x.userId ∧
        x.id ∉ l.map (fun f => f.id)) := by
  intro l
  induction l with
  | nil =>
    intro st count fe _
    refine ⟨st, by simp [deleteFoldersLoop], rfl, ⟨id, fun b => ⟨rfl, rfl⟩, by simp⟩, ?_⟩
    intro x hx
    exact ⟨x, hx, rfl, rfl, by simp⟩
  | cons f rest ih =>
    intro st count fe hall
    have hok := hall f (List.mem_cons_self _ _)
    unfold deleteFoldersLoop deleteFolder
    simp only [hok, if_true]
    obtain ⟨st1, hloop, hset, ⟨g, hg, hbm⟩, hfold⟩ := ih
      { st with
        folders := (st.folders.filter (fun x => x.id ≠ f.id)).map
          (fun x => if x.parentId = f.id then { x with parentId := "" } else x)
        bookmarks := st.bookmarks.map
          (fun b => if b.folderId = f.id then { b with folderId := "" } else b) }
      (count + 1) fe (fun f2 hf2 => hall f2 (List.mem_cons_of_mem _ hf2))
    refine ⟨st1, ?_, hset, ?_, ?_⟩
    · rw [hloop, List.length_cons]
      congr 2
      omega
    · refine ⟨fun b => g (if b.folderId = f.id then { b with folderId := "" } else b), ?_, ?_⟩
      · intro b
        constructor
        · rw [(hg _).1]; split_ifs <;> rfl
        · rw [(hg _).2]; split_ifs <;> rfl
      · rw [hbm, List.map_map]; rfl
    · intro x hx
      obtain ⟨y, hy, hyid, hyu, hnot⟩ := hfold x hx
      obtain ⟨z, hz, hzy⟩ := List.mem_map.1 hy
      have hz2 := List.mem_filter.1 hz
      have hzid : z.id = y.id := by rw [← hzy]; split_ifs <;> rfl
      have hzu : z.userId = y.userId := by rw [← hzy]; split_ifs <;> rfl
      refine ⟨z, hz2.1, hzid.trans hyid, hzu.trans hyu, ?_⟩
      rw [List.map_cons, List.mem_cons]
      rintro (h | h)
      · have : z.id ≠ f.id := by simpa using hz2.2
        exact this (hzid.trans (hyid.trans h))
      · exact hnot h

theorem deleteBookmarksLoop_error (env : Env) : ∀ (l : List Bookmark) (st : Store) (count : Nat)
    (firstError : Option ClearError),
    (deleteBookmarksLoop env l st count firstError).2.2 =
      match firstError with
      | some e => some e
      | none => (l.find? (fun b => !env.deleteBookmarkOk b.id)).map
          (fun b => ClearError.deleteBookmark b.id) := by
  intro l
  induction l with
  | nil => intro st count fe; cases fe <;> simp [deleteBookmarksLoop]
  | cons b rest ih =>
    intro st count fe
    unfold deleteBookmarksLoop deleteBookmark
    by_cases hok : env.deleteBookmarkOk b.id = true
    · simp only [hok, if_true]
      rw [ih]
      cases fe <;> simp [hok]
    · simp only [hok, Bool.false_eq_true, if_false]
      rw [ih]
      cases fe <;> simp [hok]

/-- The bookmark loop when every delete of the listing succeeds. -/
theorem deleteBookmarksLoop_ok (env : Env) : ∀ (l : List Bookmark) (st : Store) (count : Nat)
    (firstError : Option ClearError),
    (∀ b ∈ l, env.deleteBookmarkOk b.id = true) →
    ∃ st2, deleteBookmarksLoop env l st count firstError = (st2, count + l.length, firstError) ∧
      st2.settings = st.settings ∧ st2.folders = st.folders ∧
      (∀ x ∈ st2.bookmarks, x ∈ st.bookmarks ∧ x.id ∉ l.map (fun b => b.id)) := by
  intro l
  induction l with
  | nil =>
    intro st count fe _
    exact ⟨st, by simp [deleteBookmarksLoop], rfl, rfl, fun x hx => ⟨hx, by simp⟩⟩
  | cons b rest ih =>
    intro st count fe hall
    have hok := hall b (List.mem_cons_self _ _)
    unfold deleteBookmarksLoop deleteBookmark
    simp only [hok, if_true]
    obtain ⟨st2, hloop, hset, hfo, hbm⟩ := ih
      { st with bookmarks := st.bookmarks.filter (fun x => x.id ≠ b.id) }
      (count + 1) fe (fun b2 hb2 => hall b2 (List.mem_cons_of_mem _ hb2))
    refine ⟨st2, ?_, hset, hfo, ?_⟩
    · rw [hloop, List.length_cons]
      congr 2
      omega
    · intro x hx
      obtain ⟨hx1, hx2⟩ := hbm x hx
      have hx3 := List.mem_filter.1 hx1
      refine ⟨hx3.1, ?_⟩
      rw [List.map_cons, List.mem_cons]
      rintro (h | h)
      · have : x.id ≠ b.id := by simpa using hx3.2
        exact this h
      · exact hx2 h

theorem clearAllUserDataHandler_of_error (env : Env) (u : String) (st st1 : Store)
    (c : ClearCounts) (e : ClearError) (h : clearAllUserDataTx env u st = (st1, c, some e)) :
    clearAllUserDataHandler env (some u) st = (st, .internalServerError e) := by
  simp [clearAllUserDataHandler, RunInTransaction, h]

theorem clearAllUserDataHandler_of_ok (env : Env) (u : String) (st st1 : Store)
    (c : ClearCounts) (h : clearAllUserDataTx env u st = (st1, c, none)) :
    clearAllUserDataHandler env (some u) st =
      (st1, .cleared c.clearedBookmarksCount c.clearedFoldersCount c.tagsCleared) := by
  simp [clearAllUserDataHandler, RunInTransaction, h]

/-- A failed request leaves the store as it was, whatever failed. -/
theorem clearAllUserDataHandler_rollback (env : Env) (u : String) (st : Store)
    (e : ClearError)
    (h : (clearAllUserDataHandler env (some u) st).2 = .internalServerError e) :
    (clearAllUserDataHandler env (some u) st).1 = st := by
  rcases htx : clearAllUserDataTx env u st with ⟨st1, c, err⟩
  cases err with
  | some e2 => rw [clearAllUserDataHandler_of_error env u st st1 c e2 htx]
  | none =>
    rw [clearAllUserDataHandler_of_ok env u st st1 c htx] at h
    simp at h

/-- The listing of the user's bookmarks has the same ids after the folder
loop as before it. -/
theorem userBookmarks_ids_after_map (u : String) (g : Bookmark → Bookmark)
    (hg : ∀ b, (g b).id = b.id ∧ (g b).userId = b.userId) (l : List Bookmark) :
    (l.map g).filter (fun b => b.userId = u) = (l.filter (fun b => b.userId = u)).map g := by
  induction l with
  | nil => rfl
  | cons b rest ih =>
    rw [List.map_cons, List.filter_cons, List.filter_cons, (hg b).2]
    by_cases hb : b.userId = u
    · simp [hb, ih]
    · simp [hb, ih]

theorem find_after_map_id (ok : String → Bool) (g : Bookmark → Bookmark)
    (hg : ∀ b, (g b).id = b.id ∧ (g b).userId = b.userId) (l : List Bookmark) :
    ((l.map g).find? (fun b => !ok b.id)).map (fun b => b.id) =
      (l.find? (fun b => !ok b.id)).map (fun b => b.id) := by
  induction l with
  | nil => rfl
  | cons b rest ih =>
    rw [List.map_cons, List.find?_cons, List.find?_cons, (hg b).1]
    cases ok b.id
    · simp [(hg b).1]
    · simpa using ih

theorem find_none_of_all_ok {α : Type} (ok : α → Bool) (l : List α)
    (h : ∀ x ∈ l, ok x = true) : l.find? (fun x => !ok x) = none := by
  rw [List.find?_eq_none]
  intro x hx
  simp [h x hx]

theorem all_ok_of_find_none {α : Type} (ok : α → Bool) (l : List α)
    (h : l.find? (fun x => !ok x) = none) : ∀ x ∈ l, ok x = true := by
  rw [List.find?_eq_none] at h
  intro x hx
  simpa using h x hx

/-- The transaction closure on its successful path. -/
theorem clearAllUserDataTx_success (env : Env) (u : String) (st st' : Store) (c : ClearCounts)
    (h : clearAllUserDataTx env u st = (st', c, none)) :
    c.clearedFoldersCount = (userFolders st u).length ∧
    c.clearedBookmarksCount = (userBookmarks st u).length ∧
    c.tagsCleared = (findUserSettings st u).isSome ∧
    userFolders st' u = [] ∧ userBookmarks st' u = [] ∧
    (∀ s, findUserSettings st u = some s →
      env.saveSettingsOk { s with tagList := [] } = true ∧
      st'.settings = st.settings.map
        (fun x => if x.id = s.id then { s with tagList := [] } else x)) ∧
    (findUserSettings st u = none → st'.settings = st.settings) := by
  unfold clearAllUserDataTx at h
  by_cases h1 : env.hasCollection "folders" = true
  swap
  · simp [h1] at h
  by_cases h2 : env.fetchOk "folders" = true
  swap
  · simp [h1, h2] at h
  simp only [h1, h2, if_true] at h
  rcases hloop : deleteFoldersLoop env (userFolders st u) st 0 none with ⟨st1, cf, fe⟩
  rw [hloop] at h
  have herr := deleteFoldersLoop_error env (userFolders st u) st 0 none
  rw [hloop] at herr
  cases fe with
  | some e => simp at h
  | none =>
    simp only at herr h
    have hallF : ∀ f ∈ userFolders st u, env.deleteFolderOk f.id = true := by
      apply all_ok_of_find_none (fun f : Folder => env.deleteFolderOk f.id)
      cases hf : (userFolders st u).find? (fun f => !env.deleteFolderOk f.id) with
      | none => rfl
      | some f => rw [hf] at herr; simp at herr
    obtain ⟨st1', hloop', hset1, ⟨g, hg, hbm1⟩, hfold1⟩ :=
      deleteFoldersLoop_ok env (userFolders st u) st 0 none hallF
    rw [hloop] at hloop'
    injection hloop' with hst1 hrest
    injection hrest with hcf _
    subst hst1
    by_cases h3 : env.hasCollection "bookmarks" = true
    swap
    · simp [h3] at h
    by_cases h4 : env.fetchOk "bookmarks" = true
    swap
    · simp [h3, h4] at h
    simp only [h3, h4, if_true] at h
    rcases hloopB : deleteBookmarksLoop env (userBookmarks st1 u) st1 0 none with ⟨st2, cb, feB⟩
    rw [hloopB] at h
    have herrB := deleteBookmarksLoop_error env (userBookmarks st1 u) st1 0 none
    rw [hloopB] at herrB
    cases feB with
    | some e => simp at h
    | none =>
      simp only at herrB h
      have hallB : ∀ b ∈ userBookmarks st1 u, env.deleteBookmarkOk b.id = true := by
        apply all_ok_of_find_none (fun b : Bookmark => env.deleteBookmarkOk b.id)
        cases hf : (userBookmarks st1 u).find? (fun b => !env.deleteBookmarkOk b.id) with
        | none => rfl
        | some f => rw [hf] at herrB; simp at herrB
      obtain ⟨st2', hloopB', hset2, hfo2, hbm2⟩ :=
        deleteBookmarksLoop_ok env (userBookmarks st1 u) st1 0 none hallB
      rw [hloopB] at hloopB'
      injection hloopB' with hst2 hrestB
      injection hrestB with hcb _
      subst hst2
      have hlenB : (userBookmarks st1 u).length = (userBookmarks st u).length := by
        unfold userBookmarks
        rw [hbm1, userBookmarks_ids_after_map u g hg, List.length_map]
      have hfindS : findUserSettings st2 u = findUserSettings st u := by
        unfold findUserSettings
        rw [hset2, hset1]
      have hnoF : ∀ st3 : Store, st3.folders = st2.folders → userFolders st3 u = [] := by
        intro st3 h3f
        unfold userFolders
        rw [h3f, hfo2, List.filter_eq_nil_iff]
        intro x hx hxu
        obtain ⟨y, hy, hyid, hyu, hnot⟩ := hfold1 x hx
        apply hnot
        refine List.mem_map.2 ⟨y, List.mem_filter.2 ⟨hy, ?_⟩, hyid⟩
        simp only [decide_eq_true_eq] at hxu ⊢
        rw [hyu]; exact hxu
      have hnoB : ∀ st3 : Store, st3.bookmarks = st2.bookmarks → userBookmarks st3 u = [] := by
        intro st3 h3b
        unfold userBookmarks
        rw [h3b, List.filter_eq_nil_iff]
        intro x hx hxu
        obtain ⟨hx1, hx2⟩ := hbm2 x hx
        apply hx2
        exact List.mem_map.2 ⟨x, List.mem_filter.2 ⟨hx1, hxu⟩, rfl⟩
      rw [hfindS] at h
      cases hs : findUserSettings st u with
      | none =>
        rw [hs] at h
        simp only [Prod.mk.injEq, and_true] at h
        obtain ⟨hst, hc⟩ := h
        subst hst
        subst hc
        refine ⟨by simpa using hcf, ?_, rfl, hnoF _ rfl, hnoB _ rfl, ?_, ?_⟩
        · show cb = _
          rw [← hlenB]; simpa using hcb
        · intro s hs2; simp at hs2
        · intro _; rw [hset2, hset1]
      | some s =>
        rw [hs] at h
        simp only [saveSettings] at h
        by_cases h5 : env.saveSettingsOk { s with tagList := [] } = true
        swap
        · simp [h5] at h
        simp only [h5, if_true, Prod.mk.injEq, and_true] at h
        obtain ⟨hst, hc⟩ := h
        subst hst
        subst hc
        refine ⟨by simpa using hcf, ?_, rfl, hnoF _ rfl, hnoB _ rfl, ?_, ?_⟩
        · show cb = _
          rw [← hlenB]; simpa using hcb
        · intro s2 hs2
          injection hs2 with hs2
          subst hs2
          refine ⟨h5, ?_⟩
          simp only [hset2, hset1]
        · intro hn; simp at hn

/-! ## Claims on the bulk data clearer -/

/-- C4: whichever step of `clearAllUserDataHandler` fails first (the lookup of
a collection, the fetch of the user's folders or bookmarks, a folder delete, a
bookmark delete, the save of the emptied `tagList`), the handler answers with
an error that carries that first failure, and the store it leaves is the store
it was given. -/
theorem clear_failure_reports_first_error_and_rolls_back (env : Env) (u : String)
    (st : Store) :
    (∀ e, (clearAllUserDataHandler env (some u) st).2 = .internalServerError e →
      (clearAllUserDataHandler env (some u) st).1 = st) ∧
    (env.hasCollection "folders" = false →
      clearAllUserDataHandler env (some u) st =
        (st, .internalServerError (.findCollection "folders"))) ∧
    (env.hasCollection "folders" = true → env.fetchOk "folders" = false →
      clearAllUserDataHandler env (some u) st =
        (st, .internalServerError (.fetchRecords "folders"))) ∧
    (env.hasCollection "folders" = true → env.fetchOk "folders" = true →
      ∀ f, (userFolders st u).find? (fun f => !env.deleteFolderOk f.id) = some f →
        clearAllUserDataHandler env (some u) st =
          (st, .internalServerError (.deleteFolder f.id))) ∧
    (env.hasCollection "folders" = true → env.fetchOk "folders" = true →
      (∀ f ∈ userFolders st u, env.deleteFolderOk f.id = true) →
      (env.hasCollection "bookmarks" = false →
        clearAllUserDataHandler env (some u) st =
          (st, .internalServerError (.findCollection "bookmarks"))) ∧
      (env.hasCollection "bookmarks" = true → env.fetchOk "bookmarks" = false →
        clearAllUserDataHandler env (some u) st =
          (st, .internalServerError (.fetchRecords "bookmarks"))) ∧
      (env.hasCollection "bookmarks" = true → env.fetchOk "bookmarks" = true →
        ∀ b, (userBookmarks st u).find? (fun b => !env.deleteBookmarkOk b.id) = some b →
          clearAllUserDataHandler env (some u) st =
            (st, .internalServerError (.deleteBookmark b.id))) ∧
      (env.hasCollection "bookmarks" = true → env.fetchOk "bookmarks" = true →
        (∀ b ∈ userBookmarks st u, env.deleteBookmarkOk b.id = true) →
        ∀ s, findUserSettings st u = some s →
          env.saveSettingsOk { s with tagList := [] } = false →
          clearAllUserDataHandler env (some u) st =
            (st, .internalServerError (.clearTagList u)))) := by
  refine ⟨fun e h => clearAllUserDataHandler_rollback env u st e h, ?_, ?_, ?_, ?_⟩
  · intro h1
    apply clearAllUserDataHandler_of_error env u st st ⟨0, 0, false⟩
    simp [clearAllUserDataTx, h1]
  · intro h1 h2
    apply clearAllUserDataHandler_of_error env u st st ⟨0, 0, false⟩
    simp [clearAllUserDataTx, h1, h2]
  · intro h1 h2 f hf
    rcases hloop : deleteFoldersLoop env (userFolders st u) st 0 none with ⟨st1, cf, fe⟩
    have herr := deleteFoldersLoop_error env (userFolders st u) st 0 none
    rw [hloop, hf] at herr
    simp only [Option.map_some'] at herr
    subst herr
    apply clearAllUserDataHandler_of_error env u st st1 ⟨0, cf, false⟩
    simp only [clearAllUserDataTx, h1, h2, if_true, hloop]
  · intro h1 h2 hallF
    obtain ⟨st1, hloop, hset1, ⟨g, hg, hbm1⟩, _⟩ :=
      deleteFoldersLoop_ok env (userFolders st u) st 0 none hallF
    have hub : userBookmarks st1 u = (userBookmarks st u).map g := by
      unfold userBookmarks
      rw [hbm1, userBookmarks_ids_after_map u g hg]
    refine ⟨?_, ?_, ?_, ?_⟩
    · intro h3
      apply clearAllUserDataHandler_of_error env u st st1 ⟨0, 0 + (userFolders st u).length, false⟩
      simp [clearAllUserDataTx, h1, h2, hloop, h3]
    · intro h3 h4
      apply clearAllUserDataHandler_of_error env u st st1 ⟨0, 0 + (userFolders st u).length, false⟩
      simp [clearAllUserDataTx, h1, h2, hloop, h3, h4]
    · intro h3 h4 b hb
      rcases hloopB : deleteBookmarksLoop env (userBookmarks st1 u) st1 0 none with ⟨st2, cb, fe⟩
      have herr := deleteBookmarksLoop_error env (userBookmarks st1 u) st1 0 none
      have hfirst := find_after_map_id env.deleteBookmarkOk g hg (userBookmarks st u)
      rw [hb] at hfirst
      rw [hloopB, hub] at herr
      simp only [Option.map_some'] at hfirst
      cases hfm : ((userBookmarks st u).map g).find? (fun b => !env.deleteBookmarkOk b.id) with
      | none => rw [hfm] at hfirst; simp at hfirst
      | some b2 =>
        rw [hfm] at hfirst herr
        simp only [Option.map_some', Option.some.injEq] at hfirst herr
        rw [hfirst] at herr
        subst herr
        apply clearAllUserDataHandler_of_error env u st st2
          ⟨cb, 0 + (userFolders st u).length, false⟩
        simp only [clearAllUserDataTx, h1, h2, if_true, hloop, h3, h4, hloopB]
    · intro h3 h4 hallB s hs hsave
      have hallB1 : ∀ b ∈ userBookmarks st1 u, env.deleteBookmarkOk b.id = true := by
        intro b hb
        rw [hub] at hb
        obtain ⟨b0, hb0, rfl⟩ := List.mem_map.1 hb
        rw [(hg b0).1]
        exact hallB b0 hb0
      obtain ⟨st2, hloopB, hset2, _, _⟩ :=
        deleteBookmarksLoop_ok env (userBookmarks st1 u) st1 0 none hallB1
      have hfindS : findUserSettings st2 u = some s := by
        unfold findUserSettings
        rw [hset2, hset1]
        exact hs
      apply clearAllUserDataHandler_of_error env u st st2
        ⟨0 + (userBookmarks st1 u).length, 0 + (userFolders st u).length, false⟩
      simp only [clearAllUserDataTx, h1, h2, if_true, hloop, h3, h4, hloopB, hfindS,
        saveSettings, hsave, Bool.false_eq_true, if_false]

/-- The example of the specification: three bookmarks and two folders of `u1`,
the second bookmark delete forced to fail; the error names that delete and all
records are still there. -/
theorem clear_failure_second_bookmark_witness :
    clearAllUserDataHandler failSecondBookmarkEnv (some "u1") storeToClear =
      (storeToClear, .internalServerError (.deleteBookmark "b2")) ∧
    (userBookmarks storeToClear "u1").length = 3 ∧
    (userFolders storeToClear "u1").length = 2 :=
  ⟨((clear_failure_reports_first_error_and_rolls_back failSecondBookmarkEnv "u1"
      storeToClear).2.2.2.2 rfl rfl (by decide)).2.2.1 rfl rfl
      { id := "b2", userId := "u1", title := "B", url := "https://b.example", tags := [],
        folderId := "", faviconUrl := "", createdAt := "", updatedAt := "" } (by decide),
    by decide, by decide⟩

/-- The clearer succeeds when the two collections are found and listed, every
delete succeeds and the settings save, if there is a settings record,
succeeds: it answers with the sizes of the two listings, and `tags_cleared`
tells whether the user had a settings record. -/
theorem clearAllUserDataHandler_succeeds (env : Env) (u : String) (st : Store)
    (h1 : env.hasCollection "folders" = true) (h2 : env.fetchOk "folders" = true)
    (hallF : ∀ f ∈ userFolders st u, env.deleteFolderOk f.id = true)
    (h3 : env.hasCollection "bookmarks" = true) (h4 : env.fetchOk "bookmarks" = true)
    (hallB : ∀ b ∈ userBookmarks st u, env.deleteBookmarkOk b.id = true)
    (hsave : ∀ s, findUserSettings st u = some s →
      env.saveSettingsOk { s with tagList := [] } = true) :
    ∃ st', clearAllUserDataHandler env (some u) st =
      (st', .cleared (userBookmarks st u).length (userFolders st u).length
        (findUserSettings st u).isSome) := by
  obtain ⟨st1, hloop, hset1, ⟨g, hg, hbm1⟩, _⟩ :=
    deleteFoldersLoop_ok env (userFolders st u) st 0 none hallF
  have hub : userBookmarks st1 u = (userBookmarks st u).map g := by
    unfold userBookmarks
    rw [hbm1, userBookmarks_ids_after_map u g hg]
  have hallB1 : ∀ b ∈ userBookmarks st1 u, env.deleteBookmarkOk b.id = true := by
    intro b hb
    rw [hub] at hb
    obtain ⟨b0, hb0, rfl⟩ := List.mem_map.1 hb
    rw [(hg b0).1]
    exact hallB b0 hb0
  obtain ⟨st2, hloopB, hset2, _, _⟩ :=
    deleteBookmarksLoop_ok env (userBookmarks st1 u) st1 0 none hallB1
  have hlenB : (userBookmarks st1 u).length = (userBookmarks st u).length := by
    rw [hub, List.length_map]
  have hfindS : findUserSettings st2 u = findUserSettings st u := by
    unfold findUserSettings
    rw [hset2, hset1]
  cases hs : findUserSettings st u with
  | none =>
    refine ⟨st2, ?_⟩
    rw [clearAllUserDataHandler_of_ok env u st st2
      ⟨0 + (userBookmarks st1 u).length, 0 + (userFolders st u).length, false⟩]
    · simp [hlenB]
    · rw [hs] at hfindS
      simp only [clearAllUserDataTx, h1, h2, if_true, hloop, h3, h4, hloopB, hfindS]
  | some s =>
    have hok := hsave s hs
    rw [hs] at hfindS
    have htx : clearAllUserDataTx env u st =
        ({ st2 with settings := (st2.settings.map
            (fun x => if x.id = s.id then { s with tagList := [] } else x)) },
          ⟨0 + (userBookmarks st1 u).length, 0 + (userFolders st u).length, true⟩, none) := by
      simp only [clearAllUserDataTx, h1, h2, if_true, hloop, h3, h4, hloopB, hfindS,
        saveSettings, hok]
    rw [clearAllUserDataHandler_of_ok env u st _ _ htx]
    exact ⟨_, Prod.ext rfl (by simp [hlenB])⟩

/-- C5: when `clearAllUserDataHandler` succeeds, the two counts it returns are
the numbers of folders and of bookmarks the user owned before the call,
`tags_cleared` is true exactly when the user had a settings record, and in the
store it leaves the user owns no folder and no bookmark and the settings
record, when there is one, has an empty `tagList`.  A missing settings record
is not an error: when the two collections are found and listed and every
delete succeeds, the handler succeeds for a user without settings record, with
`tags_cleared = false`, and for a user with a settings record whose save
succeeds, with `tags_cleared = true`. -/
theorem clear_success_reports_exact_counts (env : Env) (u : String) (st : Store) :
    (∀ (st' : Store) (nb nf : Nat) (tc : Bool),
      clearAllUserDataHandler env (some u) st = (st', .cleared nb nf tc) →
      nf = (userFolders st u).length ∧
      nb = (userBookmarks st u).length ∧
      (tc = true ↔ ∃ s, findUserSettings st u = some s) ∧
      userFolders st' u = [] ∧ userBookmarks st' u = [] ∧
      (∀ s, findUserSettings st u = some s →
        ∃ s', findUserSettings st' u = some s' ∧ s'.tagList = []) ∧
      (findUserSettings st u = none → findUserSettings st' u = none)) ∧
    (env.hasCollection "folders" = true → env.fetchOk "folders" = true →
      (∀ f ∈ userFolders st u, env.deleteFolderOk f.id = true) →
      env.hasCollection "bookmarks" = true → env.fetchOk "bookmarks" = true →
      (∀ b ∈ userBookmarks st u, env.deleteBookmarkOk b.id = true) →
      (findUserSettings st u = none →
        ∃ st', clearAllUserDataHandler env (some u) st =
          (st', .cleared (userBookmarks st u).length (userFolders st u).length false)) ∧
      (∀ s, findUserSettings st u = some s →
        env.saveSettingsOk { s with tagList := [] } = true →
        ∃ st', clearAllUserDataHandler env (some u) st =
          (st', .cleared (userBookmarks st u).length (userFolders st u).length true))) := by
  constructor
  · intro st' nb nf tc h
    rcases htx : clearAllUserDataTx env u st with ⟨st1, c, err⟩
    cases err with
    | some e =>
      rw [clearAllUserDataHandler_of_error env u st st1 c e htx] at h
      simp at h
    | none =>
      rw [clearAllUserDataHandler_of_ok env u st st1 c htx] at h
      simp only [Prod.mk.injEq, ClearResult.cleared.injEq] at h
      obtain ⟨hst, hnb, hnf, htc⟩ := h
      subst hst
      obtain ⟨h1, h2, h3, h4, h5, h6, h7⟩ := clearAllUserDataTx_success env u st st1 c htx
      refine ⟨by rw [← hnf, h1], by rw [← hnb, h2], ?_, h4, h5, ?_, ?_⟩
      · rw [← htc, h3, Option.isSome_iff_exists]
      · intro s hs
        have hu : s.userId = u := by
          have := List.find?_some hs
          simpa using this
        refine ⟨{ s with tagList := [] }, ?_, rfl⟩
        unfold findUserSettings
        rw [(h6 s hs).2]
        exact find_settings_after_save { s with tagList := [] } s u rfl hu _ hs
      · intro hn
        unfold findUserSettings
        rw [h7 hn]
        exact hn
  · intro h1 h2 hallF h3 h4 hallB
    constructor
    · intro hn
      obtain ⟨st', h⟩ := clearAllUserDataHandler_succeeds env u st h1 h2 hallF h3 h4 hallB
        (fun s hs => by rw [hn] at hs; cases hs)
      rw [hn] at h
      exact ⟨st', h⟩
    · intro s hs hok
      obtain ⟨st', h⟩ := clearAllUserDataHandler_succeeds env u st h1 h2 hallF h3 h4 hallB
        (fun s2 hs2 => by rw [hs] at hs2; cases hs2; exact hok)
      rw [hs] at h
      exact ⟨st', h⟩

/-- The example of the specification, clearing `u1`, who owns three bookmarks,
two folders and a five-entry vocabulary; and clearing `u2`, who owns one
bookmark and one folder and has no settings record: the handler succeeds with
`tags_cleared = false`. -/
theorem clear_success_reports_exact_counts_witness :
    clearAllUserDataHandler okEnv (some "u1") storeToClear =
      ((clearAllUserDataHandler okEnv (some "u1") storeToClear).1, .cleared 3 2 true) ∧
    (3 = (userBookmarks storeToClear "u1").length ∧
     2 = (userFolders storeToClear "u1").length ∧
     userFolders (clearAllUserDataHandler okEnv (some "u1") storeToClear).1 "u1" = [] ∧
     userBookmarks (clearAllUserDataHandler okEnv (some "u1") storeToClear).1 "u1" = []) ∧
    findUserSettings storeToClear "u2" = none ∧
    (userBookmarks storeToClear "u2").length = 1 ∧
    (userFolders storeToClear "u2").length = 1 ∧
    (∃ st', clearAllUserDataHandler okEnv (some "u2") storeToClear =
      (st', .cleared (userBookmarks storeToClear "u2").length
        (userFolders storeToClear "u2").length false)) :=
  ⟨by decide,
    have h := (clear_success_reports_exact_counts okEnv "u1" storeToClear).1
      (clearAllUserDataHandler okEnv (some "u1") storeToClear).1 3 2 true (by decide)
    ⟨h.2.1, h.1, h.2.2.2.1, h.2.2.2.2.1⟩,
    by decide, by decide, by decide,
    ((clear_success_reports_exact_counts okEnv "u2" storeToClear).2 rfl rfl (fun _ _ => rfl)
      rfl rfl (fun _ _ => rfl)).1 (by decide)⟩

/-! ## Lemmas on the folder path resolver -/

theorem GoMap.le_refl {β : Type} (m : GoMap β) : m.le m := fun _ _ h => h

theorem GoMap.le_trans {β : Type} {a b c : GoMap β} (h1 : a.le b) (h2 : b.le c) : a.le c :=
  fun k v h => h2 k v (h1 k v h)

theorem GoMap.le_set_of_get_none {β : Type} (m : GoMap β) (k : String) (v : β)
    (h : m.get k = none) : m.le (m.set k v) := by
  intro k' v' hk'
  rw [GoMap.get_set]
  by_cases hkk : k' = k
  · subst hkk; rw [h] at hk'; simp at hk'
  · simp [hkk, hk']

theorem buildFolderMap_append (l1 l2 : List Folder) : ∀ (m : GoMap Folder),
    buildFolderMap (l1 ++ l2) m = buildFolderMap l2 (buildFolderMap l1 m) := by
  induction l1 with
  | nil => intro m; rfl
  | cons r rest ih => intro m; simp only [List.cons_append, buildFolderMap]; exact ih _

/-- A successful run of the path loop only appends folders of the user to the
store, and its final lookup is the initial one extended by those folders in
the way a fresh listing would insert them. -/
theorem ensureFolderPathLoop_created (env : Env) (u : String) : ∀ (path : List String)
    (cur : PathCursor) (st st' : Store) (fin : PathCursor),
    ensureFolderPathLoop env u path cur st = (st', .ok fin) →
    ∃ recs : List Folder, st'.folders = st.folders ++ recs ∧
      st'.bookmarks = st.bookmarks ∧ st'.settings = st.settings ∧
      (∀ r ∈ recs, r.userId = u) ∧
      fin.folderMap = buildFolderMap recs cur.folderMap ∧
      cur.folderMap.le fin.folderMap := by
  intro path
  induction path with
  | nil =>
    intro cur st st' fin h
    simp only [ensureFolderPathLoop, Prod.mk.injEq, Except.ok.injEq] at h
    obtain ⟨h1, h2⟩ := h
    subst h1; subst h2
    exact ⟨[], by simp, rfl, rfl, by simp, rfl, GoMap.le_refl _⟩
  | cons name rest ih =>
    intro cur st st' fin h
    unfold ensureFolderPathLoop at h
    simp only at h
    cases hget : cur.folderMap.get (name ++ ":" ++ parentIdStrOf cur.currentParentId) with
    | some existing =>
      rw [hget] at h
      simp only at h
      obtain ⟨recs, hf, hb, hse, hu, hmap, hle⟩ := ih _ _ _ _ h
      exact ⟨recs, hf, hb, hse, hu, hmap, hle⟩
    | none =>
      rw [hget] at h
      simp only [createFolder] at h
      split_ifs at h with hc hs
      · simp only at h
        obtain ⟨recs, hf, hb, hse, hu, hmap, hle⟩ := ih _ _ _ _ h
        simp only [List.append_assoc, List.singleton_append] at hf
        refine ⟨_, hf, hb, hse, ?_, ?_, ?_⟩
        · intro r hr
          rcases List.mem_cons.1 hr with hr | hr
          · rw [hr]
          · exact hu r hr
        · rw [hmap]; rfl
        · exact GoMap.le_trans (GoMap.le_set_of_get_none _ _ _ hget) hle
      · simp at h
      · simp at h

/-- Running the loop again over a lookup that holds every binding of the first
run's final lookup follows the same cursor and creates nothing. -/
theorem ensureFolderPathLoop_replay (env : Env) (u : String) : ∀ (path : List String)
    (cur : PathCursor) (st st' : Store) (fin : PathCursor),
    ensureFolderPathLoop env u path cur st = (st', .ok fin) →
    ∀ (env2 : Env) (m2 : GoMap Folder) (st2 : Store) (created2 : List String),
      fin.folderMap.le m2 →
      ensureFolderPathLoop env2 u path
        { currentParentId := cur.currentParentId, createdFolders := created2, folderMap := m2 }
        st2 =
      (st2, .ok { currentParentId := fin.currentParentId, createdFolders := created2,
                  folderMap := m2 }) := by
  intro path
  induction path with
  | nil =>
    intro cur st st' fin h env2 m2 st2 created2 _
    simp only [ensureFolderPathLoop, Prod.mk.injEq, Except.ok.injEq] at h
    obtain ⟨_, h2⟩ := h
    subst h2
    simp [ensureFolderPathLoop]
  | cons name rest ih =>
    intro cur st st' fin h env2 m2 st2 created2 hle
    unfold ensureFolderPathLoop at h
    simp only at h
    unfold ensureFolderPathLoop
    simp only
    cases hget : cur.folderMap.get (name ++ ":" ++ parentIdStrOf cur.currentParentId) with
    | some existing =>
      rw [hget] at h
      simp only at h
      obtain ⟨_, _, _, _, _, _, hmono⟩ := ensureFolderPathLoop_created env u _ _ _ _ _ h
      have h2 : m2.get (name ++ ":" ++ parentIdStrOf cur.currentParentId) = some existing :=
        hle _ _ (hmono _ _ hget)
      rw [h2]
      exact ih _ _ _ _ h env2 m2 st2 created2 hle
    | none =>
      rw [hget] at h
      simp only [createFolder] at h
      split_ifs at h with hc hs
      · simp only at h
        obtain ⟨_, _, _, _, _, _, hmono⟩ := ensureFolderPathLoop_created env u _ _ _ _ _ h
        have h2 := hle _ _ (hmono (name ++ ":" ++ parentIdStrOf cur.currentParentId) _
          (by rw [GoMap.get_set, if_pos rfl]))
        rw [h2]
        exact ih _ _ _ _ h env2 m2 st2 created2 hle
      · simp at h
      · simp at h

theorem userFolders_append (st : Store) (u : String) (recs : List Folder) (fs : List Folder)
    (hu : ∀ r ∈ recs, r.userId = u) (hf : fs = st.folders ++ recs) :
    fs.filter (fun f => f.userId = u) = userFolders st u ++ recs := by
  rw [hf, List.filter_append]
  congr 1
  apply List.filter_eq_self.2
  intro r hr
  simpa using hu r hr

theorem append_sep_inj {α : Type} (c : α) : ∀ (a a' r r' : List α), c ∉ r → c ∉ r' →
    a ++ c :: r = a' ++ c :: r' → a = a' ∧ r = r' := by
  intro a
  induction a with
  | nil =>
    intro a' r r' hr hr' h
    cases a' with
    | nil => simp only [List.nil_append, List.cons.injEq, true_and] at h; exact ⟨rfl, h⟩
    | cons x xs =>
      simp only [List.nil_append, List.cons_append, List.cons.injEq] at h
      exact absurd (h.2 ▸ List.mem_append_right xs (List.mem_cons_self c r')) hr
  | cons y ys ih =>
    intro a' r r' hr hr' h
    cases a' with
    | nil =>
      simp only [List.nil_append, List.cons_append, List.cons.injEq] at h
      exact absurd (h.2 ▸ List.mem_append_right ys (List.mem_cons_self c r)) hr'
    | cons x xs =>
      simp only [List.cons_append, List.cons.injEq] at h
      obtain ⟨h1, h2⟩ := ih xs r r' hr hr' h.2
      exact ⟨by rw [h.1, h1], h2⟩

/-- The lookup key `name + ":" + parentId` determines both parts when the
parent ids hold no colon. -/
theorem lookupKey_inj (n1 p1 n2 p2 : String) (h1 : ':' ∉ p1.data) (h2 : ':' ∉ p2.data)
    (h : n1 ++ ":" ++ p1 = n2 ++ ":" ++ p2) : n1 = n2 ∧ p1 = p2 := by
  have hd := congrArg String.data h
  simp only [String.data_append, List.append_assoc] at hd
  simp only [List.singleton_append] at hd
  obtain ⟨ha, hb⟩ := append_sep_inj ':' _ _ _ _ h1 h2 hd
  exact ⟨String.ext ha, String.ext hb⟩

theorem GoMap.get_eq_none {β : Type} (k : String) : ∀ (m : GoMap β),
    (∀ kv ∈ m, kv.1 ≠ k) → m.get k = none := by
  intro m
  induction m with
  | nil => intro _; rfl
  | cons kv rest ih =>
    intro h
    obtain ⟨k', v⟩ := kv
    have hk : k' ≠ k := h (k', v) (List.mem_cons_self _ _)
    have hbeq : (k == k') = false := by simpa using fun e => hk e.symm
    unfold GoMap.get
    rw [List.lookup_cons, hbeq]
    exact ih (fun kv hkv => h kv (List.mem_cons_of_mem _ hkv))

theorem getLast?_cons_some {α : Type} (a : α) (l : List α) :
    ∃ b, (a :: l).getLast? = some b := by
  induction l generalizing a with
  | nil => exact ⟨a, rfl⟩
  | cons x xs ih =>
    obtain ⟨b, hb⟩ := ih x
    exact ⟨b, by rw [List.getLast?_cons_cons, hb]⟩

/-- The path loop started where no binding of the lookup has the cursor as
its parent part, with every save succeeding and the store assigning ids that
are new, non-empty and free of colons: every segment is created, chained
below the one before it. -/
theorem ensureFolderPathLoop_fresh (env : Env) (u : String)
    (hcoll : env.hasCollection "folders" = true)
    (hsave : ∀ f, env.saveFolderOk f = true)
    (hfresh : ∀ s, env.newId s ∉ s.folders.map (fun f => f.id))
    (hne : ∀ s, env.newId s ≠ "")
    (hcolon : ∀ s, ':' ∉ (env.newId s).data) :
    ∀ (path : List String) (cur : PathCursor) (st : Store),
    ':' ∉ (parentIdStrOf cur.currentParentId).data →
    (parentIdStrOf cur.currentParentId = "" ∨
      parentIdStrOf cur.currentParentId ∈ st.folders.map (fun f => f.id)) →
    (∀ kv ∈ cur.folderMap, ∃ n p, kv.1 = n ++ ":" ++ p ∧ ':' ∉ p.data ∧
      p ≠ parentIdStrOf cur.currentParentId ∧ (p = "" ∨ p ∈ st.folders.map (fun f => f.id))) →
    ∃ (ids : List String) (fin : PathCursor), ids.length = path.length ∧ ids.Nodup ∧
      (∀ i ∈ ids, i ∉ st.folders.map (fun f => f.id)) ∧
      ensureFolderPathLoop env u path cur st =
        ({ st with folders := st.folders ++
            chainFolders u (parentIdStrOf cur.currentParentId) (path.zip ids) }, .ok fin) ∧
      fin.createdFolders = cur.createdFolders ++ path ∧
      fin.currentParentId = (match ids.getLast? with
        | some i => some i
        | none => cur.currentParentId) := by
  intro path
  induction path with
  | nil =>
    intro cur st _ _ _
    exact ⟨[], cur, rfl, List.nodup_nil, by simp, by simp [ensureFolderPathLoop, chainFolders],
      by simp, rfl⟩
  | cons name rest ih =>
    intro cur st hcur hin hmap
    have hget : cur.folderMap.get (name ++ ":" ++ parentIdStrOf cur.currentParentId) = none := by
      apply GoMap.get_eq_none
      intro kv hkv heq
      obtain ⟨n, p, hk, hp, hpne, _⟩ := hmap kv hkv
      rw [hk] at heq
      exact hpne (lookupKey_inj n p name _ hp hcur heq).2
    have hnew : env.newId st ≠ parentIdStrOf cur.currentParentId := by
      intro h
      rcases hin with h0 | h0
      · exact hne st (h.trans h0)
      · exact hfresh st (h ▸ h0)
    obtain ⟨ids, fin, hlen, hnd, hnot, hloop, hcr, hfin⟩ := ih
      { currentParentId := some (env.newId st)
        createdFolders := cur.createdFolders ++ [name]
        folderMap := cur.folderMap.set (name ++ ":" ++ parentIdStrOf cur.currentParentId)
          { id := env.newId st, userId := u, name := name,
            parentId := parentIdStrOf cur.currentParentId, createdAt := "", updatedAt := "" } }
      { st with folders := st.folders ++
          [{ id := env.newId st, userId := u, name := name,
             parentId := parentIdStrOf cur.currentParentId, createdAt := "", updatedAt := "" }] }
      (hcolon st)
      (Or.inr (by simp [parentIdStrOf]))
      (by
        intro kv hkv
        rcases List.mem_cons.1 hkv with hkv | hkv
        · refine ⟨name, parentIdStrOf cur.currentParentId, by rw [hkv], hcur,
            fun h => hnew h.symm, ?_⟩
          rcases hin with h0 | h0
          · exact Or.inl h0
          · exact Or.inr (by simp only [List.map_append, List.mem_append]; exact Or.inl h0)
        · obtain ⟨n, p, hk, hp, _, hpin⟩ := hmap kv hkv
          refine ⟨n, p, hk, hp, ?_, ?_⟩
          · intro h
            rcases hpin with h0 | h0
            · exact hne st (h.symm.trans h0)
            · exact hfresh st (by simpa [parentIdStrOf, h] using h0)
          · rcases hpin with h0 | h0
            · exact Or.inl h0
            · exact Or.inr (by simp only [List.map_append, List.mem_append]; exact Or.inl h0))
    refine ⟨env.newId st :: ids, fin, by simp [hlen], ?_, ?_, ?_, ?_, ?_⟩
    · rw [List.nodup_cons]
      refine ⟨?_, hnd⟩
      intro hmem
      exact hnot _ hmem (by simp)
    · intro i hi
      rcases List.mem_cons.1 hi with hi | hi
      · rw [hi]; exact hfresh st
      · intro hmem
        exact hnot i hi (by simp only [List.map_append, List.mem_append]; exact Or.inl hmem)
    · unfold ensureFolderPathLoop
      simp only [hget, hcoll, if_true, createFolder, hsave]
      rw [hloop]
      simp only [List.zip_cons_cons, chainFolders, parentIdStrOf, List.append_assoc,
        List.singleton_append]
      rfl
    · rw [hcr]; simp
    · rw [hfin]
      cases ids with
      | nil => simp
      | cons a l =>
        obtain ⟨b, hb⟩ := getLast?_cons_some a l
        rw [List.getLast?_cons_cons, hb]

theorem nat_le_sum_of_mem (x : Nat) : ∀ (l : List Nat), x ∈ l → x ≤ l.sum := by
  intro l
  induction l with
  | nil => intro h; simp at h
  | cons y ys ih =>
    intro h
    rw [List.sum_cons]
    rcases List.mem_cons.1 h with h | h
    · rw [h]; exact Nat.le_add_right _ _
    · exact Nat.le_trans (ih h) (Nat.le_add_left _ _)

/-- The id `okEnv` assigns is not the id of a folder of the store. -/
theorem okEnv_newId_fresh (s : Store) : okEnv.newId s ∉ s.folders.map (fun f => f.id) := by
  intro h
  obtain ⟨f, hf, hid⟩ := List.mem_map.1 h
  have hlen : f.id.length = 1 + (s.folders.map (fun f => f.id.length)).sum := by
    rw [hid]
    show (List.replicate (1 + (s.folders.map (fun f => f.id.length)).sum) 'x').length = _
    exact List.length_replicate _ _
  have hle : f.id.length ≤ (s.folders.map (fun f => f.id.length)).sum :=
    nat_le_sum_of_mem _ _ (List.mem_map.2 ⟨f, hf, rfl⟩)
  omega

theorem okEnv_newId_ne (s : Store) : okEnv.newId s ≠ "" := by
  intro h
  have hl : (List.replicate (1 + (s.folders.map (fun f => f.id.length)).sum) 'x').length = 0 :=
    congrArg String.length h
  rw [List.length_replicate] at hl
  omega

theorem okEnv_newId_colon (s : Store) : ':' ∉ (okEnv.newId s).data := by
  intro h
  have h2 : ':' ∈ List.replicate (1 + (s.folders.map (fun f => f.id.length)).sum) 'x' := h
  rw [List.mem_replicate] at h2
  exact absurd h2.2 (by decide)

/-! ## Claims on the folder path resolver -/

/-- C3: path resolution is idempotent.  From any store, if a call of
`ensureFolderPathHandler` succeeds, a call with the same path on the store it
left (its folder listing succeeding) returns the same `folderId` and an empty
`created` list and leaves that store unchanged. -/
theorem ensure_folder_path_idempotent (env env2 : Env) (u : String) (path : List String)
    (st st1 : Store) (folderId : Option String) (created : List String)
    (h1 : ensureFolderPathHandler env (some u) path st = (st1, .ok folderId created))
    (hfetch : env2.fetchOk "folders" = true) :
    ensureFolderPathHandler env2 (some u) path st1 = (st1, .ok folderId []) := by
  unfold ensureFolderPathHandler at h1 ⊢
  simp only at h1 ⊢
  by_cases hlen : path.length = 0
  · simp only [hlen, if_true, Prod.mk.injEq, EnsureFolderPathResult.ok.injEq] at h1 ⊢
    exact ⟨trivial, h1.2.1, trivial⟩
  · simp only [hlen, if_false, hfetch, if_true] at h1 ⊢
    by_cases hf1 : env.fetchOk "folders" = true
    swap
    · simp [hf1] at h1
    simp only [hf1, if_true] at h1
    rcases hloop : ensureFolderPathLoop env u path
        { currentParentId := none, createdFolders := [],
          folderMap := buildFolderMap (userFolders st u) [] } st with ⟨st', res⟩
    rw [hloop] at h1
    cases res with
    | error msg => simp at h1
    | ok fin =>
      simp only [Prod.mk.injEq, EnsureFolderPathResult.ok.injEq] at h1
      obtain ⟨hst, hid, _⟩ := h1
      subst hst
      obtain ⟨recs, hfo, _, _, hu, hmap, _⟩ := ensureFolderPathLoop_created env u _ _ _ _ _ hloop
      have hlist : userFolders st' u = userFolders st u ++ recs :=
        userFolders_append st u recs st'.folders hu hfo
      have hmap2 : buildFolderMap (userFolders st' u) [] = fin.folderMap := by
        rw [hlist, buildFolderMap_append, hmap]
      have hre := ensureFolderPathLoop_replay env u _ _ _ _ _ hloop env2
        (buildFolderMap (userFolders st' u) []) st' [] (by rw [hmap2]; exact GoMap.le_refl _)
      simp only at hre
      rw [hre, hid]

/-- Resolving `Work / Reports / New` twice over `storeToClear`: discharges the
hypotheses of C3. -/
theorem ensure_folder_path_idempotent_witness :
    ensureFolderPathHandler okEnv (some "u1") ["Work", "Reports", "New"] storeToClear =
      ((ensureFolderPathHandler okEnv (some "u1") ["Work", "Reports", "New"] storeToClear).1,
        .ok (some "xxxxxxx") ["New"]) ∧
    ensureFolderPathHandler okEnv (some "u1") ["Work", "Reports", "New"]
        (ensureFolderPathHandler okEnv (some "u1") ["Work", "Reports", "New"] storeToClear).1 =
      ((ensureFolderPathHandler okEnv (some "u1") ["Work", "Reports", "New"] storeToClear).1,
        .ok (some "xxxxxxx") []) :=
  ⟨by decide, ensure_folder_path_idempotent okEnv okEnv "u1" ["Work", "Reports", "New"]
    storeToClear _ (some "xxxxxxx") ["New"] (by decide) rfl⟩

/-- C2: for a user without folders and a path of `N` names (folder listing,
collection lookup and every save succeeding, the store assigning ids that are
new, non-empty and free of colons), `ensureFolderPathHandler` appends exactly
`N` folders to the store, one per name and in path order, the first without
parent and every other with the folder created just before as parent, and
answers `created = path` with the id of the last folder as `folderId` (no id
and an empty list for the empty path). -/
theorem ensure_folder_path_creates_chain (env : Env) (u : String) (path : List String)
    (st : Store)
    (hempty : userFolders st u = [])
    (hcoll : env.hasCollection "folders" = true)
    (hfetch : env.fetchOk "folders" = true)
    (hsave : ∀ f, env.saveFolderOk f = true)
    (hfresh : ∀ s, env.newId s ∉ s.folders.map (fun f => f.id))
    (hne : ∀ s, env.newId s ≠ "")
    (hcolon : ∀ s, ':' ∉ (env.newId s).data) :
    ∃ ids : List String, ids.length = path.length ∧ ids.Nodup ∧
      (∀ i ∈ ids, i ∉ st.folders.map (fun f => f.id)) ∧
      ensureFolderPathHandler env (some u) path st =
        ({ st with folders := st.folders ++ chainFolders u "" (path.zip ids) },
          .ok ids.getLast? path) := by
  obtain ⟨ids, fin, hlen, hnd, hnot, hloop, hcr, hfin⟩ :=
    ensureFolderPathLoop_fresh env u hcoll hsave hfresh hne hcolon path
      { currentParentId := none, createdFolders := [], folderMap := [] } st
      (by simp [parentIdStrOf]) (Or.inl rfl) (by intro kv hkv; simp at hkv)
  refine ⟨ids, hlen, hnd, hnot, ?_⟩
  unfold ensureFolderPathHandler
  simp only
  by_cases hp : path.length = 0
  · have hpn : path = [] := List.length_eq_zero.1 hp
    have hin : ids = [] := List.length_eq_zero.1 (by rw [hlen, hp])
    subst hpn; subst hin
    simp [chainFolders]
  · simp only [hp, if_false, hfetch, if_true, hempty, buildFolderMap, hloop]
    simp only [parentIdStrOf] at hfin ⊢
    rw [hcr, hfin]
    cases ids.getLast? <;> simp

/-- Resolving `Work / Reports` for `u1`, who has no folder in `storeU1`:
discharges the hypotheses of C2 and shows the two folders created. -/
theorem ensure_folder_path_creates_chain_witness :
    userFolders storeU1 "u1" = [] ∧
    (∃ ids : List String, ids.length = ["Work", "Reports"].length ∧ ids.Nodup ∧
      (∀ i ∈ ids, i ∉ storeU1.folders.map (fun f => f.id)) ∧
      ensureFolderPathHandler okEnv (some "u1") ["Work", "Reports"] storeU1 =
        ({ storeU1 with folders := storeU1.folders ++
            chainFolders "u1" "" (["Work", "Reports"].zip ids) },
          .ok ids.getLast? ["Work", "Reports"])) ∧
    ensureFolderPathHandler okEnv (some "u1") ["Work", "Reports"] storeU1 =
      ({ storeU1 with folders := chainFolders "u1" "" [("Work", "x"), ("Reports", "xx")] },
        .ok (some "xx") ["Work", "Reports"]) :=
  ⟨by decide, ensure_folder_path_creates_chain okEnv "u1" ["Work", "Reports"] storeU1
    (by decide) rfl rfl (fun _ => rfl) okEnv_newId_fresh okEnv_newId_ne okEnv_newId_colon,
    by decide⟩

/-! ## Lemmas on the folder passes of the importer -/

theorem setBackupTimestamps_userId (r : Folder) (e : FolderBackup) :
    (setBackupTimestamps r e).userId = r.userId := by
  unfold setBackupTimestamps; split_ifs <;> rfl

theorem setBackupTimestamps_name (r : Folder) (e : FolderBackup) :
    (setBackupTimestamps r e).name = r.name := by
  unfold setBackupTimestamps; split_ifs <;> rfl

theorem setBackupTimestamps_parentId (r : Folder) (e : FolderBackup) :
    (setBackupTimestamps r e).parentId = r.parentId := by
  unfold setBackupTimestamps; split_ifs <;> rfl

theorem findFolderById_some (st : Store) (id : String) (r : Folder)
    (h : findFolderById st id = some r) : r ∈ st.folders ∧ r.id = id := by
  unfold findFolderById at h
  exact ⟨List.mem_of_find?_eq_some h, by simpa using List.find?_some h⟩

/-- The lookup of pass 1 finds no record, whatever the store holds. -/
theorem findFolderByName_none (st : Store) (u name : String) :
    findFolderByName st u name = none := by
  simp [findFolderByName, FindFirstRecordByFilter]

/-- The lookup of the bookmark loop finds no record, whatever the store holds. -/
theorem findBookmarkByUrl_none (st : Store) (u url : String) :
    findBookmarkByUrl st u url = none := by
  simp [findBookmarkByUrl, FindFirstRecordByFilter]

/-- Pass 1 with every save succeeding over a store with unique folder ids:
ids stay unique, the folders that were there keep id, owner and name, only
the keys of the processed entries change in the mapping, and every processed
entry is mapped to a live folder of the user with the entry's name. -/
theorem webdavRestorePass1_mapped (env : Env) (u : String)
    (hcoll : env.hasCollection "folders" = true)
    (hsave : ∀ f, env.saveFolderOk f = true)
    (hfresh : ∀ s, env.newId s ∉ s.folders.map (fun f => f.id)) :
    ∀ (rest : List FolderBackup) (m : GoMap String) (st : Store),
    (st.folders.map (fun f => f.id)).Nodup →
    (rest.map (fun e => e.OriginalID)).Nodup →
    ((webdavRestorePass1 env u rest m st).2.folders.map (fun f => f.id)).Nodup ∧
    (∀ f ∈ st.folders, ∃ f' ∈ (webdavRestorePass1 env u rest m st).2.folders,
      f'.id = f.id ∧ f'.userId = f.userId ∧ f'.name = f.name) ∧
    (∀ k, k ∉ rest.map (fun e => e.OriginalID) →
      (webdavRestorePass1 env u rest m st).1.get k = m.get k) ∧
    (∀ e ∈ rest, ∃ f ∈ (webdavRestorePass1 env u rest m st).2.folders,
      (webdavRestorePass1 env u rest m st).1.get e.OriginalID = some f.id ∧
      f.userId = u ∧ f.name = e.Name) := by
  intro rest
  induction rest with
  | nil =>
    intro m st hnd _
    refine ⟨hnd, fun f hf => ⟨f, hf, rfl, rfl, rfl⟩, fun _ _ => rfl, ?_⟩
    intro e he; simp at he
  | cons e rest ih =>
    intro m st hnd hids
    rw [List.map_cons, List.nodup_cons] at hids
    -- the store and the record the entry is mapped to after its own step
    have hstep : ∃ (st1 : Store) (rec : Folder),
        webdavRestorePass1 env u (e :: rest) m st =
          webdavRestorePass1 env u rest (m.set e.OriginalID rec.id) st1 ∧
        (st1.folders.map (fun f => f.id)).Nodup ∧
        (∀ f ∈ st.folders, ∃ f' ∈ st1.folders,
          f'.id = f.id ∧ f'.userId = f.userId ∧ f'.name = f.name) ∧
        rec ∈ st1.folders ∧ rec.userId = u ∧ rec.name = e.Name := by
      have hfind : findFolderByName st u e.Name = none := findFolderByName_none _ _ _
      refine ⟨{ st with folders := st.folders ++
          [{ setBackupTimestamps (newFolderRecord u e.Name) e with id := env.newId st }] },
        { setBackupTimestamps (newFolderRecord u e.Name) e with id := env.newId st },
        ?_, ?_, ?_, ?_, ?_, ?_⟩
      · simp only [webdavRestorePass1, hfind, hcoll, if_true, createFolder, hsave]
      · show (List.map _ (st.folders ++ _)).Nodup
        rw [List.map_append, List.nodup_append]
        refine ⟨hnd, by simp, ?_⟩
        intro a ha hb
        simp only [List.map_cons, List.map_nil, List.mem_singleton] at hb
        exact hfresh st (hb ▸ ha)
      · intro f hf
        exact ⟨f, List.mem_append_left _ hf, rfl, rfl, rfl⟩
      · exact List.mem_append_right _ (List.mem_singleton_self _)
      · show (setBackupTimestamps _ e).userId = u
        rw [setBackupTimestamps_userId]; rfl
      · show (setBackupTimestamps _ e).name = e.Name
        rw [setBackupTimestamps_name]; rfl
    obtain ⟨st1, rec, heq, hnd1, hkeep1, hrec, hrecu, hrecn⟩ := hstep
    obtain ⟨hnd2, hkeep2, hget2, hmapped2⟩ := ih (m.set e.OriginalID rec.id) st1 hnd1 hids.2
    rw [heq]
    refine ⟨hnd2, ?_, ?_, ?_⟩
    · intro f hf
      obtain ⟨f1, hf1, h1, h2, h3⟩ := hkeep1 f hf
      obtain ⟨f2, hf2, h4, h5, h6⟩ := hkeep2 f1 hf1
      exact ⟨f2, hf2, h4.trans h1, h5.trans h2, h6.trans h3⟩
    · intro k hk
      rw [List.map_cons, List.mem_cons, not_or] at hk
      rw [hget2 k hk.2, GoMap.get_set, if_neg hk.1]
    · intro e' he'
      rcases List.mem_cons.1 he' with he' | he'
      · subst he'
        obtain ⟨f2, hf2, h4, h5, h6⟩ := hkeep2 rec hrec
        refine ⟨f2, hf2, ?_, h5.trans hrecu, h6.trans hrecn⟩
        rw [hget2 _ hids.1, GoMap.get_set, if_pos rfl, h4]
      · exact hmapped2 e' he'

theorem relinkFolder_id (m : GoMap String) (e : FolderBackup) (x : Folder) :
    (relinkFolder m e x).id = x.id := by
  unfold relinkFolder
  split_ifs
  · split
    · split_ifs <;> rfl
    · rfl
  · rfl

theorem relinkFolder_userId (m : GoMap String) (e : FolderBackup) (x : Folder) :
    (relinkFolder m e x).userId = x.userId := by
  unfold relinkFolder
  split_ifs
  · split
    · split_ifs <;> rfl
    · rfl
  · rfl

theorem relinkFolder_name (m : GoMap String) (e : FolderBackup) (x : Folder) :
    (relinkFolder m e x).name = x.name := by
  unfold relinkFolder
  split_ifs
  · split
    · split_ifs <;> rfl
    · rfl
  · rfl

theorem foldl_relinkFolder_id (m : GoMap String) : ∀ (es : List FolderBackup) (x : Folder),
    (es.foldl (fun x e => relinkFolder m e x) x).id = x.id ∧
    (es.foldl (fun x e => relinkFolder m e x) x).userId = x.userId ∧
    (es.foldl (fun x e => relinkFolder m e x) x).name = x.name := by
  intro es
  induction es with
  | nil => intro x; exact ⟨rfl, rfl, rfl⟩
  | cons e rest ih =>
    intro x
    rw [List.foldl_cons]
    obtain ⟨h1, h2, h3⟩ := ih (relinkFolder m e x)
    exact ⟨h1.trans (relinkFolder_id m e x), h2.trans (relinkFolder_userId m e x),
      h3.trans (relinkFolder_name m e x)⟩

/-- One step of pass 2 over a store with unique folder ids, the save
succeeding, applies `relinkFolder` to every folder. -/
theorem webdavRestorePass2_step (env : Env) (hsave : ∀ f, env.saveFolderOk f = true)
    (m : GoMap String) (e : FolderBackup) (rest : List FolderBackup) (st : Store)
    (hnd : (st.folders.map (fun f => f.id)).Nodup) :
    webdavRestorePass2 env (e :: rest) m st =
      webdavRestorePass2 env rest m { st with folders := st.folders.map (relinkFolder m e) } := by
  have hid : ∀ l : List Folder, l.map (fun x => x) = l := fun l => List.map_id' l
  have hsame : (∀ x ∈ st.folders, relinkFolder m e x = x) →
      ({ st with folders := st.folders.map (relinkFolder m e) } : Store) = st := by
    intro h
    have : st.folders.map (relinkFolder m e) = st.folders := by
      conv_rhs => rw [← hid st.folders]
      exact List.map_congr_left h
    rw [this]
  conv_lhs => unfold webdavRestorePass2
  by_cases hp : e.ParentID = ""
  · rw [hsame (fun x _ => by simp [relinkFolder, hp])]
    simp only [hp, ne_eq, not_true_eq_false, if_false]
  · simp only [ne_eq, hp, not_false_eq_true, if_true]
    cases ha : m.get e.OriginalID with
    | none => rw [hsame (fun x _ => by simp [relinkFolder, hp, ha])]
    | some a =>
      cases hb : m.get e.ParentID with
      | none => rw [hsame (fun x _ => by simp [relinkFolder, hp, ha, hb])]
      | some b =>
        simp only
        cases hf : findFolderById st a with
        | none =>
          rw [hsame]
          intro x hx
          have hxa : x.id ≠ a := by
            intro hxa
            unfold findFolderById at hf
            rw [List.find?_eq_none] at hf
            exact hf x hx (by simpa using hxa)
          simp [relinkFolder, hp, ha, hb, hxa]
        | some r =>
          obtain ⟨hr, hra⟩ := findFolderById_some st a r hf
          simp only [saveFolder, hsave, if_true]
          congr 2
          apply List.map_congr_left
          intro x hx
          by_cases hxa : x.id = a
          · have hxr : x = r := List.inj_on_of_nodup_map hnd hx hr (hxa.trans hra.symm)
            subst hxr
            simp [relinkFolder, hp, ha, hb, hxa]
          · have hxr : x.id ≠ r.id := by rw [hra]; exact hxa
            simp [relinkFolder, hp, ha, hb, hxa, hxr]

/-- Pass 2 with every save succeeding over a store with unique folder ids:
every folder is taken through the entries in order. -/
theorem webdavRestorePass2_eq (env : Env) (hsave : ∀ f, env.saveFolderOk f = true)
    (m : GoMap String) : ∀ (es : List FolderBackup) (st : Store),
    (st.folders.map (fun f => f.id)).Nodup →
    webdavRestorePass2 env es m st =
      { st with folders := (st.folders.map
          (fun x => es.foldl (fun x e => relinkFolder m e x) x)) } := by
  intro es
  induction es with
  | nil =>
    intro st _
    simp [webdavRestorePass2]
  | cons e rest ih =>
    intro st hnd
    rw [webdavRestorePass2_step env hsave m e rest st hnd, ih]
    · simp only [List.map_map]
      rfl
    · show (List.map _ (List.map _ st.folders)).Nodup
      rw [List.map_map]
      have : ((fun f : Folder => f.id) ∘ relinkFolder m e) = (fun f => f.id) := by
        funext x
        exact relinkFolder_id m e x
      rw [this]
      exact hnd

/-- The parent a folder ends with when exactly the entry `e` of the list is
mapped to it. -/
theorem foldl_relinkFolder_parent (m : GoMap String) (e : FolderBackup) (a b : String)
    (hp : e.ParentID ≠ "") (ha : m.get e.OriginalID = some a) (hb : m.get e.ParentID = some b) :
    ∀ (es : List FolderBackup) (x : Folder), x.id = a →
    (∀ e' ∈ es, m.get e'.OriginalID = some a → e' = e) →
    (e ∈ es ∨ x.parentId = b) →
    (es.foldl (fun x e => relinkFolder m e x) x).parentId = b := by
  intro es
  induction es with
  | nil =>
    intro x _ _ h
    rcases h with h | h
    · simp at h
    · exact h
  | cons e' rest ih =>
    intro x hx honly h
    rw [List.foldl_cons]
    apply ih (relinkFolder m e' x) ((relinkFolder_id m e' x).trans hx)
      (fun e2 he2 => honly e2 (List.mem_cons_of_mem _ he2))
    by_cases hee : e' = e
    · right
      subst hee
      simp [relinkFolder, hp, ha, hb, hx]
    · have hkeep : relinkFolder m e' x = x := by
        unfold relinkFolder
        split_ifs with hp'
        · split
          · rename_i a' b' ha' hb'
            by_cases hxa : x.id = a'
            · exfalso
              apply hee
              apply honly e' (List.mem_cons_self _ _)
              rw [ha', ← hxa, hx]
            · simp [hxa]
          · rfl
        · rfl
      rw [hkeep]
      rcases h with h | h
      · rcases List.mem_cons.1 h with h | h
        · exact absurd h.symm hee
        · exact Or.inl h
      · exact Or.inr h

/-- Pass 1 keeps `Pass1Inv`, whatever fails. -/
theorem webdavRestorePass1_inv (env : Env) (u : String) (st0 : Store)
    (hfresh : ∀ s, env.newId s ∉ s.folders.map (fun f => f.id)) :
    ∀ (rest : List FolderBackup) (m : GoMap String) (cur : Store),
    Pass1Inv st0 m cur →
    Pass1Inv st0 (webdavRestorePass1 env u rest m cur).1
      (webdavRestorePass1 env u rest m cur).2 := by
  intro rest
  induction rest with
  | nil => intro m cur h; exact h
  | cons e rest ih =>
    intro m cur hinv
    have hfind : findFolderByName cur u e.Name = none := findFolderByName_none _ _ _
    unfold webdavRestorePass1
    simp only [hfind, createFolder]
    split_ifs with hc hs
    · simp only
      apply ih
      obtain ⟨news, hcur, hnews, hnd, hrange, hinj⟩ := hinv
      have hnew_cur : env.newId cur ∉ cur.folders.map (fun f => f.id) := hfresh cur
      rw [hcur, List.map_append, List.mem_append, not_or] at hnew_cur
      refine ⟨news ++ [{ setBackupTimestamps (newFolderRecord u e.Name) e with
        id := env.newId cur }], ?_, ?_, ?_, ?_, ?_⟩
      · show cur.folders ++ _ = _
        rw [hcur, List.append_assoc]
      · intro f hf
        rcases List.mem_append.1 hf with hf | hf
        · exact hnews f hf
        · rw [List.mem_singleton] at hf
          subst hf
          refine ⟨?_, hnew_cur.1⟩
          show (setBackupTimestamps _ e).parentId = ""
          rw [setBackupTimestamps_parentId]; rfl
      · rw [List.map_append, List.nodup_append]
        refine ⟨hnd, by simp, ?_⟩
        intro a ha hb
        simp only [List.map_cons, List.map_nil, List.mem_singleton] at hb
        exact hnew_cur.2 (hb ▸ ha)
      · intro k x hk
        rw [GoMap.get_set] at hk
        rw [List.map_append, List.mem_append]
        by_cases hke : k = e.OriginalID
        · rw [if_pos hke] at hk
          injection hk with hk
          right; rw [← hk]; simp
        · rw [if_neg hke] at hk
          exact Or.inl (hrange k x hk)
      · intro k1 k2 x h1 h2
        rw [GoMap.get_set] at h1 h2
        by_cases hk1 : k1 = e.OriginalID
        · by_cases hk2 : k2 = e.OriginalID
          · rw [hk1, hk2]
          · rw [if_pos hk1] at h1
            rw [if_neg hk2] at h2
            injection h1 with h1
            exact absurd (h1 ▸ hrange k2 x h2) hnew_cur.2
        · by_cases hk2 : k2 = e.OriginalID
          · rw [if_neg hk1] at h1
            rw [if_pos hk2] at h2
            injection h2 with h2
            exact absurd (h2 ▸ hrange k1 x h1) hnew_cur.2
          · rw [if_neg hk1] at h1
            rw [if_neg hk2] at h2
            exact hinj k1 k2 x h1 h2
    · simp only
      exact ih m cur hinv
    · exact ih m cur hinv

/-- Pass 2 keeps `Pass2Inv`, whatever fails, when the mapping only reaches
created folders. -/
theorem webdavRestorePass2_inv (env : Env) (st0 : Store) (all : List FolderBackup)
    (m : GoMap String) (newIds : List String)
    (hrange : ∀ k x, m.get k = some x → x ∈ newIds)
    (hdisj : ∀ i ∈ newIds, i ∉ st0.folders.map (fun f => f.id)) :
    ∀ (rest : List FolderBackup) (cur : Store), (∀ e ∈ rest, e ∈ all) →
    Pass2Inv st0 all m newIds cur →
    Pass2Inv st0 all m newIds (webdavRestorePass2 env rest m cur) := by
  intro rest
  induction rest with
  | nil => intro cur _ h; exact h
  | cons e rest ih =>
    intro cur hsub hinv
    have hsub2 : ∀ e' ∈ rest, e' ∈ all := fun e' he' => hsub e' (List.mem_cons_of_mem _ he')
    unfold webdavRestorePass2
    split_ifs with hp
    · split
      · rename_i a b ha hb
        split
        · rename_i r hr
          obtain ⟨_, hra⟩ := findFolderById_some cur a r hr
          unfold saveFolder
          split_ifs with hs
          · simp only
            apply ih _ hsub2
            obtain ⟨news, hcur, hids, hpar⟩ := hinv
            have hanew : a ∈ newIds := hrange _ _ ha
            refine ⟨news.map (fun x => if x.id = a then { r with parentId := b } else x),
              ?_, ?_, ?_⟩
            · show List.map _ cur.folders = _
              rw [hcur, List.map_append, hra]
              congr 1
              conv_rhs => rw [← List.map_id' st0.folders]
              apply List.map_congr_left
              intro x hx
              have : x.id ≠ a := by
                intro h
                exact hdisj a hanew (h ▸ List.mem_map.2 ⟨x, hx, rfl⟩)
              simp [this]
            · rw [← hids, List.map_map]
              apply List.map_congr_left
              intro x _
              simp only [Function.comp]
              split_ifs with h
              · exact hra.trans h.symm
              · rfl
            · intro f hf
              obtain ⟨x, hx, hxf⟩ := List.mem_map.1 hf
              by_cases hxa : x.id = a
              · rw [if_pos hxa] at hxf
                subst hxf
                right
                exact ⟨e, hsub e (List.mem_cons_self _ _), hp, by rw [ha, hra], hb⟩
              · rw [if_neg hxa] at hxf
                subst hxf
                exact hpar x hx
          · exact ih _ hsub2 hinv
        · exact ih _ hsub2 hinv
      · exact ih _ hsub2 hinv
    · exact ih _ hsub2 hinv

/-- A relation that strictly lowers a rank along every edge has no cycle. -/
theorem acyclic_of_rank (r : String → String → Prop) (rank : String → Nat)
    (h : ∀ a b, r a b → rank b < rank a) : Acyclic r := by
  have hlt : ∀ x y, Relation.TransGen r x y → rank y < rank x := by
    intro x y hxy
    induction hxy with
    | single hab => exact h _ _ hab
    | tail _ hbc ih => exact Nat.lt_trans (h _ _ hbc) ih
  intro x hx
  exact Nat.lt_irrefl _ (hlt x x hx)

/-- The forest invariant after the two passes, from the two loop invariants. -/
theorem acyclic_of_pass_invariants (st0 : Store) (all : List FolderBackup) (m : GoMap String)
    (newIds : List String) (fin : Store)
    (hlive : Acyclic (FolderEdge st0.folders))
    (hsnap : Acyclic (SnapshotEdge all))
    (hrange : ∀ k x, m.get k = some x → x ∈ newIds)
    (hdisj : ∀ i ∈ newIds, i ∉ st0.folders.map (fun f => f.id))
    (hinj : ∀ k1 k2 x, m.get k1 = some x → m.get k2 = some x → k1 = k2)
    (hinv : Pass2Inv st0 all m newIds fin) :
    Acyclic (FolderEdge fin.folders) := by
  obtain ⟨news, hfin, hids, hpar⟩ := hinv
  have hedge : ∀ x y, FolderEdge fin.folders x y →
      (FolderEdge st0.folders x y ∧ ∀ k, m.get k ≠ some x) ∨
      (∃ k k', m.get k = some x ∧ m.get k' = some y ∧ SnapshotEdge all k k') := by
    intro x y ⟨f, hf, hfx, hfy, hy⟩
    rw [hfin] at hf
    rcases List.mem_append.1 hf with hf | hf
    · left
      refine ⟨⟨f, hf, hfx, hfy, hy⟩, ?_⟩
      intro k hk
      exact hdisj x (hrange k x hk) (hfx ▸ List.mem_map.2 ⟨f, hf, rfl⟩)
    · right
      rcases hpar f hf with h0 | ⟨e, he, hp, h1, h2⟩
      · exact absurd (hfy ▸ h0) hy
      · exact ⟨e.OriginalID, e.ParentID, hfx ▸ h1, hfy ▸ h2, e, he, rfl, rfl, hp⟩
  have hnew : ∀ x y, Relation.TransGen (FolderEdge fin.folders) x y →
      ∀ k, m.get k = some x →
      ∃ k', m.get k' = some y ∧ Relation.TransGen (SnapshotEdge all) k k' := by
    intro x y hxy
    induction hxy with
    | single hab =>
      intro k hk
      rcases hedge _ _ hab with ⟨_, hno⟩ | ⟨k1, k2, h1, h2, hs⟩
      · exact absurd hk (hno k)
      · have := hinj k1 k _ h1 hk
        subst this
        exact ⟨k2, h2, Relation.TransGen.single hs⟩
    | tail _ hbc ih =>
      intro k hk
      obtain ⟨kb, hkb, hpath⟩ := ih k hk
      rcases hedge _ _ hbc with ⟨_, hno⟩ | ⟨k1, k2, h1, h2, hs⟩
      · exact absurd hkb (hno kb)
      · have := hinj k1 kb _ h1 hkb
        subst this
        exact ⟨k2, h2, Relation.TransGen.tail hpath hs⟩
  have hold : ∀ x y, Relation.TransGen (FolderEdge fin.folders) x y →
      (∀ k, m.get k ≠ some y) →
      Relation.TransGen (FolderEdge st0.folders) x y ∧ ∀ k, m.get k ≠ some x := by
    intro x y hxy
    induction hxy with
    | single hab =>
      intro hy
      rcases hedge _ _ hab with ⟨h0, hno⟩ | ⟨k1, k2, _, h2, _⟩
      · exact ⟨Relation.TransGen.single h0, hno⟩
      · exact absurd h2 (hy k2)
    | tail _ hbc ih =>
      intro hy
      rcases hedge _ _ hbc with ⟨h0, hno⟩ | ⟨k1, k2, _, h2, _⟩
      · obtain ⟨hpath, hx⟩ := ih hno
        exact ⟨Relation.TransGen.tail hpath h0, hx⟩
      · exact absurd h2 (hy k2)
  intro x hx
  by_cases hxm : ∃ k, m.get k = some x
  · obtain ⟨k, hk⟩ := hxm
    obtain ⟨k', hk', hpath⟩ := hnew x x hx k hk
    have := hinj k' k x hk' hk
    subst this
    exact hsnap _ hpath
  · have hno : ∀ k, m.get k ≠ some x := fun k hk => hxm ⟨k, hk⟩
    exact hlive x (hold x x hx hno).1

theorem storeToClear_acyclic : Acyclic (FolderEdge storeToClear.folders) := by
  apply acyclic_of_rank _ (fun s => if s = "f2" then 1 else 0)
  rintro a b ⟨f, hf, ha, hb, hne⟩
  simp only [storeToClear, List.mem_cons, List.mem_singleton, List.not_mem_nil, or_false] at hf
  rcases hf with rfl | rfl | rfl
  · exact absurd hb.symm hne
  · subst ha; subst hb; decide
  · exact absurd hb.symm hne

theorem snapshotReversed_acyclic : Acyclic (SnapshotEdge snapshotReversed) := by
  apply acyclic_of_rank _ (fun s => if s = "s2" then 1 else 0)
  rintro a b ⟨e, he, ha, hb, hne⟩
  simp only [snapshotReversed, List.mem_cons, List.mem_singleton, List.not_mem_nil,
    or_false] at he
  rcases he with rfl | rfl
  · exact absurd hb.symm hne
  · subst ha; subst hb; decide

/-! ## Claims on the folder passes of the importer -/

/-- C10: for a snapshot whose folder entries have pairwise distinct original
ids and pairwise distinct names, restored with the collection lookup and every
save succeeding (folder ids unique in the store, assigned ids new): every
entry is mapped to a live folder of the user that bears its name, different
entries to different folders, and for every entry with a non-empty original
parent id that is the original id of an entry `p`, the live folder of the
entry has the live folder of `p` as parent. -/
theorem restore_relinks_parents (env : Env) (u : String) (entries : List FolderBackup)
    (st : Store)
    (hidsE : (entries.map (fun e => e.OriginalID)).Nodup)
    (hnamesE : (entries.map (fun e => e.Name)).Nodup)
    (hcoll : env.hasCollection "folders" = true)
    (hsave : ∀ f, env.saveFolderOk f = true)
    (hstore : (st.folders.map (fun f => f.id)).Nodup)
    (hfresh : ∀ s, env.newId s ∉ s.folders.map (fun f => f.id)) :
    (∀ e ∈ entries, ∃ f ∈ (webdavRestoreFolders env u entries st).2.folders,
      (webdavRestoreFolders env u entries st).1.get e.OriginalID = some f.id ∧
      f.userId = u ∧ f.name = e.Name) ∧
    (∀ e1 ∈ entries, ∀ e2 ∈ entries,
      (webdavRestoreFolders env u entries st).1.get e1.OriginalID =
        (webdavRestoreFolders env u entries st).1.get e2.OriginalID → e1 = e2) ∧
    ((webdavRestoreFolders env u entries st).2.folders.map (fun f => f.id)).Nodup ∧
    (∀ e ∈ entries, e.ParentID ≠ "" → ∀ p ∈ entries, p.OriginalID = e.ParentID →
      ∃ f ∈ (webdavRestoreFolders env u entries st).2.folders,
      ∃ g ∈ (webdavRestoreFolders env u entries st).2.folders,
        (webdavRestoreFolders env u entries st).1.get e.OriginalID = some f.id ∧
        (webdavRestoreFolders env u entries st).1.get p.OriginalID = some g.id ∧
        f.name = e.Name ∧ g.name = p.Name ∧ f.parentId = g.id) := by
  obtain ⟨hnd1, _, _, hmapped⟩ :=
    webdavRestorePass1_mapped env u hcoll hsave hfresh entries [] st hstore hidsE
  have hR : webdavRestoreFolders env u entries st =
      ((webdavRestorePass1 env u entries [] st).1,
        { (webdavRestorePass1 env u entries [] st).2 with
          folders := ((webdavRestorePass1 env u entries [] st).2.folders.map
            (fun x => entries.foldl
              (fun x e => relinkFolder (webdavRestorePass1 env u entries [] st).1 e x) x)) }) := by
    unfold webdavRestoreFolders
    simp only
    rw [webdavRestorePass2_eq env hsave _ entries _ hnd1]
  rw [hR]
  simp only
  generalize webdavRestorePass1 env u entries [] st = P at hnd1 hmapped
  have hinj : ∀ e1 ∈ entries, ∀ e2 ∈ entries,
      P.1.get e1.OriginalID = P.1.get e2.OriginalID → e1 = e2 := by
    intro e1 he1 e2 he2 h
    obtain ⟨f1, hf1, hg1, _, hn1⟩ := hmapped e1 he1
    obtain ⟨f2, hf2, hg2, _, hn2⟩ := hmapped e2 he2
    rw [hg1, hg2] at h
    have hff : f1 = f2 := List.inj_on_of_nodup_map hnd1 hf1 hf2 (by simpa using h)
    apply List.inj_on_of_nodup_map hnamesE he1 he2
    show e1.Name = e2.Name
    rw [← hn1, ← hn2, hff]
  refine ⟨?_, hinj, ?_, ?_⟩
  · intro e he
    obtain ⟨f1, hf1, hg1, hu1, hn1⟩ := hmapped e he
    obtain ⟨h1, h2, h3⟩ := foldl_relinkFolder_id P.1 entries f1
    refine ⟨_, List.mem_map.2 ⟨f1, hf1, rfl⟩, ?_, h2.trans hu1, h3.trans hn1⟩
    rw [hg1, h1]
  · rw [List.map_map]
    have : ((fun f : Folder => f.id) ∘
        (fun x => entries.foldl (fun x e => relinkFolder P.1 e x) x)) = (fun f => f.id) := by
      funext x
      exact (foldl_relinkFolder_id P.1 entries x).1
    rw [this]
    exact hnd1
  · intro e he hp p hpe hpid
    obtain ⟨f1, hf1, hg1, _, hn1⟩ := hmapped e he
    obtain ⟨g1, hgm, hgg, _, hgn⟩ := hmapped p hpe
    obtain ⟨h1, _, h3⟩ := foldl_relinkFolder_id P.1 entries f1
    obtain ⟨k1, _, k3⟩ := foldl_relinkFolder_id P.1 entries g1
    refine ⟨_, List.mem_map.2 ⟨f1, hf1, rfl⟩, _, List.mem_map.2 ⟨g1, hgm, rfl⟩, ?_, ?_,
      h3.trans hn1, k3.trans hgn, ?_⟩
    · rw [hg1, h1]
    · rw [hgg, k1]
    · rw [k1]
      apply foldl_relinkFolder_parent P.1 e f1.id g1.id hp hg1 (by rw [← hpid, hgg]) entries f1
        rfl
      · intro e' he' hget
        exact hinj e' he' e he (by rw [hget, hg1])
      · exact Or.inl he

/-- The example of the specification, `Work` and `Reports` below it, restored
for `u1` into `storeU1`: discharges the hypotheses of C10 and shows the two
live folders. -/
theorem restore_relinks_parents_witness :
    (snapshotWorkReports.map (fun e => e.OriginalID)).Nodup ∧
    (snapshotWorkReports.map (fun e => e.Name)).Nodup ∧
    (storeU1.folders.map (fun f => f.id)).Nodup ∧
    (∀ e ∈ snapshotWorkReports, e.ParentID ≠ "" →
      ∀ p ∈ snapshotWorkReports, p.OriginalID = e.ParentID →
      ∃ f ∈ (webdavRestoreFolders okEnv "u1" snapshotWorkReports storeU1).2.folders,
      ∃ g ∈ (webdavRestoreFolders okEnv "u1" snapshotWorkReports storeU1).2.folders,
        (webdavRestoreFolders okEnv "u1" snapshotWorkReports storeU1).1.get e.OriginalID =
          some f.id ∧
        (webdavRestoreFolders okEnv "u1" snapshotWorkReports storeU1).1.get p.OriginalID =
          some g.id ∧
        f.name = e.Name ∧ g.name = p.Name ∧ f.parentId = g.id) ∧
    (webdavRestoreFolders okEnv "u1" snapshotWorkReports storeU1).2.folders =
      [ { id := "x", userId := "u1", name := "Work", parentId := "", createdAt := "",
          updatedAt := "" },
        { id := "xx", userId := "u1", name := "Reports", parentId := "x", createdAt := "",
          updatedAt := "" } ] :=
  ⟨by decide, by decide, by decide,
    (restore_relinks_parents okEnv "u1" snapshotWorkReports storeU1 (by decide) (by decide)
      rfl (fun _ => rfl) (by decide) okEnv_newId_fresh).2.2.2,
    by decide⟩

/-- C1: for every live store whose folder parent relation is acyclic and every
snapshot whose own folder parent relation is acyclic, the live folder parent
relation after the two folder passes of the importer is acyclic, whichever
collection lookups and saves fail (the store assigns new ids to the folders it
creates).  The passes only create folders and only write the parent of a
created folder. -/
theorem restore_keeps_forest (env : Env) (u : String)
    (entries : List FolderBackup) (st : Store)
    (hlive : Acyclic (FolderEdge st.folders))
    (hsnap : Acyclic (SnapshotEdge entries))
    (hfresh : ∀ s, env.newId s ∉ s.folders.map (fun f => f.id)) :
    Acyclic (FolderEdge (webdavRestoreFolders env u entries st).2.folders) := by
  have h1 : Pass1Inv st (webdavRestorePass1 env u entries [] st).1
      (webdavRestorePass1 env u entries [] st).2 := by
    apply webdavRestorePass1_inv env u st hfresh entries [] st
    refine ⟨[], by simp, by simp, by simp, ?_, ?_⟩
    · intro k x hk; simp [GoMap.get] at hk
    · intro k1 k2 x hk; simp [GoMap.get] at hk
  obtain ⟨news, hcur, hnews, _, hrange, hinj⟩ := h1
  have hdisj : ∀ i ∈ news.map (fun f => f.id), i ∉ st.folders.map (fun f => f.id) := by
    intro i hi
    obtain ⟨f, hf, hfi⟩ := List.mem_map.1 hi
    rw [← hfi]
    exact (hnews f hf).2
  have h2 : Pass2Inv st entries (webdavRestorePass1 env u entries [] st).1
      (news.map (fun f => f.id))
      (webdavRestorePass2 env entries (webdavRestorePass1 env u entries [] st).1
        (webdavRestorePass1 env u entries [] st).2) := by
    apply webdavRestorePass2_inv env st entries _ _ hrange hdisj entries _ (fun e he => he)
    exact ⟨news, hcur, rfl, fun f hf => Or.inl (hnews f hf).1⟩
  exact acyclic_of_pass_invariants st entries _ _ _ hlive hsnap hrange hdisj hinj h2

/-- The folders of `snapshotReversed`, `Work` below `Reports`, restored for
`u1`, whose live folders in `storeToClear` have the same two names nested the
other way round: discharges the hypotheses of C1 and shows the folders after
the two passes, the live ones as they were and two created ones. -/
theorem restore_keeps_forest_witness :
    Acyclic (FolderEdge storeToClear.folders) ∧
    Acyclic (SnapshotEdge snapshotReversed) ∧
    Acyclic (FolderEdge
      (webdavRestoreFolders okEnv "u1" snapshotReversed storeToClear).2.folders) ∧
    (webdavRestoreFolders okEnv "u1" snapshotReversed storeToClear).2.folders =
      storeToClear.folders ++
      [ { id := "xxxxxxx", userId := "u1", name := "Reports", parentId := "", createdAt := "",
          updatedAt := "" },
        { id := "xxxxxxxxxxxxxx", userId := "u1", name := "Work", parentId := "xxxxxxx",
          createdAt := "", updatedAt := "" } ] :=
  ⟨storeToClear_acyclic, snapshotReversed_acyclic,
    restore_keeps_forest okEnv "u1" snapshotReversed storeToClear
      storeToClear_acyclic snapshotReversed_acyclic okEnv_newId_fresh,
    by decide⟩

/-! ## Claims on the lookup of the path resolver -/

theorem buildFolderMap_get_of_no_key (k : String) : ∀ (l : List Folder) (m : GoMap Folder),
    (∀ x ∈ l, x.name ++ ":" ++ x.parentId ≠ k) → (buildFolderMap l m).get k = m.get k := by
  intro l
  induction l with
  | nil => intro m _; rfl
  | cons r rest ih =>
    intro m h
    unfold buildFolderMap
    rw [ih _ (fun x hx => h x (List.mem_cons_of_mem _ hx)), GoMap.get_set,
      if_neg (fun e => h r (List.mem_cons_self _ _) e.symm)]

/-- C17 as stated fails: with two root folders named `Work` in the listing of
`u1`, `f1` before `f2`, the lookup for `Work` below the root gives `f2`, the
one listed last, and resolving the path `Work` returns `f2`. -/
theorem folder_lookup_first_match_counterexample :
    userFolders storeTwoWork "u1" =
      [ { id := "f1", userId := "u1", name := "Work", parentId := "", createdAt := "",
          updatedAt := "" },
        { id := "f2", userId := "u1", name := "Work", parentId := "", createdAt := "",
          updatedAt := "" } ] ∧
    ((buildFolderMap (userFolders storeTwoWork "u1") []).get ("Work" ++ ":" ++ "")).map
      (fun f => f.id) = some "f2" ∧
    ensureFolderPathHandler okEnv (some "u1") ["Work"] storeTwoWork =
      (storeTwoWork, .ok (some "f2") []) := by
  decide

/-- C17, as amended: when the listing of the user's folders holds several
folders with the same lookup key `name + ":" + parentId`, the lookup of the
path resolver for that key resolves to the one listed last; for a folder below
the root, resolving the one-segment path of its name returns that folder and
creates nothing. -/
theorem folder_lookup_resolves_to_last (env : Env) (u : String) (st : Store)
    (before after : List Folder) (r : Folder)
    (hlist : userFolders st u = before ++ r :: after)
    (hlast : ∀ x ∈ after, x.name ++ ":" ++ x.parentId ≠ r.name ++ ":" ++ r.parentId)
    (hfetch : env.fetchOk "folders" = true) :
    (buildFolderMap (userFolders st u) []).get (r.name ++ ":" ++ r.parentId) = some r ∧
    (r.parentId = "" →
      ensureFolderPathHandler env (some u) [r.name] st = (st, .ok (some r.id) [])) := by
  have hget : (buildFolderMap (userFolders st u) []).get (r.name ++ ":" ++ r.parentId) =
      some r := by
    rw [hlist, buildFolderMap_append]
    unfold buildFolderMap
    rw [buildFolderMap_get_of_no_key _ after _ hlast, GoMap.get_set, if_pos rfl]
  refine ⟨hget, ?_⟩
  intro hroot
  rw [hroot] at hget
  have hget2 : (buildFolderMap (userFolders st u) []).get (r.name ++ ":") = some r := by
    simpa using hget
  simp [ensureFolderPathHandler, hfetch, ensureFolderPathLoop, parentIdStrOf, hget2]

/-- The two root folders named `Work` of `storeTwoWork`: discharges the
hypotheses of the amended C17. -/
theorem folder_lookup_resolves_to_last_witness :
    userFolders storeTwoWork "u1" =
      [{ id := "f1", userId := "u1", name := "Work", parentId := "", createdAt := "",
         updatedAt := "" }] ++
      { id := "f2", userId := "u1", name := "Work", parentId := "", createdAt := "",
        updatedAt := "" } :: [] ∧
    ensureFolderPathHandler okEnv (some "u1") ["Work"] storeTwoWork =
      (storeTwoWork, .ok (some "f2") []) :=
  ⟨by decide, (folder_lookup_resolves_to_last okEnv "u1" storeTwoWork
    [{ id := "f1", userId := "u1", name := "Work", parentId := "", createdAt := "",
       updatedAt := "" }] []
    { id := "f2", userId := "u1", name := "Work", parentId := "", createdAt := "",
      updatedAt := "" } (by decide) (by simp) rfl).2 rfl⟩

/-! ## Lemmas on the bookmark pass of the importer -/

theorem restoreBookmarkTags_fst (env : Env) (u : String) (e : BookmarkBackup) (r : Bookmark)
    (st : Store) : (restoreBookmarkTags env u e r st).1 = retagBookmark e r := by
  unfold restoreBookmarkTags retagBookmark
  by_cases h : e.Tags.length > 0
  · simp only [h, if_true]
    cases findUserSettings st u with
    | none => rfl
    | some s =>
      dsimp only
      split_ifs
      · cases saveSettings env st _ <;> rfl
      · rfl
  · simp only [h, if_false]

theorem restoreBookmarkTags_snd (env : Env) (u : String) (e : BookmarkBackup) (r : Bookmark)
    (st : Store) : (restoreBookmarkTags env u e r st).2 = restoreVocabulary env u e st := by
  unfold restoreVocabulary restoreBookmarkTags
  by_cases h : e.Tags.length > 0
  · simp only [h, if_true]
    cases findUserSettings st u with
    | none => rfl
    | some s =>
      dsimp only
      split_ifs
      · cases saveSettings env st _ <;> rfl
      · rfl
  · simp only [h, if_false]

theorem restoreVocabulary_bookmarks (env : Env) (u : String) (e : BookmarkBackup) (st : Store) :
    (restoreVocabulary env u e st).bookmarks = st.bookmarks := by
  unfold restoreVocabulary restoreBookmarkTags
  by_cases h : e.Tags.length > 0
  · simp only [h, if_true]
    cases findUserSettings st u with
    | none => rfl
    | some s =>
      dsimp only
      split_ifs with h2
      · unfold saveSettings
        split_ifs <;> rfl
      · rfl
  · simp only [h, if_false]

theorem restoreVocabulary_folders (env : Env) (u : String) (e : BookmarkBackup) (st : Store) :
    (restoreVocabulary env u e st).folders = st.folders := by
  unfold restoreVocabulary restoreBookmarkTags
  by_cases h : e.Tags.length > 0
  · simp only [h, if_true]
    cases findUserSettings st u with
    | none => rfl
    | some s =>
      dsimp only
      split_ifs with h2
      · unfold saveSettings
        split_ifs <;> rfl
      · rfl
  · simp only [h, if_false]

theorem setBookmarkTimestamps_fields (r : Bookmark) (e : BookmarkBackup) :
    (setBookmarkTimestamps r e).id = r.id ∧ (setBookmarkTimestamps r e).userId = r.userId ∧
    (setBookmarkTimestamps r e).url = r.url ∧ (setBookmarkTimestamps r e).title = r.title ∧
    (setBookmarkTimestamps r e).faviconUrl = r.faviconUrl ∧
    (setBookmarkTimestamps r e).folderId = r.folderId ∧
    (setBookmarkTimestamps r e).tags = r.tags := by
  unfold setBookmarkTimestamps SetAutodate
  dsimp only
  split_ifs <;> simp

theorem retagBookmark_fields (e : BookmarkBackup) (r : Bookmark) :
    (retagBookmark e r).id = r.id ∧ (retagBookmark e r).userId = r.userId ∧
    (retagBookmark e r).url = r.url ∧ (retagBookmark e r).title = r.title ∧
    (retagBookmark e r).faviconUrl = r.faviconUrl ∧
    (retagBookmark e r).folderId = r.folderId ∧
    (retagBookmark e r).tags = (if e.Tags.length > 0 then e.Tags else r.tags) := by
  unfold retagBookmark
  split_ifs <;> simp

theorem restoreBookmarkFolder_fields (m : GoMap String) (e : BookmarkBackup) (r : Bookmark) :
    (restoreBookmarkFolder m e r).id = r.id ∧ (restoreBookmarkFolder m e r).userId = r.userId ∧
    (restoreBookmarkFolder m e r).url = r.url ∧ (restoreBookmarkFolder m e r).title = r.title ∧
    (restoreBookmarkFolder m e r).faviconUrl = r.faviconUrl ∧
    (restoreBookmarkFolder m e r).tags = r.tags ∧
    (restoreBookmarkFolder m e r).folderId =
      (if e.FolderID ≠ "" then (m.get e.FolderID).getD r.folderId else r.folderId) := by
  unfold restoreBookmarkFolder
  by_cases h : e.FolderID ≠ ""
  · rw [if_pos h, if_pos h]
    cases m.get e.FolderID <;> simp
  · rw [if_neg h, if_neg h]
    simp

theorem createdBookmarkRecord_fields (u : String) (m : GoMap String) (e : BookmarkBackup) :
    (createdBookmarkRecord u m e).userId = u ∧
    (createdBookmarkRecord u m e).url = e.URL ∧
    (createdBookmarkRecord u m e).title = e.Title ∧
    (createdBookmarkRecord u m e).folderId =
      (if e.FolderID ≠ "" then (m.get e.FolderID).getD "" else "") ∧
    (createdBookmarkRecord u m e).tags = e.Tags := by
  unfold createdBookmarkRecord
  generalize hr : newBookmarkRecord u e = r
  have hr2 : r.userId = u ∧ r.url = e.URL ∧ r.title = e.Title ∧ r.folderId = "" ∧ r.tags = [] := by
    rw [← hr]; simp [newBookmarkRecord]
  obtain ⟨a1, a2, a3, a4, a5, a6, a7⟩ := setBookmarkTimestamps_fields
    (retagBookmark e (restoreBookmarkFolder m e r)) e
  obtain ⟨b1, b2, b3, b4, b5, b6, b7⟩ := retagBookmark_fields e (restoreBookmarkFolder m e r)
  obtain ⟨c1, c2, c3, c4, c5, c6, c7⟩ := restoreBookmarkFolder_fields m e r
  refine ⟨?_, ?_, ?_, ?_, ?_⟩
  · rw [a2, b2, c2, hr2.1]
  · rw [a3, b3, c3, hr2.2.1]
  · rw [a4, b4, c4, hr2.2.2.1]
  · rw [a6, b6, c7, hr2.2.2.2.1]
  · rw [a7, b7, c6, hr2.2.2.2.2]
    split_ifs with h
    · rfl
    · have : e.Tags = [] := by
        cases hT : e.Tags with
        | nil => rfl
        | cons a l => rw [hT] at h; simp at h
      rw [this]

theorem restoreBookmarkRecord_new (env : Env) (u : String) (e : BookmarkBackup)
    (st : Store) (hcoll : env.hasCollection "bookmarks" = true) :
    restoreBookmarkRecord env u st e = some (newBookmarkRecord u e, true) := by
  unfold restoreBookmarkRecord newBookmarkRecord
  rw [findBookmarkByUrl_none]
  simp only [hcoll, if_true]
  split_ifs with h
  · rfl
  · have h2 : e.FaviconURL = "" := not_not.1 h
    rw [h2]

/-- The step of the bookmark loop for one entry, collection lookup and save
succeeding: after the vocabulary step, a new record for the entry is appended
to the bookmarks; no bookmark of the store is touched. -/
theorem webdavRestoreBookmark_creates (env : Env) (u : String) (m : GoMap String)
    (e : BookmarkBackup) (st : Store)
    (hcoll : env.hasCollection "bookmarks" = true)
    (hsave : ∀ r, env.saveBookmarkOk r = true) :
    webdavRestoreBookmark env u m e st =
      ({ restoreVocabulary env u e st with
          bookmarks := st.bookmarks ++
            [{ createdBookmarkRecord u m e with
                id := env.newId (restoreVocabulary env u e st) }] }, true) := by
  unfold webdavRestoreBookmark
  rw [restoreBookmarkRecord_new env u e st hcoll]
  simp only [restoreBookmarkTags_fst, restoreBookmarkTags_snd, if_true,
    createBookmark, hsave, restoreVocabulary_bookmarks]
  rfl

theorem createdBookmarkRecord_faviconUrl (u : String) (m : GoMap String) (e : BookmarkBackup) :
    (createdBookmarkRecord u m e).faviconUrl = e.FaviconURL := by
  unfold createdBookmarkRecord
  rw [(setBookmarkTimestamps_fields _ e).2.2.2.2.1, (retagBookmark_fields e _).2.2.2.2.1,
    (restoreBookmarkFolder_fields m e _).2.2.2.2.1]
  rfl

/-! ## Claims on the settings restoration of the importer -/

/-- C19 as stated fails: a snapshot whose settings section carries an empty
`tagList` array (and nothing else) erases the five-tag vocabulary of `u1`. -/
theorem settings_restoration_empty_tag_list_counterexample :
    settingsEmptyTagList.TagList = some [] ∧
    (findUserSettings storeToClear "u1").map (fun s => s.tagList) =
      some ["a", "b", "c", "d", "e"] ∧
    (findUserSettings (webdavRestoreBackupData okEnv "u1" "backup.json"
      { Version := "1", Bookmarks := [], Folders := [], UserSettings := settingsEmptyTagList }
      storeToClear).1 "u1").map (fun s => s.tagList) = some [] := by
  decide

theorem restoredSettingsRecord_fields (settings : UserSettingsBackupData) (s : UserSettings) :
    (restoredSettingsRecord settings s).id = s.id ∧
    (restoredSettingsRecord settings s).userId = s.userId ∧
    (restoredSettingsRecord settings s).tagList = settings.TagList.getD s.tagList ∧
    (restoredSettingsRecord settings s).darkMode = settings.DarkMode ∧
    (restoredSettingsRecord settings s).accentColor =
      (if settings.AccentColor = "" then s.accentColor else settings.AccentColor) ∧
    (restoredSettingsRecord settings s).defaultView =
      (if settings.DefaultView = "" then s.defaultView else settings.DefaultView) ∧
    (restoredSettingsRecord settings s).language =
      (if settings.Language = "" then s.language else settings.Language) := by
  unfold restoredSettingsRecord
  cases settings.TagList <;> (dsimp only; split_ifs <;> simp_all)

theorem webdavRestoreSettings_found (env : Env) (u : String)
    (settings : UserSettingsBackupData) (st : Store) (s : UserSettings)
    (hfind : findUserSettings st u = some s)
    (hsave : ∀ r, env.saveSettingsOk r = true)
    (hc : (settings.TagList.isSome || settings.AccentColor ≠ "" || settings.DefaultView ≠ "" ||
      settings.Language ≠ "") = true) :
    webdavRestoreSettings env u settings st =
      ({ st with settings := (st.settings.map
          (fun x => if x.id = s.id then restoredSettingsRecord settings s else x)) },
        [restoredSettingsRecord settings s]) := by
  have hid : (restoredSettingsRecord settings s).id = s.id :=
    (restoredSettingsRecord_fields settings s).1
  unfold webdavRestoreSettings
  rw [if_pos hc, hfind]
  show (match saveSettings env st (restoredSettingsRecord settings s) with
    | some st' => (st', [restoredSettingsRecord settings s])
    | none => (st, [restoredSettingsRecord settings s])) = _
  unfold saveSettings
  rw [hsave]
  simp only [if_true, hid]

theorem webdavRestoreSettings_absent (env : Env) (u : String)
    (settings : UserSettingsBackupData) (st : Store)
    (hc : ¬ (settings.TagList.isSome || settings.AccentColor ≠ "" ||
      settings.DefaultView ≠ "" || settings.Language ≠ "") = true) :
    webdavRestoreSettings env u settings st = (st, []) ∧
    settings.TagList = none ∧ settings.AccentColor = "" ∧
      settings.DefaultView = "" ∧ settings.Language = "" := by
  unfold webdavRestoreSettings
  rw [if_neg hc]
  refine ⟨rfl, ?_⟩
  cases hT : settings.TagList with
  | some l => rw [hT] at hc; simp at hc
  | none =>
    rw [hT] at hc
    simp at hc
    exact ⟨rfl, hc.1.1, hc.1.2, hc.2⟩

/-- C19, as amended: in the settings restoration (settings record present,
its save succeeding) the live `accentColor`, `defaultView` and `language` stay
as they were when the value of the snapshot is empty and become the value of
the snapshot when it is not; the live `tagList` stays as it was when the
`tagList` of the snapshot is nil (absent or null) and becomes the list of the
snapshot when that is present, also when it is the empty array.  When the
snapshot has no settings section (no `tagList` and three empty strings) the
store is left as it is and no record is saved. -/
theorem settings_restoration_fields (env : Env) (u : String)
    (settings : UserSettingsBackupData) (st : Store) (s : UserSettings)
    (hfind : findUserSettings st u = some s)
    (hsave : ∀ r, env.saveSettingsOk r = true) :
    (∃ s', findUserSettings (webdavRestoreSettings env u settings st).1 u = some s' ∧
      s'.id = s.id ∧
      (settings.TagList = none → s'.tagList = s.tagList) ∧
      (∀ tagList, settings.TagList = some tagList → s'.tagList = tagList) ∧
      (settings.AccentColor = "" → s'.accentColor = s.accentColor) ∧
      (settings.AccentColor ≠ "" → s'.accentColor = settings.AccentColor) ∧
      (settings.DefaultView = "" → s'.defaultView = s.defaultView) ∧
      (settings.DefaultView ≠ "" → s'.defaultView = settings.DefaultView) ∧
      (settings.Language = "" → s'.language = s.language) ∧
      (settings.Language ≠ "" → s'.language = settings.Language)) ∧
    (settings.TagList = none → settings.AccentColor = "" → settings.DefaultView = "" →
      settings.Language = "" → webdavRestoreSettings env u settings st = (st, [])) := by
  constructor
  · by_cases hc : (settings.TagList.isSome || settings.AccentColor ≠ "" ||
        settings.DefaultView ≠ "" || settings.Language ≠ "") = true
    · obtain ⟨f1, f2, f3, _, f5, f6, f7⟩ := restoredSettingsRecord_fields settings s
      have hsu : s.userId = u := by
        have := List.find?_some hfind
        simpa using this
      have hfind2 := find_settings_after_save _ s u f1 (f2.trans hsu) _ hfind
      rw [f1] at hfind2
      rw [webdavRestoreSettings_found env u settings st s hfind hsave hc]
      refine ⟨restoredSettingsRecord settings s, hfind2, f1, ?_, ?_, ?_, ?_, ?_, ?_, ?_, ?_⟩
      · intro h; rw [f3, h]; rfl
      · intro l h; rw [f3, h]; rfl
      · intro h; rw [f5, if_pos h]
      · intro h; rw [f5, if_neg h]
      · intro h; rw [f6, if_pos h]
      · intro h; rw [f6, if_neg h]
      · intro h; rw [f7, if_pos h]
      · intro h; rw [f7, if_neg h]
    · obtain ⟨hres, hc2⟩ := webdavRestoreSettings_absent env u settings st hc
      rw [hres]
      refine ⟨s, hfind, rfl, fun _ => rfl, ?_, fun _ => rfl, ?_, fun _ => rfl, ?_,
        fun _ => rfl, ?_⟩
      · intro l h; rw [hc2.1] at h; cases h
      · intro h; exact absurd hc2.2.1 h
      · intro h; exact absurd hc2.2.2.1 h
      · intro h; exact absurd hc2.2.2.2 h
  · intro h1 h2 h3 h4
    unfold webdavRestoreSettings
    rw [h1, h2, h3, h4]
    rfl

/-- The settings record of `u1` in `storeToClear` under a snapshot that
carries an accent colour and a language but neither `tagList` nor default
view. -/
theorem settings_restoration_fields_witness :
    findUserSettings storeToClear "u1" = some liveSettingsA ∧
    ∃ s', findUserSettings
        (webdavRestoreSettings okEnv "u1" settingsAccentLanguage storeToClear).1 "u1" = some s' ∧
      s'.tagList = ["a", "b", "c", "d", "e"] ∧ s'.accentColor = "#ff0000" ∧
      s'.defaultView = "" ∧ s'.language = "de" :=
  ⟨by decide,
   (settings_restoration_fields okEnv "u1" settingsAccentLanguage storeToClear liveSettingsA
      (by decide) (fun _ => rfl)).1.elim
    (fun s' h => ⟨s', h.1, h.2.2.1 rfl, h.2.2.2.2.2.1 (by decide), h.2.2.2.2.2.2.1 rfl,
      h.2.2.2.2.2.2.2.2.2 (by decide)⟩)⟩

/-! ## Lemmas on the snapshot exporter -/

theorem exportFolderMap_get_of_not_mem (id : String) : ∀ (fs : List Folder) (m : GoMap Folder),
    id ∉ fs.map (fun f => f.id) → (exportFolderMap fs m).get id = m.get id := by
  intro fs
  induction fs with
  | nil => intro m _; rfl
  | cons r rest ih =>
    intro m h
    simp only [List.map_cons, List.mem_cons, not_or] at h
    unfold exportFolderMap
    rw [ih _ h.2, GoMap.get_set, if_neg h.1]

theorem exportFolderMap_get_some (id : String) (f : Folder) :
    ∀ (fs : List Folder) (m : GoMap Folder), (exportFolderMap fs m).get id = some f →
    (f ∈ fs ∧ f.id = id) ∨ m.get id = some f := by
  intro fs
  induction fs with
  | nil => intro m h; exact Or.inr h
  | cons r rest ih =>
    intro m h
    unfold exportFolderMap at h
    rcases ih _ h with h1 | h1
    · exact Or.inl ⟨List.mem_cons_of_mem _ h1.1, h1.2⟩
    · rw [GoMap.get_set] at h1
      split_ifs at h1 with hk
      · cases h1
        exact Or.inl ⟨List.mem_cons_self _ _, hk.symm⟩
      · exact Or.inr h1

theorem exportFolderMap_get_mem (f : Folder) : ∀ (fs : List Folder) (m : GoMap Folder),
    (fs.map (fun f => f.id)).Nodup → f ∈ fs → (exportFolderMap fs m).get f.id = some f := by
  intro fs
  induction fs with
  | nil => intro m _ h; cases h
  | cons r rest ih =>
    intro m hnd h
    simp only [List.map_cons, List.nodup_cons] at hnd
    unfold exportFolderMap
    rcases List.mem_cons.1 h with h1 | h1
    · subst h1
      rw [exportFolderMap_get_of_not_mem _ _ _ hnd.1, GoMap.get_set, if_pos rfl]
    · exact ih _ hnd.2 h1

theorem exportFolderMap_get_nil (fs : List Folder) (id : String) (f : Folder)
    (h : (exportFolderMap fs []).get id = some f) : f ∈ fs ∧ f.id = id := by
  rcases exportFolderMap_get_some id f fs [] h with h1 | h1
  · exact h1
  · simp [GoMap.get] at h1

theorem exportFolderMap_get_isSome (fs : List Folder) (id : String)
    (h : id ∈ fs.map (fun f => f.id)) : ∃ f, (exportFolderMap fs []).get id = some f := by
  by_contra hcon
  have hnone : (exportFolderMap fs []).get id = none := by
    cases hg : (exportFolderMap fs []).get id with
    | none => rfl
    | some f => exact absurd ⟨f, hg⟩ hcon
  clear hcon
  revert hnone
  generalize ([] : GoMap Folder) = m
  induction fs generalizing m with
  | nil => simp at h
  | cons r rest ih =>
    intro hnone
    unfold exportFolderMap at hnone
    by_cases hr : id ∈ rest.map (fun f => f.id)
    · exact ih hr _ hnone
    · rw [exportFolderMap_get_of_not_mem _ _ _ hr, GoMap.get_set] at hnone
      simp only [List.map_cons, List.mem_cons] at h
      rcases h with h | h
      · rw [if_pos h] at hnone; cases hnone
      · exact hr h

theorem buildFolderPath_mono (m : GoMap Folder) : ∀ (fuel : Nat) (id : String)
    (path : List String), buildFolderPath m fuel id = some path →
    ∀ fuel', fuel ≤ fuel' → buildFolderPath m fuel' id = some path := by
  intro fuel
  induction fuel with
  | zero => intro id path h; simp [buildFolderPath] at h
  | succ n ih =>
    intro id path h fuel' hle
    obtain ⟨k, rfl⟩ : ∃ k, fuel' = k + 1 := ⟨fuel' - 1, by omega⟩
    unfold buildFolderPath at h ⊢
    by_cases h1 : id = ""
    · rw [if_pos h1] at h ⊢; exact h
    · rw [if_neg h1] at h ⊢
      cases hg : m.get id with
      | none => rw [hg] at h; exact h
      | some folder =>
        rw [hg] at h
        dsimp only at h ⊢
        by_cases h2 : folder.parentId = ""
        · rw [if_pos h2] at h ⊢; exact h
        · rw [if_neg h2] at h ⊢
          cases hp : buildFolderPath m n folder.parentId with
          | none => rw [hp] at h; cases h
          | some parentPath =>
            rw [hp] at h
            rw [ih _ _ hp k (by omega)]
            exact h

theorem buildFolderPath_missing (fs : List Folder) (id : String) (fuel : Nat)
    (h : id ∉ fs.map (fun f => f.id)) :
    buildFolderPath (exportFolderMap fs []) (fuel + 1) id = some [] := by
  unfold buildFolderPath
  split_ifs
  · rfl
  · rw [exportFolderMap_get_of_not_mem _ _ _ h]
    rfl

theorem buildFolderPath_of_path (fs : List Folder) (top : String)
    (hnd : (fs.map (fun f => f.id)).Nodup) (hne : ∀ f ∈ fs, f.id ≠ "")
    (htop : top ∉ fs.map (fun f => f.id)) (f : Folder) (path : List String)
    (h : PathBelow fs top f path) :
    ∀ fuel, path.length < fuel → buildFolderPath (exportFolderMap fs []) fuel f.id = some path := by
  induction h with
  | start f hf hp =>
    intro fuel hfuel
    obtain ⟨k, rfl⟩ : ∃ k, fuel = k + 2 := ⟨fuel - 2, by simp at hfuel; omega⟩
    unfold buildFolderPath
    rw [if_neg (hne f hf), exportFolderMap_get_mem f fs [] hnd hf]
    dsimp only
    split_ifs with h1
    · rfl
    · rw [hp, buildFolderPath_missing fs top k htop]
      rfl
  | next p f path hpath hf hp ih =>
    intro fuel hfuel
    obtain ⟨k, rfl⟩ : ∃ k, fuel = k + 1 := ⟨fuel - 1, by simp at hfuel; omega⟩
    have hpmem : p ∈ fs := by
      cases hpath with
      | start _ h _ => exact h
      | next _ _ _ _ h _ => exact h
    unfold buildFolderPath
    rw [if_neg (hne f hf), exportFolderMap_get_mem f fs [] hnd hf]
    dsimp only
    rw [if_neg (by rw [hp]; exact hne p hpmem), hp, ih k (by simp at hfuel; omega)]

theorem PathBelow.mem {fs : List Folder} {top : String} {f : Folder} {path : List String}
    (h : PathBelow fs top f path) : f ∈ fs := by
  cases h with
  | start _ h _ => exact h
  | next _ _ _ _ h _ => exact h

theorem PathBelow.top_parent {fs : List Folder} {top : String} {f : Folder}
    {path : List String} (h : PathBelow fs top f path) : ∃ g ∈ fs, g.parentId = top := by
  induction h with
  | start f hf hp => exact ⟨f, hf, hp⟩
  | next _ _ _ _ _ _ ih => exact ih

theorem buildFolderPath_sound (fs : List Folder) : ∀ (fuel : Nat) (id : String)
    (path : List String), buildFolderPath (exportFolderMap fs []) fuel id = some path →
    id ∈ fs.map (fun f => f.id) → id ≠ "" →
    ∃ f top, f ∈ fs ∧ f.id = id ∧ PathBelow fs top f path ∧
      (top = "" ∨ top ∉ fs.map (fun f => f.id)) := by
  intro fuel
  induction fuel with
  | zero => intro id path h; simp [buildFolderPath] at h
  | succ n ih =>
    intro id path h hid hne
    unfold buildFolderPath at h
    rw [if_neg hne] at h
    obtain ⟨folder, hg⟩ := exportFolderMap_get_isSome fs id hid
    obtain ⟨hmem, hfid⟩ := exportFolderMap_get_nil fs id folder hg
    rw [hg] at h
    dsimp only at h
    by_cases h2 : folder.parentId = ""
    · rw [if_pos h2] at h
      cases h
      exact ⟨folder, "", hmem, hfid, PathBelow.start folder hmem h2, Or.inl rfl⟩
    · rw [if_neg h2] at h
      cases hp : buildFolderPath (exportFolderMap fs []) n folder.parentId with
      | none => rw [hp] at h; cases h
      | some parentPath =>
        rw [hp] at h
        cases h
        by_cases hpin : folder.parentId ∈ fs.map (fun f => f.id)
        · obtain ⟨p, top, _, hpid, hpath, htop⟩ := ih _ _ hp hpin h2
          exact ⟨folder, top, hmem, hfid, PathBelow.next p folder parentPath hpath hmem
            hpid.symm, htop⟩
        · have hnil : parentPath = [] := by
            cases n with
            | zero => simp [buildFolderPath] at hp
            | succ k =>
              rw [buildFolderPath_missing fs _ k hpin] at hp
              cases hp
              rfl
          subst hnil
          exact ⟨folder, folder.parentId, hmem, hfid, PathBelow.start folder hmem rfl,
            Or.inr hpin⟩

theorem buildFolderPath_terminates (fs : List Folder) (hac : Acyclic (FolderEdge fs)) :
    ∀ (fuel : Nat) (id : String) (visited : List String), visited.Nodup →
    (∀ v ∈ visited, v ∈ fs.map (fun f => f.id)) →
    (∀ v ∈ visited, Relation.TransGen (FolderEdge fs) v id) →
    fs.length < fuel + visited.length →
    buildFolderPath (exportFolderMap fs []) fuel id ≠ none := by
  intro fuel
  induction fuel with
  | zero =>
    intro id visited hnd hsub _ hlen
    exfalso
    have h1 : visited.length ≤ (fs.map (fun f => f.id)).length :=
      (List.Nodup.subperm hnd hsub).length_le
    simp at h1 hlen
    omega
  | succ n ih =>
    intro id visited hnd hsub hdesc hlen
    unfold buildFolderPath
    by_cases h1 : id = ""
    · rw [if_pos h1]; simp
    · rw [if_neg h1]
      cases hg : (exportFolderMap fs []).get id with
      | none => simp
      | some folder =>
        obtain ⟨hmem, hfid⟩ := exportFolderMap_get_nil fs id folder hg
        dsimp only
        by_cases h2 : folder.parentId = ""
        · rw [if_pos h2]; simp
        · rw [if_neg h2]
          have hedge : FolderEdge fs id folder.parentId := ⟨folder, hmem, hfid, rfl, h2⟩
          have hrec := ih folder.parentId (id :: visited)
            (List.nodup_cons.2 ⟨fun hin => hac id (hdesc id hin), hnd⟩)
            (by
              intro v hv
              rcases List.mem_cons.1 hv with hv | hv
              · rw [hv, ← hfid]; exact List.mem_map.2 ⟨folder, hmem, rfl⟩
              · exact hsub v hv)
            (by
              intro v hv
              rcases List.mem_cons.1 hv with hv | hv
              · rw [hv]; exact Relation.TransGen.single hedge
              · exact Relation.TransGen.tail (hdesc v hv) hedge)
            (by simp; omega)
          cases hp : buildFolderPath (exportFolderMap fs []) n folder.parentId with
          | none => exact absurd hp hrec
          | some parentPath => simp

theorem exportFolders_spec (m : GoMap Folder) (fuel : Nat) : ∀ (fs : List Folder),
    (∀ f ∈ fs, buildFolderPath m fuel f.id ≠ none) →
    ∃ out, exportFolders m fuel fs = some out ∧
      List.Forall₂ (fun f x => x.id = f.id ∧ x.name = f.name ∧
        buildFolderPath m fuel f.id = some x.path) fs out := by
  intro fs
  induction fs with
  | nil => intro _; exact ⟨[], rfl, List.Forall₂.nil⟩
  | cons r rest ih =>
    intro h
    obtain ⟨out, hout, hrel⟩ := ih (fun f hf => h f (List.mem_cons_of_mem _ hf))
    cases hp : buildFolderPath m fuel r.id with
    | none => exact absurd hp (h r (List.mem_cons_self _ _))
    | some folderPath =>
      unfold exportFolders
      rw [hp, hout]
      exact ⟨_, rfl, List.Forall₂.cons ⟨rfl, rfl, hp⟩ hrel⟩

theorem exportBookmarks_spec (m : GoMap Folder) (fuel : Nat) : ∀ (bs : List Bookmark),
    (∀ b ∈ bs, buildFolderPath m (fuel + 1) b.folderId ≠ none) →
    ∃ out, exportBookmarks m (fuel + 1) bs = some out ∧
      List.Forall₂ (fun b x => x.id = b.id ∧ x.title = b.title ∧ x.url = b.url ∧
        buildFolderPath m (fuel + 1) b.folderId = some x.folderPath) bs out := by
  intro bs
  induction bs with
  | nil => intro _; exact ⟨[], rfl, List.Forall₂.nil⟩
  | cons r rest ih =>
    intro h
    obtain ⟨out, hout, hrel⟩ := ih (fun f hf => h f (List.mem_cons_of_mem _ hf))
    unfold exportBookmarks
    by_cases hf : r.folderId = ""
    · rw [if_neg (not_not.2 hf), hout]
      refine ⟨_, rfl, List.Forall₂.cons ⟨rfl, rfl, rfl, ?_⟩ hrel⟩
      rw [hf]
      unfold buildFolderPath
      rw [if_pos rfl]
    · rw [if_pos hf]
      cases hp : buildFolderPath m (fuel + 1) r.folderId with
      | none => exact absurd hp (h r (List.mem_cons_self _ _))
      | some folderPath =>
        rw [hout]
        exact ⟨_, rfl, List.Forall₂.cons ⟨rfl, rfl, rfl, hp⟩ hrel⟩

theorem forall₂_mem_right {α β : Type} {R : α → β → Prop} : ∀ {l : List α} {out : List β},
    List.Forall₂ R l out → ∀ x ∈ out, ∃ a ∈ l, R a x := by
  intro l out h
  induction h with
  | nil => intro x hx; cases hx
  | cons hr _ ih =>
    intro x hx
    rcases List.mem_cons.1 hx with hx | hx
    · subst hx; exact ⟨_, List.mem_cons_self _ _, hr⟩
    · obtain ⟨a, ha, hra⟩ := ih x hx
      exact ⟨a, List.mem_cons_of_mem _ ha, hra⟩

theorem forall₂_imp_mem {α β : Type} {R S : α → β → Prop} : ∀ {l : List α} {out : List β},
    List.Forall₂ R l out → (∀ a ∈ l, ∀ x ∈ out, R a x → S a x) → List.Forall₂ S l out := by
  intro l out h
  induction h with
  | nil => intro _; exact List.Forall₂.nil
  | cons hr _ ih =>
    intro himp
    exact List.Forall₂.cons (himp _ (List.mem_cons_self _ _) _ (List.mem_cons_self _ _) hr)
      (ih (fun a ha x hx => himp a (List.mem_cons_of_mem _ ha) x (List.mem_cons_of_mem _ hx)))

theorem syncExportDataHandler_ok (env : Env) (u lastSyncTime exportTime : String) (st : Store)
    (fuel : Nat)
    (hfb : env.fetchOk "bookmarks" = true) (hff : env.fetchOk "folders" = true)
    (hac : Acyclic (FolderEdge (loadedFolders st u lastSyncTime)))
    (hfuel : (loadedFolders st u lastSyncTime).length < fuel) :
    ∃ folders bookmarks,
      syncExportDataHandler env (some u) lastSyncTime exportTime fuel st =
        some (.ok folders bookmarks
          { totalFolders := (loadedFolders st u lastSyncTime).length,
            totalBookmarks := (loadedBookmarks st u lastSyncTime).length,
            exportTime := exportTime, isIncremental := decide (lastSyncTime ≠ "") }) ∧
      List.Forall₂ (fun f x => x.id = f.id ∧ x.name = f.name ∧
        buildFolderPath (exportFolderMap (loadedFolders st u lastSyncTime) []) fuel f.id =
          some x.path) (loadedFolders st u lastSyncTime) folders ∧
      List.Forall₂ (fun b x => x.id = b.id ∧ x.title = b.title ∧ x.url = b.url ∧
        buildFolderPath (exportFolderMap (loadedFolders st u lastSyncTime) []) fuel b.folderId =
          some x.folderPath) (loadedBookmarks st u lastSyncTime) bookmarks := by
  obtain ⟨k, rfl⟩ : ∃ k, fuel = k + 1 := ⟨fuel - 1, by omega⟩
  have hterm : ∀ id, buildFolderPath (exportFolderMap (loadedFolders st u lastSyncTime) [])
      (k + 1) id ≠ none := fun id =>
    buildFolderPath_terminates _ hac (k + 1) id [] List.nodup_nil (by simp) (by simp)
      (by simpa using hfuel)
  obtain ⟨folders, hfo, hfrel⟩ := exportFolders_spec
    (exportFolderMap (loadedFolders st u lastSyncTime) []) (k + 1)
    (loadedFolders st u lastSyncTime) (fun f _ => hterm f.id)
  obtain ⟨bookmarks, hbo, hbrel⟩ := exportBookmarks_spec
    (exportFolderMap (loadedFolders st u lastSyncTime) []) k
    (loadedBookmarks st u lastSyncTime) (fun b _ => hterm b.folderId)
  refine ⟨folders, bookmarks, ?_, hfrel, hbrel⟩
  have h1 := hfrel.length_eq
  have h2 := hbrel.length_eq
  unfold syncExportDataHandler
  simp only [hfb, hff, if_true]
  show (match exportFolders (exportFolderMap (loadedFolders st u lastSyncTime) []) (k + 1)
      (loadedFolders st u lastSyncTime) with
    | none => none
    | some folders =>
      match exportBookmarks (exportFolderMap (loadedFolders st u lastSyncTime) []) (k + 1)
          (loadedBookmarks st u lastSyncTime) with
      | none => none
      | some bookmarks =>
        some (SyncExportResult.ok folders bookmarks
          { totalFolders := folders.length, totalBookmarks := bookmarks.length,
            exportTime := exportTime, isIncremental := decide (lastSyncTime ≠ "") })) = _
  rw [hfo, hbo]
  simp only [h1, h2]

theorem loadedFolders_full (st : Store) (u : String) : loadedFolders st u "" = userFolders st u := by
  unfold loadedFolders userFolders exportFilter
  simp

theorem loadedBookmarks_full (st : Store) (u : String) :
    loadedBookmarks st u "" = userBookmarks st u := by
  unfold loadedBookmarks userBookmarks exportFilter
  simp

theorem eq_of_id_eq (fs : List Folder) (hnd : (fs.map (fun f => f.id)).Nodup) (a b : Folder)
    (ha : a ∈ fs) (hb : b ∈ fs) (h : a.id = b.id) : a = b :=
  List.inj_on_of_nodup_map hnd ha hb h

theorem PathBelow.suffix_of_full (fs all : List Folder) (hsub : ∀ g ∈ fs, g ∈ all)
    (hnd : (all.map (fun f => f.id)).Nodup) (hne : ∀ g ∈ fs, g.id ≠ "")
    {top : String} {f : Folder} {path : List String} (h : PathBelow fs top f path) :
    ∀ full, PathBelow all "" f full → path <:+ full := by
  induction h with
  | start f hf hp =>
    intro full hfull
    cases hfull with
    | start _ _ _ => exact List.suffix_refl _
    | next p' _ full0 _ _ _ => exact List.suffix_append _ _
  | next p f path hpath hf hp ih =>
    intro full hfull
    cases hfull with
    | start _ _ hp' => exact absurd (hp.symm.trans hp') (hne p hpath.mem)
    | next p' _ full0 hpath' _ hp' =>
      have hpp : p' = p :=
        eq_of_id_eq all hnd p' p hpath'.mem (hsub p hpath.mem) (hp'.symm.trans hp)
      subst hpp
      obtain ⟨t, ht⟩ := ih full0 hpath'
      exact ⟨t, by rw [← ht, List.append_assoc]⟩

theorem Acyclic.mono {r r' : String → String → Prop} (h : ∀ a b, r a b → r' a b)
    (hac : Acyclic r') : Acyclic r :=
  fun x hx => hac x (Relation.TransGen.mono h hx)

theorem syncExportDataHandler_paths (env : Env) (u lastSyncTime exportTime : String)
    (st : Store) (fuel : Nat)
    (hfb : env.fetchOk "bookmarks" = true) (hff : env.fetchOk "folders" = true)
    (hids : ((loadedFolders st u lastSyncTime).map (fun f => f.id)).Nodup)
    (hne : ∀ f ∈ loadedFolders st u lastSyncTime, f.id ≠ "")
    (hac : Acyclic (FolderEdge (loadedFolders st u lastSyncTime)))
    (hfuel : (loadedFolders st u lastSyncTime).length < fuel) :
    ∃ folders bookmarks,
      syncExportDataHandler env (some u) lastSyncTime exportTime fuel st =
        some (.ok folders bookmarks
          { totalFolders := (loadedFolders st u lastSyncTime).length,
            totalBookmarks := (loadedBookmarks st u lastSyncTime).length,
            exportTime := exportTime, isIncremental := decide (lastSyncTime ≠ "") }) ∧
      List.Forall₂ (fun f x => x.id = f.id ∧ x.name = f.name ∧
        ∃ top, top ∉ (loadedFolders st u lastSyncTime).map (fun f => f.id) ∧
          PathBelow (loadedFolders st u lastSyncTime) top f x.path)
        (loadedFolders st u lastSyncTime) folders ∧
      List.Forall₂ (fun b x => x.id = b.id ∧ x.title = b.title ∧ x.url = b.url ∧
        (b.folderId ∉ (loadedFolders st u lastSyncTime).map (fun f => f.id) →
          x.folderPath = []) ∧
        (∀ f ∈ loadedFolders st u lastSyncTime, f.id = b.folderId →
          (∃ top, top ∉ (loadedFolders st u lastSyncTime).map (fun f => f.id) ∧
            PathBelow (loadedFolders st u lastSyncTime) top f x.folderPath) ∧
          ∀ xf ∈ folders, xf.id = f.id → xf.path = x.folderPath))
        (loadedBookmarks st u lastSyncTime) bookmarks := by
  obtain ⟨folders, bookmarks, hres, hfrel, hbrel⟩ :=
    syncExportDataHandler_ok env u lastSyncTime exportTime st fuel hfb hff hac hfuel
  have hempty : "" ∉ (loadedFolders st u lastSyncTime).map (fun f => f.id) := by
    intro h
    obtain ⟨g, hg, hgid⟩ := List.mem_map.1 h
    exact hne g hg hgid
  have hpath : ∀ f ∈ loadedFolders st u lastSyncTime, ∀ path,
      buildFolderPath (exportFolderMap (loadedFolders st u lastSyncTime) []) fuel f.id =
        some path →
      ∃ top, top ∉ (loadedFolders st u lastSyncTime).map (fun f => f.id) ∧
        PathBelow (loadedFolders st u lastSyncTime) top f path := by
    intro f hf path hp
    obtain ⟨f', top, hf', hid', hpb, htop⟩ := buildFolderPath_sound _ fuel f.id path hp
      (List.mem_map.2 ⟨f, hf, rfl⟩) (hne f hf)
    have hff' : f' = f := eq_of_id_eq _ hids f' f hf' hf hid'
    subst hff'
    refine ⟨top, ?_, hpb⟩
    rcases htop with h | h
    · rw [h]; exact hempty
    · exact h
  refine ⟨folders, bookmarks, hres, ?_, ?_⟩
  · exact forall₂_imp_mem hfrel (fun f hf x _ h => ⟨h.1, h.2.1, hpath f hf x.path h.2.2⟩)
  · refine forall₂_imp_mem hbrel (fun b _ x _ h => ⟨h.1, h.2.1, h.2.2.1, ?_, ?_⟩)
    · intro hmiss
      obtain ⟨k, rfl⟩ : ∃ k, fuel = k + 1 := ⟨fuel - 1, by omega⟩
      have h3 := h.2.2.2
      rw [buildFolderPath_missing _ _ k hmiss] at h3
      exact (Option.some.inj h3).symm
    · intro f hf hfid
      have h3 := h.2.2.2
      rw [← hfid] at h3
      refine ⟨hpath f hf x.folderPath h3, ?_⟩
      intro xf hxf hxfid
      obtain ⟨f', _, hr⟩ := forall₂_mem_right hfrel xf hxf
      have h4 := hr.2.2
      rw [← hr.1, hxfid, h3] at h4
      exact (Option.some.inj h4).symm

/-! ## Claims on the snapshot exporter -/

/-- C14: in a full export (no `lastSyncTime`, the two listings succeeding)
over folders of the user with distinct non-empty ids whose parent relation is
acyclic and has no dangling parent, the export returns, and the path of every
exported folder lists the names on its parent chain from a root folder down to
and including the folder itself; the folder path of every bookmark is empty
when the bookmark has no folder and is otherwise the path of its containing
folder, equal to the path exported for that folder. -/
theorem full_export_materialized_paths (env : Env) (u exportTime : String) (st : Store)
    (fuel : Nat)
    (hfb : env.fetchOk "bookmarks" = true) (hff : env.fetchOk "folders" = true)
    (hids : ((userFolders st u).map (fun f => f.id)).Nodup)
    (hne : ∀ f ∈ userFolders st u, f.id ≠ "")
    (hac : Acyclic (FolderEdge (userFolders st u)))
    (hdang : ∀ f ∈ userFolders st u, f.parentId ≠ "" →
      f.parentId ∈ (userFolders st u).map (fun f => f.id))
    (hfuel : (userFolders st u).length < fuel) :
    ∃ folders bookmarks,
      syncExportDataHandler env (some u) "" exportTime fuel st =
        some (.ok folders bookmarks
          { totalFolders := (userFolders st u).length,
            totalBookmarks := (userBookmarks st u).length,
            exportTime := exportTime, isIncremental := false }) ∧
      List.Forall₂ (fun f x => x.id = f.id ∧ x.name = f.name ∧
        PathBelow (userFolders st u) "" f x.path) (userFolders st u) folders ∧
      List.Forall₂ (fun b x => x.id = b.id ∧ x.title = b.title ∧ x.url = b.url ∧
        (b.folderId = "" → x.folderPath = []) ∧
        (∀ f ∈ userFolders st u, f.id = b.folderId →
          PathBelow (userFolders st u) "" f x.folderPath ∧
          ∀ xf ∈ folders, xf.id = f.id → xf.path = x.folderPath))
        (userBookmarks st u) bookmarks := by
  rw [← loadedFolders_full] at hids hne hac hdang hfuel
  obtain ⟨folders, bookmarks, hres, hfrel, hbrel⟩ :=
    syncExportDataHandler_paths env u "" exportTime st fuel hfb hff hids hne hac hfuel
  have htop : ∀ top f path, top ∉ (loadedFolders st u "").map (fun f => f.id) →
      PathBelow (loadedFolders st u "") top f path → top = "" := by
    intro top f path hmiss hpb
    obtain ⟨g, hg, hgp⟩ := hpb.top_parent
    by_contra hcon
    exact hmiss (hgp ▸ hdang g hg (hgp ▸ hcon))
  have hdec : decide (("" : String) ≠ "") = false := by decide
  simp only [loadedFolders_full, loadedBookmarks_full, hdec] at hres hfrel hbrel htop hne
  refine ⟨folders, bookmarks, hres, ?_, ?_⟩
  · refine forall₂_imp_mem hfrel (fun f _ x _ h => ⟨h.1, h.2.1, ?_⟩)
    obtain ⟨top, hmiss, hpb⟩ := h.2.2
    have := htop top f x.path hmiss hpb
    subst this
    exact hpb
  · refine forall₂_imp_mem hbrel (fun b _ x _ h => ⟨h.1, h.2.1, h.2.2.1, ?_, ?_⟩)
    · intro hb
      apply h.2.2.2.1
      rw [hb]
      intro hin
      obtain ⟨g, hg, hgid⟩ := List.mem_map.1 hin
      exact hne g hg hgid
    · intro f hf hfid
      obtain ⟨⟨top, hmiss, hpb⟩, heq⟩ := h.2.2.2.2 f hf hfid
      have := htop top f x.folderPath hmiss hpb
      subst this
      exact ⟨hpb, heq⟩

theorem FolderEdge_filter (p : Folder → Bool) (fs : List Folder) (a b : String)
    (h : FolderEdge (fs.filter p) a b) : FolderEdge fs a b := by
  obtain ⟨f, hf, h1⟩ := h
  exact ⟨f, List.mem_of_mem_filter hf, h1⟩

/-- The full export of `storeToClear` for `u1`: `Work` at the root with
`Reports` below it, and three bookmarks. -/
theorem full_export_materialized_paths_witness :
    exportedPaths (syncExportDataHandler okEnv (some "u1") "" "now" 3 storeToClear) =
      some ([("f1", ["Work"]), ("f2", ["Work", "Reports"])],
        [("b1", ["Work"]), ("b2", []), ("b3", ["Work", "Reports"])]) ∧
    ∃ folders bookmarks,
      syncExportDataHandler okEnv (some "u1") "" "now" 3 storeToClear =
        some (.ok folders bookmarks
          { totalFolders := (userFolders storeToClear "u1").length,
            totalBookmarks := (userBookmarks storeToClear "u1").length,
            exportTime := "now", isIncremental := false }) ∧
      List.Forall₂ (fun f x => x.id = f.id ∧ x.name = f.name ∧
        PathBelow (userFolders storeToClear "u1") "" f x.path)
        (userFolders storeToClear "u1") folders ∧
      List.Forall₂ (fun b x => x.id = b.id ∧ x.title = b.title ∧ x.url = b.url ∧
        (b.folderId = "" → x.folderPath = []) ∧
        (∀ f ∈ userFolders storeToClear "u1", f.id = b.folderId →
          PathBelow (userFolders storeToClear "u1") "" f x.folderPath ∧
          ∀ xf ∈ folders, xf.id = f.id → xf.path = x.folderPath))
        (userBookmarks storeToClear "u1") bookmarks :=
  ⟨by decide,
   full_export_materialized_paths okEnv "u1" "now" storeToClear 3 rfl rfl (by decide)
    (by decide) (Acyclic.mono (FolderEdge_filter _ _) storeToClear_acyclic) (by decide)
    (by decide)⟩

/-- C15 fails on the code: in `storeDated` the folder `Work` was not updated
after the `lastSyncTime` of the request while `Reports` below it and the
bookmarks `b1` (in `Work`) and `b3` (in `Reports`) were.  The incremental
export gives `Reports` the path `Reports`, `b1` the empty folder path and `b3`
the folder path `Reports`; the full export of the same store gives
`Work, Reports`, `Work` and `Work, Reports`. -/
theorem incremental_export_drops_unmodified_ancestors :
    exportedPaths (syncExportDataHandler okEnv (some "u1") "2024-02-01 00:00:00.000Z" "now" 3
      storeDated) =
      some ([("f2", ["Reports"])], [("b1", []), ("b3", ["Reports"])]) ∧
    exportedPaths (syncExportDataHandler okEnv (some "u1") "" "now" 3 storeDated) =
      some ([("f1", ["Work"]), ("f2", ["Work", "Reports"])],
        [("b1", ["Work"]), ("b2", ["Work"]), ("b3", ["Work", "Reports"])]) := by
  decide

/-- C16: when the walk up the parents of a loaded folder reaches a parent id
`top` that is not among the loaded folders (distinct non-empty ids, acyclic
parent relation, the two listings succeeding), the export returns and the path
of the folder is the list of names from the folder directly below `top` down
to the folder itself; it is a suffix of the complete path that the folder has
in any larger set of folders.  A bookmark whose folder is not among the loaded
folders gets the empty folder path, and a bookmark in a loaded folder gets the
truncated path of that folder. -/
theorem export_truncates_path_at_missing_parent (env : Env)
    (u lastSyncTime exportTime : String) (st : Store) (fuel : Nat)
    (hfb : env.fetchOk "bookmarks" = true) (hff : env.fetchOk "folders" = true)
    (hids : ((loadedFolders st u lastSyncTime).map (fun f => f.id)).Nodup)
    (hne : ∀ f ∈ loadedFolders st u lastSyncTime, f.id ≠ "")
    (hac : Acyclic (FolderEdge (loadedFolders st u lastSyncTime)))
    (hfuel : (loadedFolders st u lastSyncTime).length < fuel) :
    ∃ folders bookmarks syncMetadata,
      syncExportDataHandler env (some u) lastSyncTime exportTime fuel st =
        some (.ok folders bookmarks syncMetadata) ∧
      List.Forall₂ (fun f x => x.id = f.id ∧
        ∀ top path, top ∉ (loadedFolders st u lastSyncTime).map (fun f => f.id) →
          PathBelow (loadedFolders st u lastSyncTime) top f path →
          x.path = path ∧
          ∀ all full, (∀ g ∈ loadedFolders st u lastSyncTime, g ∈ all) →
            (all.map (fun f => f.id)).Nodup → PathBelow all "" f full → x.path <:+ full)
        (loadedFolders st u lastSyncTime) folders ∧
      List.Forall₂ (fun b x => x.id = b.id ∧
        (b.folderId ∉ (loadedFolders st u lastSyncTime).map (fun f => f.id) →
          x.folderPath = []) ∧
        ∀ f ∈ loadedFolders st u lastSyncTime, f.id = b.folderId →
          ∀ top path, top ∉ (loadedFolders st u lastSyncTime).map (fun f => f.id) →
            PathBelow (loadedFolders st u lastSyncTime) top f path → x.folderPath = path)
        (loadedBookmarks st u lastSyncTime) bookmarks := by
  obtain ⟨folders, bookmarks, hres, hfrel, hbrel⟩ :=
    syncExportDataHandler_ok env u lastSyncTime exportTime st fuel hfb hff hac hfuel
  have huniq : ∀ (f : Folder) (p : List String),
      buildFolderPath (exportFolderMap (loadedFolders st u lastSyncTime) []) fuel f.id =
        some p →
      ∀ top path, top ∉ (loadedFolders st u lastSyncTime).map (fun f => f.id) →
        PathBelow (loadedFolders st u lastSyncTime) top f path → p = path := by
    intro f p hp top path htop hpb
    have h1 := buildFolderPath_mono _ fuel f.id p hp (max fuel (path.length + 1))
      (le_max_left _ _)
    have h2 := buildFolderPath_of_path _ top hids hne htop f path hpb
      (max fuel (path.length + 1)) (by
        have := le_max_right fuel (path.length + 1)
        omega)
    rw [h1] at h2
    exact Option.some.inj h2
  refine ⟨folders, bookmarks, _, hres, ?_, ?_⟩
  · refine forall₂_imp_mem hfrel (fun f _ x _ h => ⟨h.1, ?_⟩)
    intro top path htop hpb
    have hxp := huniq f x.path h.2.2 top path htop hpb
    refine ⟨hxp, ?_⟩
    intro all full hsub hnd hfull
    rw [hxp]
    exact PathBelow.suffix_of_full _ all hsub hnd hne hpb full hfull
  · refine forall₂_imp_mem hbrel (fun b _ x _ h => ⟨h.1, ?_, ?_⟩)
    · intro hmiss
      obtain ⟨k, rfl⟩ : ∃ k, fuel = k + 1 := ⟨fuel - 1, by omega⟩
      have h3 := h.2.2.2
      rw [buildFolderPath_missing _ _ k hmiss] at h3
      exact (Option.some.inj h3).symm
    · intro f _ hfid top path htop hpb
      have h3 := h.2.2.2
      rw [← hfid] at h3
      exact huniq f x.folderPath h3 top path htop hpb

theorem storeDated_loaded :
    loadedFolders storeDated "u1" "2024-02-01 00:00:00.000Z" =
      [{ id := "f2", userId := "u1", name := "Reports", parentId := "f1",
         createdAt := "2024-01-01 00:00:00.000Z", updatedAt := "2024-03-01 00:00:00.000Z" }] := by
  decide

theorem storeDated_loaded_acyclic :
    Acyclic (FolderEdge (loadedFolders storeDated "u1" "2024-02-01 00:00:00.000Z")) := by
  rw [storeDated_loaded]
  apply acyclic_of_rank _ (fun s => if s = "f2" then 1 else 0)
  rintro a b ⟨f, hf, ha, hb, hne⟩
  simp only [List.mem_singleton] at hf
  subst hf; subst ha; subst hb
  decide

/-- The incremental export of `storeDated`: of the folders of `u1` only
`Reports` is loaded, its parent `f1` is not. -/
theorem export_truncates_path_at_missing_parent_witness :
    exportedPaths (syncExportDataHandler okEnv (some "u1") "2024-02-01 00:00:00.000Z" "now" 2
      storeDated) = some ([("f2", ["Reports"])], [("b1", []), ("b3", ["Reports"])]) ∧
    ∃ folders bookmarks syncMetadata,
      syncExportDataHandler okEnv (some "u1") "2024-02-01 00:00:00.000Z" "now" 2 storeDated =
        some (.ok folders bookmarks syncMetadata) ∧
      List.Forall₂ (fun f x => x.id = f.id ∧
        ∀ top path,
          top ∉ (loadedFolders storeDated "u1" "2024-02-01 00:00:00.000Z").map (fun f => f.id) →
          PathBelow (loadedFolders storeDated "u1" "2024-02-01 00:00:00.000Z") top f path →
          x.path = path ∧
          ∀ all full,
            (∀ g ∈ loadedFolders storeDated "u1" "2024-02-01 00:00:00.000Z", g ∈ all) →
            (all.map (fun f => f.id)).Nodup → PathBelow all "" f full → x.path <:+ full)
        (loadedFolders storeDated "u1" "2024-02-01 00:00:00.000Z") folders ∧
      List.Forall₂ (fun b x => x.id = b.id ∧
        (b.folderId ∉
            (loadedFolders storeDated "u1" "2024-02-01 00:00:00.000Z").map (fun f => f.id) →
          x.folderPath = []) ∧
        ∀ f ∈ loadedFolders storeDated "u1" "2024-02-01 00:00:00.000Z", f.id = b.folderId →
          ∀ top path,
            top ∉ (loadedFolders storeDated "u1" "2024-02-01 00:00:00.000Z").map
              (fun f => f.id) →
            PathBelow (loadedFolders storeDated "u1" "2024-02-01 00:00:00.000Z") top f path →
            x.folderPath = path)
        (loadedBookmarks storeDated "u1" "2024-02-01 00:00:00.000Z") bookmarks :=
  ⟨by decide,
   export_truncates_path_at_missing_parent okEnv "u1" "2024-02-01 00:00:00.000Z" "now"
    storeDated 2 rfl rfl (by decide) (by decide) storeDated_loaded_acyclic (by decide)⟩

/-! ## Lemmas on the whole restore -/

theorem saveFolder_frame (env : Env) (st : Store) (r : Folder) (st' : Store)
    (h : saveFolder env st r = some st') :
    st'.bookmarks = st.bookmarks ∧ st'.settings = st.settings := by
  unfold saveFolder at h
  split_ifs at h
  cases h
  exact ⟨rfl, rfl⟩

theorem createFolder_frame (env : Env) (st : Store) (r saved : Folder) (st' : Store)
    (h : createFolder env st r = some (saved, st')) :
    st'.bookmarks = st.bookmarks ∧ st'.settings = st.settings := by
  unfold createFolder at h
  split_ifs at h
  cases h
  exact ⟨rfl, rfl⟩

theorem webdavRestorePass1_frame (env : Env) (u : String) :
    ∀ (rest : List FolderBackup) (m : GoMap String) (st : Store),
    (webdavRestorePass1 env u rest m st).2.bookmarks = st.bookmarks ∧
    (webdavRestorePass1 env u rest m st).2.settings = st.settings := by
  intro rest
  induction rest with
  | nil => intro m st; exact ⟨rfl, rfl⟩
  | cons e rest ih =>
    intro m st
    unfold webdavRestorePass1
    have hfind : findFolderByName st u e.Name = none := findFolderByName_none _ _ _
    dsimp only
    split_ifs with hc
    · cases hs : createFolder env st
          (setBackupTimestamps (newFolderRecord u e.Name) e) with
      | none => exact ih m st
      | some val =>
        obtain ⟨saved, st'⟩ := val
        have hfr := createFolder_frame env st _ saved st' hs
        dsimp only
        rw [← hfr.1, ← hfr.2]
        exact ih _ st'
    · exact ih m st

theorem webdavRestorePass2_frame (env : Env) :
    ∀ (rest : List FolderBackup) (m : GoMap String) (st : Store),
    (webdavRestorePass2 env rest m st).bookmarks = st.bookmarks ∧
    (webdavRestorePass2 env rest m st).settings = st.settings := by
  intro rest
  induction rest with
  | nil => intro m st; exact ⟨rfl, rfl⟩
  | cons e rest ih =>
    intro m st
    unfold webdavRestorePass2
    split_ifs with hp
    · cases h1 : m.get e.OriginalID with
      | none => exact ih m st
      | some newFolderId =>
        cases h2 : m.get e.ParentID with
        | none => exact ih m st
        | some newParentId =>
          dsimp only
          cases h3 : findFolderById st newFolderId with
          | none => exact ih m st
          | some folderRecord =>
            dsimp only
            cases hs : saveFolder env st { folderRecord with parentId := newParentId } with
            | none => exact ih m st
            | some st' =>
              have hfr := saveFolder_frame env st _ st' hs
              dsimp only
              rw [← hfr.1, ← hfr.2]
              exact ih _ st'
    · exact ih m st

theorem webdavRestoreFolders_frame (env : Env) (u : String) (folders : List FolderBackup)
    (st : Store) :
    (webdavRestoreFolders env u folders st).2.bookmarks = st.bookmarks ∧
    (webdavRestoreFolders env u folders st).2.settings = st.settings := by
  unfold webdavRestoreFolders
  have h1 := webdavRestorePass1_frame env u folders [] st
  have h2 := webdavRestorePass2_frame env folders (webdavRestorePass1 env u folders [] st).1
    (webdavRestorePass1 env u folders [] st).2
  exact ⟨h2.1.trans h1.1, h2.2.trans h1.2⟩

theorem webdavRestoreBookmark_cases (env : Env) (u : String) (m : GoMap String)
    (e : BookmarkBackup) (st : Store) (hcoll : env.hasCollection "bookmarks" = true) :
    (webdavRestoreBookmark env u m e st).1.folders = st.folders ∧
    (webdavRestoreBookmark env u m e st).1.settings = (restoreVocabulary env u e st).settings ∧
    ∀ x ∈ (webdavRestoreBookmark env u m e st).1.bookmarks,
      x ∈ st.bookmarks ∨ x.tags = e.Tags ∨ ∃ b ∈ st.bookmarks, b.userId = u ∧ x.tags = b.tags := by
  have hfind : findBookmarkByUrl st u e.URL = none := findBookmarkByUrl_none _ _ _
  have htags := (createdBookmarkRecord_fields u m e).2.2.2.2
  unfold webdavRestoreBookmark
  rw [restoreBookmarkRecord_new env u e st hcoll]
  simp only [restoreBookmarkTags_fst, restoreBookmarkTags_snd, if_true]
  unfold createBookmark
  by_cases hs : env.saveBookmarkOk (setBookmarkTimestamps
      (retagBookmark e (restoreBookmarkFolder m e (newBookmarkRecord u e))) e) = true
  · rw [if_pos hs]
    refine ⟨restoreVocabulary_folders env u e st, rfl, ?_⟩
    intro x hx
    simp only [restoreVocabulary_bookmarks, List.mem_append, List.mem_singleton] at hx
    rcases hx with hx | hx
    · exact Or.inl hx
    · right; left
      rw [hx]
      exact htags
  · rw [if_neg hs]
    refine ⟨restoreVocabulary_folders env u e st, rfl, ?_⟩
    intro x hx
    left
    rw [restoreVocabulary_bookmarks] at hx
    exact hx

theorem findUserSettings_congr (st st' : Store) (u : String) (h : st'.settings = st.settings) :
    findUserSettings st' u = findUserSettings st u := by
  unfold findUserSettings
  rw [h]

theorem folder_ids_of_keys (l : List Folder) :
    l.map (fun f => f.id) = (l.map folderKey).map (fun k => k.1) := by
  rw [List.map_map]; rfl

theorem userFolders_length_of_keys (st st' : Store) (u : String)
    (h : st'.folders.map folderKey = st.folders.map folderKey) :
    (userFolders st' u).length = (userFolders st u).length := by
  have key : ∀ l : List Folder, (l.filter (fun f => f.userId = u)).length =
      ((l.map folderKey).filter (fun k => k.2.1 = u)).length := by
    intro l
    rw [List.filter_map, List.length_map]
    rfl
  unfold userFolders
  rw [key, key, h]

theorem webdavRestorePass2_keys (env : Env) (hsave : ∀ f, env.saveFolderOk f = true)
    (m : GoMap String) (es : List FolderBackup) (st : Store)
    (hnd : (st.folders.map (fun f => f.id)).Nodup) :
    (webdavRestorePass2 env es m st).folders.map folderKey = st.folders.map folderKey := by
  rw [webdavRestorePass2_eq env hsave m es st hnd]
  show (st.folders.map _).map folderKey = _
  rw [List.map_map]
  apply List.map_congr_left
  intro x _
  obtain ⟨h1, h2, h3⟩ := foldl_relinkFolder_id m es x
  simp [folderKey, h1, h2, h3]

theorem webdavRestoreBookmarks_cons (env : Env) (u : String) (m : GoMap String)
    (e : BookmarkBackup) (rest : List BookmarkBackup) (st : Store) (n : Nat) :
    webdavRestoreBookmarks env u m (e :: rest) st n =
      webdavRestoreBookmarks env u m rest (webdavRestoreBookmark env u m e st).1
        (if (webdavRestoreBookmark env u m e st).2 then n + 1 else n) := rfl

theorem webdavRestoreSettings_frame (env : Env) (u : String)
    (settings : UserSettingsBackupData) (st : Store) :
    (webdavRestoreSettings env u settings st).1.folders = st.folders ∧
    (webdavRestoreSettings env u settings st).1.bookmarks = st.bookmarks := by
  by_cases hc : (settings.TagList.isSome || settings.AccentColor ≠ "" ||
      settings.DefaultView ≠ "" || settings.Language ≠ "") = true
  · unfold webdavRestoreSettings
    rw [if_pos hc]
    cases findUserSettings st u with
    | none => exact ⟨rfl, rfl⟩
    | some r =>
      show (match saveSettings env st (restoredSettingsRecord settings r) with
        | some st' => (st', [restoredSettingsRecord settings r])
        | none => (st, [restoredSettingsRecord settings r])).1.folders = st.folders ∧
        (match saveSettings env st (restoredSettingsRecord settings r) with
        | some st' => (st', [restoredSettingsRecord settings r])
        | none => (st, [restoredSettingsRecord settings r])).1.bookmarks = st.bookmarks
      unfold saveSettings
      split_ifs <;> exact ⟨rfl, rfl⟩
  · rw [(webdavRestoreSettings_absent env u settings st hc).1]
    exact ⟨rfl, rfl⟩

theorem webdavRestoreBackupData_fst (env : Env) (u downloadedFileName : String)
    (backupData : WebDAVBackupData) (st : Store) :
    (webdavRestoreBackupData env u downloadedFileName backupData st).1 =
      (webdavRestoreSettings env u backupData.UserSettings
        (webdavRestoreBookmarks env u (webdavRestoreFolders env u backupData.Folders st).1
          backupData.Bookmarks (webdavRestoreFolders env u backupData.Folders st).2 0).1).1 :=
  rfl

theorem webdavRestoreBackupData_count (env : Env) (u downloadedFileName : String)
    (backupData : WebDAVBackupData) (st : Store) :
    (webdavRestoreBackupData env u downloadedFileName backupData st).2.restored_bookmarks =
      (webdavRestoreBookmarks env u (webdavRestoreFolders env u backupData.Folders st).1
        backupData.Bookmarks (webdavRestoreFolders env u backupData.Folders st).2 0).2 :=
  rfl

theorem webdavRestoreFolders_snd (env : Env) (u : String) (folders : List FolderBackup)
    (st : Store) :
    (webdavRestoreFolders env u folders st).2 =
      webdavRestorePass2 env folders (webdavRestorePass1 env u folders [] st).1
        (webdavRestorePass1 env u folders [] st).2 := rfl

theorem restoreEnv_fresh_folders (s : Store) :
    restoreEnv.newId s ∉ s.folders.map (fun f => f.id) := by
  intro h
  obtain ⟨f, hf, hid⟩ := List.mem_map.1 h
  have hlen : f.id.length = 1 + (s.folders.map (fun f => f.id.length)).sum +
      (s.bookmarks.map (fun b => b.id.length)).sum := by
    rw [hid]
    show (List.replicate (1 + (s.folders.map (fun f => f.id.length)).sum +
      (s.bookmarks.map (fun b => b.id.length)).sum) 'x').length = _
    exact List.length_replicate _ _
  have hle : f.id.length ≤ (s.folders.map (fun f => f.id.length)).sum :=
    nat_le_sum_of_mem _ _ (List.mem_map.2 ⟨f, hf, rfl⟩)
  omega

/-! ## Lemmas on the records a restore creates -/

/-- One step of pass 1, collection lookup and save succeeding: a new folder
with the name of the entry is appended, and the entry is mapped to it. -/
theorem webdavRestorePass1_cons (env : Env) (u : String)
    (hcoll : env.hasCollection "folders" = true)
    (hsave : ∀ f, env.saveFolderOk f = true)
    (e : FolderBackup) (rest : List FolderBackup) (m : GoMap String) (st : Store) :
    webdavRestorePass1 env u (e :: rest) m st =
      webdavRestorePass1 env u rest (m.set e.OriginalID (env.newId st))
        { st with folders := st.folders ++
            [{ setBackupTimestamps (newFolderRecord u e.Name) e with id := env.newId st }] } := by
  simp only [webdavRestorePass1, findFolderByName_none, hcoll, if_true, createFolder, hsave]

/-- Pass 1, collection lookup and saves succeeding, appends one new folder of
the user for every entry, in the order of the entries, and keeps ids unique
when the store assigns new ids. -/
theorem webdavRestorePass1_creates (env : Env) (u : String)
    (hcoll : env.hasCollection "folders" = true)
    (hsave : ∀ f, env.saveFolderOk f = true) :
    ∀ (rest : List FolderBackup) (m : GoMap String) (st : Store),
    ∃ news : List Folder,
      (webdavRestorePass1 env u rest m st).2.folders = st.folders ++ news ∧
      List.Forall₂ (fun e f => f.userId = u ∧ f.name = e.Name) rest news ∧
      ((∀ s, env.newId s ∉ s.folders.map (fun f => f.id)) →
        (st.folders.map (fun f => f.id)).Nodup →
        ((webdavRestorePass1 env u rest m st).2.folders.map (fun f => f.id)).Nodup) := by
  intro rest
  induction rest with
  | nil =>
    intro m st
    exact ⟨[], by simp [webdavRestorePass1], List.Forall₂.nil, fun _ h => h⟩
  | cons e rest ih =>
    intro m st
    rw [webdavRestorePass1_cons env u hcoll hsave]
    obtain ⟨news, hfolders, hall, hnd⟩ := ih (m.set e.OriginalID (env.newId st))
      { st with folders := st.folders ++
          [{ setBackupTimestamps (newFolderRecord u e.Name) e with id := env.newId st }] }
    refine ⟨{ setBackupTimestamps (newFolderRecord u e.Name) e with id := env.newId st } :: news,
      ?_, List.Forall₂.cons ⟨?_, ?_⟩ hall, ?_⟩
    · rw [hfolders]
      simp
    · show (setBackupTimestamps _ e).userId = u
      rw [setBackupTimestamps_userId]; rfl
    · show (setBackupTimestamps _ e).name = e.Name
      rw [setBackupTimestamps_name]; rfl
    · intro hfresh hst
      apply hnd hfresh
      show (List.map _ (st.folders ++ _)).Nodup
      rw [List.map_append, List.nodup_append]
      refine ⟨hst, by simp, ?_⟩
      intro a ha hb
      simp only [List.map_cons, List.map_nil, List.mem_singleton] at hb
      exact hfresh st (hb ▸ ha)

theorem forall₂_length_filter {α β : Type} (R : α → β → Prop) (p : β → Bool) :
    ∀ (l : List α) (out : List β), List.Forall₂ R l out → (∀ a b, R a b → p b = true) →
    (out.filter p).length = l.length := by
  intro l out h hp
  induction h with
  | nil => rfl
  | cons hab _ ih =>
    rw [List.filter_cons_of_pos (hp _ _ hab), List.length_cons, List.length_cons, ih]

/-- The two folder passes, collection lookup and saves succeeding over a store
with unique folder ids and new assigned ids: the user has one more folder for
every folder entry, and folder ids stay unique. -/
theorem webdavRestoreFolders_adds (env : Env) (u : String) (entries : List FolderBackup)
    (st : Store)
    (hcoll : env.hasCollection "folders" = true)
    (hsave : ∀ f, env.saveFolderOk f = true)
    (hstore : (st.folders.map (fun f => f.id)).Nodup)
    (hfresh : ∀ s, env.newId s ∉ s.folders.map (fun f => f.id)) :
    ((webdavRestoreFolders env u entries st).2.folders.map (fun f => f.id)).Nodup ∧
    (userFolders (webdavRestoreFolders env u entries st).2 u).length =
      (userFolders st u).length + entries.length := by
  obtain ⟨news, hfolders, hall, hnd⟩ := webdavRestorePass1_creates env u hcoll hsave entries [] st
  have hnd1 := hnd hfresh hstore
  have hkeys := webdavRestorePass2_keys env hsave (webdavRestorePass1 env u entries [] st).1
    entries (webdavRestorePass1 env u entries [] st).2 hnd1
  rw [webdavRestoreFolders_snd]
  constructor
  · rw [folder_ids_of_keys, hkeys, ← folder_ids_of_keys]
    exact hnd1
  · rw [userFolders_length_of_keys _ _ u hkeys]
    unfold userFolders
    rw [hfolders, List.filter_append, List.length_append,
      forall₂_length_filter _ _ entries news hall (fun a b h => by simp [h.1])]

/-- The bookmark loop, collection lookup and saves succeeding: one new bookmark
is appended for every entry, in the order of the entries, every entry counts
as restored, and neither a bookmark nor a folder of the store is touched. -/
theorem webdavRestoreBookmarks_creates (env : Env) (u : String) (m : GoMap String)
    (hcoll : env.hasCollection "bookmarks" = true)
    (hsave : ∀ r, env.saveBookmarkOk r = true) :
    ∀ (entries : List BookmarkBackup) (st : Store) (n : Nat),
    (webdavRestoreBookmarks env u m entries st n).1.folders = st.folders ∧
    (webdavRestoreBookmarks env u m entries st n).2 = n + entries.length ∧
    ∃ created : List Bookmark,
      (webdavRestoreBookmarks env u m entries st n).1.bookmarks = st.bookmarks ++ created ∧
      List.Forall₂ (fun e x => ∃ i, x = { createdBookmarkRecord u m e with id := i })
        entries created := by
  intro entries
  induction entries with
  | nil =>
    intro st n
    exact ⟨rfl, rfl, [], by simp [webdavRestoreBookmarks], List.Forall₂.nil⟩
  | cons e rest ih =>
    intro st n
    rw [webdavRestoreBookmarks_cons, webdavRestoreBookmark_creates env u m e st hcoll hsave]
    obtain ⟨hf, hn, created, hb, hall⟩ := ih
      { restoreVocabulary env u e st with
        bookmarks := st.bookmarks ++
          [{ createdBookmarkRecord u m e with
              id := env.newId (restoreVocabulary env u e st) }] } (n + 1)
    refine ⟨?_, ?_, { createdBookmarkRecord u m e with
        id := env.newId (restoreVocabulary env u e st) } :: created, ?_,
      List.Forall₂.cons ⟨_, rfl⟩ hall⟩
    · simp only [if_true]
      rw [hf]
      exact restoreVocabulary_folders env u e st
    · simp only [if_true]
      rw [hn, List.length_cons]
      omega
    · simp only [if_true]
      rw [hb]
      simp

/-- The whole restore, bookmark collection lookup and bookmark saves
succeeding: the bookmarks afterwards are the bookmarks of the store, untouched,
followed by one new bookmark for every bookmark entry of the snapshot, built
with the mapping of the folder passes; every entry counts as restored. -/
theorem webdavRestoreBackupData_creates (env : Env) (u downloadedFileName : String)
    (backupData : WebDAVBackupData) (st : Store)
    (hcoll : env.hasCollection "bookmarks" = true)
    (hsave : ∀ r, env.saveBookmarkOk r = true) :
    (webdavRestoreBackupData env u downloadedFileName backupData st).1.folders =
      (webdavRestoreFolders env u backupData.Folders st).2.folders ∧
    (webdavRestoreBackupData env u downloadedFileName backupData st).2.restored_bookmarks =
      backupData.Bookmarks.length ∧
    ∃ created : List Bookmark,
      (webdavRestoreBackupData env u downloadedFileName backupData st).1.bookmarks =
        st.bookmarks ++ created ∧
      List.Forall₂ (fun e x => ∃ i, x =
          { createdBookmarkRecord u (webdavRestoreFolders env u backupData.Folders st).1 e
            with id := i }) backupData.Bookmarks created := by
  obtain ⟨hf, hn, created, hb, hall⟩ := webdavRestoreBookmarks_creates env u
    (webdavRestoreFolders env u backupData.Folders st).1 hcoll hsave backupData.Bookmarks
    (webdavRestoreFolders env u backupData.Folders st).2 0
  obtain ⟨hsf, hsb⟩ := webdavRestoreSettings_frame env u backupData.UserSettings
    (webdavRestoreBookmarks env u (webdavRestoreFolders env u backupData.Folders st).1
      backupData.Bookmarks (webdavRestoreFolders env u backupData.Folders st).2 0).1
  rw [webdavRestoreBackupData_fst, webdavRestoreBackupData_count]
  refine ⟨hsf.trans hf, by rw [hn]; omega, created, ?_, hall⟩
  rw [hsb, hb, (webdavRestoreFolders_frame env u backupData.Folders st).1]

/-- The whole restore, collection lookups and folder and bookmark saves
succeeding over a store with unique folder ids and new assigned ids: folder
ids stay unique, the user has one more folder for every folder entry and one
more bookmark for every bookmark entry of the snapshot, and the answer counts
every bookmark entry as restored. -/
theorem webdavRestoreBackupData_adds (env : Env) (u downloadedFileName : String)
    (backupData : WebDAVBackupData) (st : Store)
    (hcollF : env.hasCollection "folders" = true)
    (hcollB : env.hasCollection "bookmarks" = true)
    (hsaveF : ∀ f, env.saveFolderOk f = true)
    (hsaveB : ∀ r, env.saveBookmarkOk r = true)
    (hstore : (st.folders.map (fun f => f.id)).Nodup)
    (hfresh : ∀ s, env.newId s ∉ s.folders.map (fun f => f.id)) :
    ((webdavRestoreBackupData env u downloadedFileName backupData st).1.folders.map
      (fun f => f.id)).Nodup ∧
    (userFolders (webdavRestoreBackupData env u downloadedFileName backupData st).1 u).length =
      (userFolders st u).length + backupData.Folders.length ∧
    (userBookmarks (webdavRestoreBackupData env u downloadedFileName backupData st).1 u).length =
      (userBookmarks st u).length + backupData.Bookmarks.length ∧
    (webdavRestoreBackupData env u downloadedFileName backupData st).2.restored_bookmarks =
      backupData.Bookmarks.length := by
  obtain ⟨hf, hn, created, hb, hall⟩ :=
    webdavRestoreBackupData_creates env u downloadedFileName backupData st hcollB hsaveB
  obtain ⟨hnd, hlen⟩ :=
    webdavRestoreFolders_adds env u backupData.Folders st hcollF hsaveF hstore hfresh
  refine ⟨by rw [hf]; exact hnd, ?_, ?_, hn⟩
  · unfold userFolders at hlen ⊢
    rw [hf]
    exact hlen
  · unfold userBookmarks
    rw [hb, List.filter_append, List.length_append,
      forall₂_length_filter _ _ backupData.Bookmarks created hall]
    rintro e x ⟨i, rfl⟩
    simp [(createdBookmarkRecord_fields u _ e).1]

theorem forall₂_mem_left {α β : Type} {R : α → β → Prop} : ∀ {l : List α} {out : List β},
    List.Forall₂ R l out → ∀ a ∈ l, ∃ b ∈ out, R a b := by
  intro l out h
  induction h with
  | nil => intro a ha; simp at ha
  | cons hab _ ih =>
    intro a ha
    rcases List.mem_cons.1 ha with ha | ha
    · subst ha
      exact ⟨_, List.mem_cons_self _ _, hab⟩
    · obtain ⟨b, hb, hR⟩ := ih a ha
      exact ⟨b, List.mem_cons_of_mem _ hb, hR⟩

/-! ## Claims on the records a restore creates -/

/-- C11 does not hold of the code.  The two lookups of the importer are
written with `AND`, which the filter language of the store does not have, so
they find no record and every restore creates its records anew: for every
snapshot and every store (collection lookups and folder and bookmark saves
succeeding, folder ids unique, assigned ids new), after the first restore and
again after a second restore of the same snapshot right after it, the user has
one more folder for every folder entry and one more bookmark for every
bookmark entry than before that restore; both runs report the number of
bookmark entries as `restored_bookmarks`. -/
theorem restore_again_creates_every_record (env : Env) (u downloadedFileName : String)
    (backupData : WebDAVBackupData) (st : Store)
    (hcollF : env.hasCollection "folders" = true)
    (hcollB : env.hasCollection "bookmarks" = true)
    (hsaveF : ∀ f, env.saveFolderOk f = true)
    (hsaveB : ∀ r, env.saveBookmarkOk r = true)
    (hstore : (st.folders.map (fun f => f.id)).Nodup)
    (hfresh : ∀ s, env.newId s ∉ s.folders.map (fun f => f.id)) :
    ((userFolders (webdavRestoreBackupData env u downloadedFileName backupData st).1 u).length =
        (userFolders st u).length + backupData.Folders.length ∧
      (userBookmarks
          (webdavRestoreBackupData env u downloadedFileName backupData st).1 u).length =
        (userBookmarks st u).length + backupData.Bookmarks.length ∧
      (webdavRestoreBackupData env u downloadedFileName backupData st).2.restored_bookmarks =
        backupData.Bookmarks.length) ∧
    ((userFolders (webdavRestoreBackupData env u downloadedFileName backupData
          (webdavRestoreBackupData env u downloadedFileName backupData st).1).1 u).length =
        (userFolders (webdavRestoreBackupData env u downloadedFileName backupData st).1
          u).length + backupData.Folders.length ∧
      (userBookmarks (webdavRestoreBackupData env u downloadedFileName backupData
          (webdavRestoreBackupData env u downloadedFileName backupData st).1).1 u).length =
        (userBookmarks (webdavRestoreBackupData env u downloadedFileName backupData st).1
          u).length + backupData.Bookmarks.length ∧
      (webdavRestoreBackupData env u downloadedFileName backupData
          (webdavRestoreBackupData env u downloadedFileName backupData
            st).1).2.restored_bookmarks = backupData.Bookmarks.length) := by
  obtain ⟨hnd, h1, h2, h3⟩ := webdavRestoreBackupData_adds env u downloadedFileName backupData
    st hcollF hcollB hsaveF hsaveB hstore hfresh
  obtain ⟨_, k1, k2, k3⟩ := webdavRestoreBackupData_adds env u downloadedFileName backupData
    (webdavRestoreBackupData env u downloadedFileName backupData st).1
    hcollF hcollB hsaveF hsaveB hnd hfresh
  exact ⟨⟨h1, h2, h3⟩, k1, k2, k3⟩

/-- The snapshot `snapshotWorkArchive` (folders `Work` and `Archive`, a
bookmark entry with the url of `b1` and one with a new url) restored twice for
`u1` in `storeToClear`, where `u1` has two folders and three bookmarks: four
folders and five bookmarks after the first run, six and seven after the
second, each run reporting two restored bookmarks. -/
theorem restore_again_creates_every_record_witness :
    (storeToClear.folders.map (fun f => f.id)).Nodup ∧
    ((userFolders (webdavRestoreBackupData restoreEnv "u1" "backup.json" snapshotWorkArchive
          storeToClear).1 "u1").map (fun f => f.name) =
        ["Work", "Reports", "Work", "Archive"] ∧
      (userBookmarks (webdavRestoreBackupData restoreEnv "u1" "backup.json"
          snapshotWorkArchive storeToClear).1 "u1").map (fun b => b.url) =
        ["https://a.example", "https://b.example", "https://c.example", "https://a.example",
          "https://new.example"]) ∧
    ((userFolders (webdavRestoreBackupData restoreEnv "u1" "backup.json" snapshotWorkArchive
          (webdavRestoreBackupData restoreEnv "u1" "backup.json" snapshotWorkArchive
            storeToClear).1).1 "u1").length =
        (userFolders (webdavRestoreBackupData restoreEnv "u1" "backup.json"
          snapshotWorkArchive storeToClear).1 "u1").length + 2 ∧
      (userBookmarks (webdavRestoreBackupData restoreEnv "u1" "backup.json"
          snapshotWorkArchive (webdavRestoreBackupData restoreEnv "u1" "backup.json"
            snapshotWorkArchive storeToClear).1).1 "u1").length =
        (userBookmarks (webdavRestoreBackupData restoreEnv "u1" "backup.json"
          snapshotWorkArchive storeToClear).1 "u1").length + 2 ∧
      (webdavRestoreBackupData restoreEnv "u1" "backup.json" snapshotWorkArchive
          (webdavRestoreBackupData restoreEnv "u1" "backup.json" snapshotWorkArchive
            storeToClear).1).2.restored_bookmarks = 2) :=
  ⟨by decide, by decide,
    (restore_again_creates_every_record restoreEnv "u1" "backup.json" snapshotWorkArchive
      storeToClear rfl rfl (fun _ => rfl) (fun _ => rfl) (by decide)
      restoreEnv_fresh_folders).2⟩

/-- C12 does not hold of the code.  The lookup by url is written with `AND`,
which the filter language of the store does not have, so it finds no record
and the entry never reaches the live bookmark of its url: for every snapshot
and store (bookmark collection lookup and bookmark saves succeeding), the
bookmarks after the restore are those of the store, untouched, followed by one
new bookmark of the user for every entry, with the url and the tags of the
entry.  A live bookmark with the url of an entry that carries tags keeps the
tags it had, none of the entry is added to it, and the tags of the entry are
on the new bookmark. -/
theorem restore_keeps_live_tags (env : Env) (u downloadedFileName : String)
    (backupData : WebDAVBackupData) (st : Store)
    (hcoll : env.hasCollection "bookmarks" = true)
    (hsave : ∀ r, env.saveBookmarkOk r = true) :
    ∃ created : List Bookmark,
      (webdavRestoreBackupData env u downloadedFileName backupData st).1.bookmarks =
        st.bookmarks ++ created ∧
      List.Forall₂ (fun e x => x.userId = u ∧ x.url = e.URL ∧ x.tags = e.Tags)
        backupData.Bookmarks created ∧
      ∀ e ∈ backupData.Bookmarks, e.Tags ≠ [] →
        ∀ b ∈ st.bookmarks, b.userId = u → b.url = e.URL →
          b ∈ (webdavRestoreBackupData env u downloadedFileName backupData st).1.bookmarks ∧
          ∃ x ∈ created, x.userId = u ∧ x.url = e.URL ∧ x.tags = e.Tags := by
  obtain ⟨_, _, created, hb, hall⟩ :=
    webdavRestoreBackupData_creates env u downloadedFileName backupData st hcoll hsave
  have hall2 : List.Forall₂ (fun e x => x.userId = u ∧ x.url = e.URL ∧ x.tags = e.Tags)
      backupData.Bookmarks created := by
    refine List.Forall₂.imp ?_ hall
    rintro e x ⟨i, rfl⟩
    obtain ⟨g1, g2, _, _, g5⟩ := createdBookmarkRecord_fields u
      (webdavRestoreFolders env u backupData.Folders st).1 e
    exact ⟨g1, g2, g5⟩
  refine ⟨created, hb, hall2, ?_⟩
  intro e he _ b hbm _ _
  refine ⟨by rw [hb]; exact List.mem_append_left _ hbm, ?_⟩
  obtain ⟨x, hx, hR⟩ := forall₂_mem_left hall2 e he
  exact ⟨x, hx, hR⟩

/-- The entry `entryRetag` (the url and the title of `b1`, the tag `new`)
restored for `u1` in `storeToClear`, where `b1` carries the tags `a` and `b`:
afterwards `u1` has two bookmarks of the url, `b1` with `a` and `b` and a new
one with `new`; none has the union. -/
theorem restore_keeps_live_tags_witness :
    (∃ created : List Bookmark,
      (webdavRestoreBackupData restoreEnv "u1" "backup.json" (snapshotOfBookmarks [entryRetag])
        storeToClear).1.bookmarks = storeToClear.bookmarks ++ created ∧
      List.Forall₂ (fun e x => x.userId = "u1" ∧ x.url = e.URL ∧ x.tags = e.Tags)
        [entryRetag] created) ∧
    entryRetag.URL = "https://a.example" ∧ entryRetag.Tags = ["new"] ∧
    ((userBookmarks storeToClear "u1").filter (fun b => b.url = "https://a.example")).map
      (fun b => (b.id, b.tags)) = [("b1", ["a", "b"])] ∧
    ((userBookmarks (webdavRestoreBackupData restoreEnv "u1" "backup.json"
        (snapshotOfBookmarks [entryRetag]) storeToClear).1 "u1").filter
      (fun b => b.url = "https://a.example")).map (fun b => (b.id, b.tags)) =
      [("b1", ["a", "b"]), ("xxxxxxxxxxxxxxx", ["new"])] :=
  ⟨(restore_keeps_live_tags restoreEnv "u1" "backup.json" (snapshotOfBookmarks [entryRetag])
      storeToClear rfl (fun _ => rfl)).elim (fun created h => ⟨created, h.1, h.2.1⟩),
    by decide, by decide, by decide, by decide⟩

/-- C18: for every snapshot bookmark entry (bookmark collection lookup and
bookmark saves succeeding), the destination bookmark, which is the record the
bookmark loop saves for the entry, lies after the restore in the mapped live
folder when the original folder id of the entry is not empty and is in the
folder-id mapping, and at the root otherwise.  The lookup by url finds no
record, so the destination is a new record also when the user has a live
bookmark of the url, and no bookmark of the store is touched.  This is so for
the step of the bookmark loop that handles the entry, with any mapping `m`,
and for every entry in the whole restore, with the mapping that the folder
passes build. -/
theorem restore_bookmark_folder (env : Env) (u : String) (m : GoMap String)
    (e : BookmarkBackup) (st : Store)
    (hcoll : env.hasCollection "bookmarks" = true)
    (hsave : ∀ r, env.saveBookmarkOk r = true) :
    (∃ x, (webdavRestoreBookmark env u m e st).1.bookmarks = st.bookmarks ++ [x] ∧
      x.userId = u ∧ x.url = e.URL ∧
      (∀ newFolderId, e.FolderID ≠ "" → m.get e.FolderID = some newFolderId →
        x.folderId = newFolderId) ∧
      ((e.FolderID = "" ∨ m.get e.FolderID = none) → x.folderId = "")) ∧
    ∀ (downloadedFileName : String) (backupData : WebDAVBackupData),
      ∃ created : List Bookmark,
        (webdavRestoreBackupData env u downloadedFileName backupData st).1.bookmarks =
          st.bookmarks ++ created ∧
        List.Forall₂ (fun e x => x.userId = u ∧ x.url = e.URL ∧
          (∀ newFolderId, e.FolderID ≠ "" →
            (webdavRestoreFolders env u backupData.Folders st).1.get e.FolderID =
              some newFolderId → x.folderId = newFolderId) ∧
          ((e.FolderID = "" ∨
            (webdavRestoreFolders env u backupData.Folders st).1.get e.FolderID = none) →
            x.folderId = "")) backupData.Bookmarks created := by
  have hfields : ∀ (m' : GoMap String) (e' : BookmarkBackup),
      (createdBookmarkRecord u m' e').userId = u ∧
      (createdBookmarkRecord u m' e').url = e'.URL ∧
      (∀ newFolderId, e'.FolderID ≠ "" → m'.get e'.FolderID = some newFolderId →
        (createdBookmarkRecord u m' e').folderId = newFolderId) ∧
      ((e'.FolderID = "" ∨ m'.get e'.FolderID = none) →
        (createdBookmarkRecord u m' e').folderId = "") := by
    intro m' e'
    obtain ⟨g1, g2, _, g4, _⟩ := createdBookmarkRecord_fields u m' e'
    rw [g4]
    refine ⟨g1, g2, fun i h1 h2 => by simp [h1, h2], fun h => ?_⟩
    rcases h with h | h
    · simp [h]
    · simp [h]
  constructor
  · rw [webdavRestoreBookmark_creates env u m e st hcoll hsave]
    exact ⟨_, rfl, hfields m e⟩
  · intro downloadedFileName backupData
    obtain ⟨_, _, created, hb, hall⟩ :=
      webdavRestoreBackupData_creates env u downloadedFileName backupData st hcoll hsave
    refine ⟨created, hb, List.Forall₂.imp ?_ hall⟩
    rintro e' x ⟨i, rfl⟩
    exact hfields _ e'

/-- The entry `entryNew`, filed under the original folder `of2` that the
mapping sends to the live folder `f2`, and the entry `entryRetitle`, which has
no folder id and the url of bookmark `b1` in folder `f1`, each restored for
`u1` in `storeToClear`: the first destination lies in `f2`, the second at the
root. -/
theorem restore_bookmark_folder_witness :
    (∃ x, (webdavRestoreBookmark restoreEnv "u1" [("of2", "f2")] entryNew
        storeToClear).1.bookmarks = storeToClear.bookmarks ++ [x] ∧ x.folderId = "f2") ∧
    (∃ x, (webdavRestoreBookmark restoreEnv "u1" [("of2", "f2")] entryRetitle
        storeToClear).1.bookmarks = storeToClear.bookmarks ++ [x] ∧
      x.url = "https://a.example" ∧ x.folderId = "") :=
  ⟨((restore_bookmark_folder restoreEnv "u1" [("of2", "f2")] entryNew storeToClear rfl
      (fun _ => rfl)).1).elim
    (fun x hx => ⟨x, hx.1, hx.2.2.2.1 "f2" (by decide) (by decide)⟩),
   ((restore_bookmark_folder restoreEnv "u1" [("of2", "f2")] entryRetitle storeToClear rfl
      (fun _ => rfl)).1).elim
    (fun x hx => ⟨x, hx.1, hx.2.2.1, hx.2.2.2.2 (Or.inl (by decide))⟩)⟩

/-- C20 does not hold of the code.  The lookup by url is written with `AND`,
which the filter language of the store does not have, so it finds no record
and the branch that updates the title and the favicon of a live bookmark is
never taken: for every snapshot and store (bookmark collection lookup and
bookmark saves succeeding), the bookmarks after the restore are those of the
store, untouched, followed by one new bookmark of the user for every entry
with the url, the title and the favicon url of the entry.  A live bookmark
with the url of an entry keeps its title and favicon url also when those of
the entry are not empty. -/
theorem restore_leaves_live_title_and_favicon (env : Env) (u downloadedFileName : String)
    (backupData : WebDAVBackupData) (st : Store)
    (hcoll : env.hasCollection "bookmarks" = true)
    (hsave : ∀ r, env.saveBookmarkOk r = true) :
    ∃ created : List Bookmark,
      (webdavRestoreBackupData env u downloadedFileName backupData st).1.bookmarks =
        st.bookmarks ++ created ∧
      List.Forall₂ (fun e x => x.userId = u ∧ x.url = e.URL ∧ x.title = e.Title ∧
        x.faviconUrl = e.FaviconURL) backupData.Bookmarks created := by
  obtain ⟨_, _, created, hb, hall⟩ :=
    webdavRestoreBackupData_creates env u downloadedFileName backupData st hcoll hsave
  refine ⟨created, hb, List.Forall₂.imp ?_ hall⟩
  rintro e x ⟨i, rfl⟩
  obtain ⟨g1, g2, g3, _, _⟩ := createdBookmarkRecord_fields u
    (webdavRestoreFolders env u backupData.Folders st).1 e
  exact ⟨g1, g2, g3, createdBookmarkRecord_faviconUrl u _ e⟩

/-- The entry `entryRetitle` (the url of `b1`, title `Alpha`, a favicon url)
restored for `u1` in `storeToClear`: `b1` keeps the title `A` and its empty
favicon url, and a second bookmark of the url carries the values of the
entry. -/
theorem restore_leaves_live_title_and_favicon_witness :
    (∃ created : List Bookmark,
      (webdavRestoreBackupData restoreEnv "u1" "backup.json"
        (snapshotOfBookmarks [entryRetitle]) storeToClear).1.bookmarks =
        storeToClear.bookmarks ++ created ∧
      List.Forall₂ (fun e x => x.userId = "u1" ∧ x.url = e.URL ∧ x.title = e.Title ∧
        x.faviconUrl = e.FaviconURL) [entryRetitle] created) ∧
    ((userBookmarks (webdavRestoreBackupData restoreEnv "u1" "backup.json"
        (snapshotOfBookmarks [entryRetitle]) storeToClear).1 "u1").filter
      (fun b => b.url = "https://a.example")).map (fun b => (b.id, b.title, b.faviconUrl)) =
      [("b1", "A", ""), ("xxxxxxxxxxxxxxx", "Alpha", "https://a.example/favicon.ico")] :=
  ⟨restore_leaves_live_title_and_favicon restoreEnv "u1" "backup.json"
    (snapshotOfBookmarks [entryRetitle]) storeToClear rfl (fun _ => rfl), by decide⟩

/-- C26 does not hold of the code.  The lookup by name of pass 1 is written
with `AND`, which the filter language of the store does not have, so it finds
no record and pass 1 creates a folder for every entry.  The snapshot
`snapshotTwinFolders` has two entries named `Work`, `a1` at the root and `a2`
below `Top`, the folder `Notes` below `a1`, and a bookmark in each `Work`;
restored for `u1`, who has no folder, it leaves two live folders named `Work`,
the two original ids mapped to different live folders, `Notes` below the
first, and the two bookmarks in different folders. -/
theorem restore_same_name_entries_get_own_folders :
    (webdavRestoreBackupData restoreEnv "u1" "backup.json" snapshotTwinFolders
      storeU1).1.folders.map (fun f => (f.id, f.userId, f.name, f.parentId)) =
      [("x", "u1", "Top", ""), ("xx", "u1", "Work", ""), ("xxxx", "u1", "Notes", "xx"),
        ("xxxxxxxx", "u1", "Work", "x")] ∧
    (webdavRestoreFolders restoreEnv "u1" snapshotTwinFolders.Folders storeU1).1.get "a1" =
      some "xx" ∧
    (webdavRestoreFolders restoreEnv "u1" snapshotTwinFolders.Folders storeU1).1.get "a2" =
      some "xxxxxxxx" ∧
    (webdavRestoreBackupData restoreEnv "u1" "backup.json" snapshotTwinFolders
      storeU1).1.bookmarks.map (fun b => (b.url, b.folderId)) =
      [("https://one.example", "xx"), ("https://two.example", "xxxxxxxx")] := by
  decide

/-! ## Claims on the choice of the snapshot file -/

theorem HasPrefix_iff (s p : String) : HasPrefix s p = true ↔ ∃ rest, s = p ++ rest := by
  unfold HasPrefix
  rw [List.isPrefixOf_iff_prefix]
  constructor
  · rintro ⟨t, ht⟩
    exact ⟨String.mk t, String.ext (by simp [String.data_append, ht])⟩
  · rintro ⟨rest, rfl⟩
    exact ⟨rest.data, by simp [String.data_append]⟩

theorem HasSuffix_iff (s p : String) : HasSuffix s p = true ↔ ∃ front, s = front ++ p := by
  unfold HasSuffix
  rw [List.isSuffixOf_iff_suffix]
  constructor
  · rintro ⟨t, ht⟩
    exact ⟨String.mk t, String.ext (by simp [String.data_append, ht])⟩
  · rintro ⟨front, rfl⟩
    exact ⟨front.data, by simp [String.data_append]⟩

theorem isBackupEntry_iff (file : FileInfo) :
    (!file.IsDir && HasPrefix file.Name "backup_" && HasSuffix file.Name ".json") = true ↔
      IsBackupEntry file := by
  unfold IsBackupEntry
  rw [Bool.and_eq_true, Bool.and_eq_true, HasPrefix_iff, HasSuffix_iff]
  simp [and_assoc]

theorem latestBackupLoop_spec : ∀ (files : List FileInfo) (latestFile : Option FileInfo)
    (latestTime : Int), (∀ f, latestFile = some f → latestTime = f.ModTime) →
    (((latestBackupLoop files latestFile latestTime).1 = none ↔
        latestFile = none ∧ ∀ f ∈ files, ¬ IsBackupEntry f)) ∧
    ∀ chosen, (latestBackupLoop files latestFile latestTime).1 = some chosen →
      (latestFile = some chosen ∧ ∀ f ∈ files, IsBackupEntry f → f.ModTime ≤ chosen.ModTime) ∨
      ∃ before after, files = before ++ chosen :: after ∧ IsBackupEntry chosen ∧
        (∀ f, latestFile = some f → f.ModTime < chosen.ModTime) ∧
        (∀ f ∈ before, IsBackupEntry f → f.ModTime < chosen.ModTime) ∧
        (∀ f ∈ after, IsBackupEntry f → f.ModTime ≤ chosen.ModTime) := by
  intro files
  induction files with
  | nil =>
    intro latestFile latestTime _
    refine ⟨by simp [latestBackupLoop], ?_⟩
    intro chosen h
    left
    exact ⟨h, by simp⟩
  | cons file rest ih =>
    intro latestFile latestTime hlt
    unfold latestBackupLoop
    by_cases hc : (!file.IsDir && HasPrefix file.Name "backup_" &&
        HasSuffix file.Name ".json") = true
    · have hentry : IsBackupEntry file := (isBackupEntry_iff file).1 hc
      rw [if_pos hc]
      by_cases hnew : (latestFile.isNone || decide (latestTime < file.ModTime)) = true
      · rw [if_pos hnew]
        obtain ⟨ih1, ih2⟩ := ih (some file) file.ModTime (fun f hf => by cases hf; rfl)
        have hprev : ∀ f, latestFile = some f → f.ModTime < file.ModTime := by
          intro f hf
          rw [hf] at hnew
          simp at hnew
          rw [← hlt f hf]
          exact hnew
        constructor
        · constructor
          · intro h
            have := (ih1.1 h).1
            cases this
          · intro h
            exact absurd hentry (h.2 file (List.mem_cons_self _ _))
        · intro chosen h
          right
          rcases ih2 chosen h with ⟨h1, h2⟩ | ⟨before, after, h1, h2, h3, h4, h5⟩
          · cases h1
            exact ⟨[], rest, rfl, hentry, hprev, by simp, h2⟩
          · refine ⟨file :: before, after, by rw [h1]; rfl, h2, ?_, ?_, h5⟩
            · intro f hf
              exact lt_trans (hprev f hf) (h3 file rfl)
            · intro f hf hfe
              rcases List.mem_cons.1 hf with hf | hf
              · rw [hf]; exact h3 file rfl
              · exact h4 f hf hfe
      · rw [if_neg hnew]
        obtain ⟨ih1, ih2⟩ := ih latestFile latestTime hlt
        have hsome : ∃ f0, latestFile = some f0 ∧ file.ModTime ≤ f0.ModTime := by
          cases hl : latestFile with
          | none => rw [hl] at hnew; simp at hnew
          | some f0 =>
            rw [hl] at hnew
            simp at hnew
            refine ⟨f0, rfl, ?_⟩
            rw [← hlt f0 hl]
            exact hnew
        obtain ⟨f0, hf0, hle⟩ := hsome
        constructor
        · constructor
          · intro h
            have := (ih1.1 h).1
            rw [hf0] at this
            cases this
          · intro h
            exact absurd hentry (h.2 file (List.mem_cons_self _ _))
        · intro chosen h
          rcases ih2 chosen h with ⟨h1, h2⟩ | ⟨before, after, h1, h2, h3, h4, h5⟩
          · left
            refine ⟨h1, ?_⟩
            intro f hf hfe
            rcases List.mem_cons.1 hf with hf | hf
            · rw [hf]
              rw [hf0] at h1
              cases h1
              exact hle
            · exact h2 f hf hfe
          · right
            refine ⟨file :: before, after, by rw [h1]; rfl, h2, h3, ?_, h5⟩
            intro f hf hfe
            rcases List.mem_cons.1 hf with hf | hf
            · rw [hf]
              exact lt_of_le_of_lt hle (h3 f0 hf0)
            · exact h4 f hf hfe
    · have hentry : ¬ IsBackupEntry file := fun h => hc ((isBackupEntry_iff file).2 h)
      rw [if_neg hc]
      obtain ⟨ih1, ih2⟩ := ih latestFile latestTime hlt
      constructor
      · rw [ih1]
        constructor
        · rintro ⟨h1, h2⟩
          refine ⟨h1, ?_⟩
          intro f hf
          rcases List.mem_cons.1 hf with hf | hf
          · rw [hf]; exact hentry
          · exact h2 f hf
        · rintro ⟨h1, h2⟩
          exact ⟨h1, fun f hf => h2 f (List.mem_cons_of_mem _ hf)⟩
      · intro chosen h
        rcases ih2 chosen h with ⟨h1, h2⟩ | ⟨before, after, h1, h2, h3, h4, h5⟩
        · left
          refine ⟨h1, ?_⟩
          intro f hf hfe
          rcases List.mem_cons.1 hf with hf | hf
          · rw [hf] at hfe; exact absurd hfe hentry
          · exact h2 f hf hfe
        · right
          refine ⟨file :: before, after, by rw [h1]; rfl, h2, h3, ?_, h5⟩
          intro f hf hfe
          rcases List.mem_cons.1 hf with hf | hf
          · rw [hf] at hfe; exact absurd hfe hentry
          · exact h4 f hf hfe

/-- C21: when the well-known file `markhub_backup.json` cannot be read and the
directory can be listed, the restore answers `No backup files found in WebDAV
storage.` exactly when no entry of the listing is a file whose name starts
with `backup_` and ends with `.json`; otherwise it chooses such an entry whose
modification time is maximal, the earliest listed among those of that time,
and goes on with the name and the content of that file (or fails when the
file cannot be read). -/
theorem restore_selects_latest_backup (client : WebDAVClient)
    (Join : String → String → String) (configPath : String) (files : List FileInfo)
    (hdefault : client.Read (Join configPath "markhub_backup.json") = none)
    (hdir : client.ReadDir configPath = some files) :
    (webdavRestoreReadBackup client Join configPath =
        .badRequest "No backup files found in WebDAV storage." ↔
      ∀ f ∈ files, ¬ IsBackupEntry f) ∧
    ((∃ f ∈ files, IsBackupEntry f) →
      ∃ before chosen after, files = before ++ chosen :: after ∧ IsBackupEntry chosen ∧
        (∀ f ∈ before, IsBackupEntry f → f.ModTime < chosen.ModTime) ∧
        (∀ f ∈ after, IsBackupEntry f → f.ModTime ≤ chosen.ModTime) ∧
        webdavRestoreReadBackup client Join configPath =
          (match client.Read (Join configPath chosen.Name) with
            | some backupFileData => .ok chosen.Name backupFileData
            | none => .internalServerError
                ("Failed to read latest backup file " ++ Join configPath chosen.Name))) := by
  obtain ⟨h1, h2⟩ := latestBackupLoop_spec files none 0 (fun f hf => by cases hf)
  have hres : webdavRestoreReadBackup client Join configPath =
      (match (latestBackupLoop files none 0).1 with
        | none => .badRequest "No backup files found in WebDAV storage."
        | some latestFile =>
          match client.Read (Join configPath latestFile.Name) with
          | none => .internalServerError
              ("Failed to read latest backup file " ++ Join configPath latestFile.Name)
          | some backupFileData => .ok latestFile.Name backupFileData) := by
    unfold webdavRestoreReadBackup
    simp only [hdefault, hdir]
  constructor
  · rw [hres]
    cases hl : (latestBackupLoop files none 0).1 with
    | none =>
      simp only [true_iff]
      exact (h1.1 hl).2
    | some latestFile =>
      constructor
      · intro h
        exfalso
        dsimp only at h
        cases hr : client.Read (Join configPath latestFile.Name) with
        | none => rw [hr] at h; cases h
        | some d => rw [hr] at h; cases h
      · intro h
        have := h1.2 ⟨rfl, h⟩
        rw [hl] at this
        cases this
  · rintro ⟨f, hf, hfe⟩
    cases hl : (latestBackupLoop files none 0).1 with
    | none => exact absurd hfe ((h1.1 hl).2 f hf)
    | some chosen =>
      rcases h2 chosen hl with ⟨h3, _⟩ | ⟨before, after, h3, h4, _, h6, h7⟩
      · cases h3
      · refine ⟨before, chosen, after, h3, h4, h6, h7, ?_⟩
        rw [hres, hl]
        dsimp only
        cases client.Read (Join configPath chosen.Name) <;> rfl

/-- The listing `listingTwoLatest`: of the two snapshot files with the latest
time the earlier listed one is read. -/
theorem restore_selects_latest_backup_witness :
    webdavRestoreReadBackup clientTwoLatest (fun d f => d ++ "/" ++ f) "dav" =
      .ok "backup_2024-03-01.json" "dav/backup_2024-03-01.json" ∧
    (webdavRestoreReadBackup clientTwoLatest (fun d f => d ++ "/" ++ f) "dav" =
        .badRequest "No backup files found in WebDAV storage." ↔
      ∀ f ∈ listingTwoLatest, ¬ IsBackupEntry f) :=
  ⟨by decide,
   (restore_selects_latest_backup clientTwoLatest (fun d f => d ++ "/" ++ f) "dav"
      listingTwoLatest (by decide) rfl).1⟩

/-! ## Claims on blank tags in bookmark writes -/

theorem bookmarkRequestHook_appended (env : Env) (authId : String) (record : Bookmark)
    (st : Store) (userSettings : UserSettings)
    (hfind : findUserSettings st authId = some userSettings) :
    ∃ s', findUserSettings (bookmarkRequestHook env (some authId) record st).2 authId =
        some s' ∧
      (s'.tagList = userSettings.tagList ∨
        (s'.tagList = GetStringSlice userSettings.tagList ++
          (GetStringSlice record.tags).filter
            (fun t => t ∉ GetStringSlice userSettings.tagList))) ∧
      ((∀ r, env.saveSettingsOk r = true) →
        (GetStringSlice record.tags).filter
            (fun t => t ∉ GetStringSlice userSettings.tagList) ≠ [] →
        s'.tagList = GetStringSlice userSettings.tagList ++
          (GetStringSlice record.tags).filter
            (fun t => t ∉ GetStringSlice userSettings.tagList)) := by
  have hu : userSettings.userId = authId := by
    have := List.find?_some hfind
    simpa using this
  unfold bookmarkRequestHook
  simp only [hfind]
  rw [newUniqueTags_eq_filter]
  split_ifs with h1 h2
  · cases hs : saveSettings env st { userSettings with tagList :=
        (GetStringSlice userSettings.tagList ++ (GetStringSlice record.tags).filter
          (fun t => t ∉ GetStringSlice userSettings.tagList)) } with
    | none =>
      refine ⟨userSettings, hfind, Or.inl rfl, ?_⟩
      intro hsave _
      unfold saveSettings at hs
      rw [hsave] at hs
      simp at hs
    | some st' =>
      unfold saveSettings at hs
      split_ifs at hs
      injection hs with hs
      subst hs
      exact ⟨_, find_settings_after_save { userSettings with tagList :=
        (GetStringSlice userSettings.tagList ++ (GetStringSlice record.tags).filter
          (fun t => t ∉ GetStringSlice userSettings.tagList)) }
        userSettings authId rfl hu _ hfind, Or.inr rfl, fun _ _ => rfl⟩
  · refine ⟨userSettings, hfind, Or.inl rfl, ?_⟩
    intro _ hne
    exfalso
    apply h2
    exact List.length_pos.2 hne
  · refine ⟨userSettings, hfind, Or.inl rfl, ?_⟩
    intro _ hne
    exfalso
    apply h1
    cases hl : GetStringSlice record.tags with
    | nil => rw [hl] at hne; simp at hne
    | cons a l => simp

/-- C22 as stated fails: a bookmark created with the tags `""`, two blanks and
`go` leaves the vocabulary `go, lean` of `u1` with the tag of two blanks
appended (the empty tag is not appended). -/
theorem bookmark_hook_blank_tag_counterexample :
    blankTagRecord.tags = ["", "  ", "go"] ∧ TrimSpace "  " = "" ∧
    (findUserSettings storeU1 "u1").map (fun s => s.tagList) = some ["go", "lean"] ∧
    (findUserSettings (onBookmarkCreateRequest okEnv (some "u1") blankTagRecord storeU1).2
      "u1").map (fun s => s.tagList) = some ["go", "lean", "  "] ∧
    (findUserSettings (onBookmarkUpdateRequest okEnv (some "u1") blankTagRecord storeU1).2
      "u1").map (fun s => s.tagList) = some ["go", "lean", "  "] := by
  decide

/-- C22, as amended: the bookmark create and update hooks append no empty
string to the vocabulary of the user, whatever tag list the bookmark carries:
the stored `tagList` is left as it is, or it becomes the vocabulary as read
followed by strings that are not empty, are tags of the bookmark and were not
in the vocabulary.  A tag made of white space only is not discarded: when the
settings save succeeds, every non-empty tag of the bookmark that was not in
the vocabulary, blank or not, is in the stored `tagList` afterwards. -/
theorem bookmark_hook_appends_no_empty_tag (env : Env) (authId : String) (record : Bookmark)
    (st : Store) (userSettings : UserSettings)
    (hfind : findUserSettings st authId = some userSettings)
    (hook : Env → Option String → Bookmark → Store → Bookmark × Store)
    (hhook : hook = onBookmarkCreateRequest ∨ hook = onBookmarkUpdateRequest) :
    ∃ s' appended, findUserSettings (hook env (some authId) record st).2 authId = some s' ∧
      (s'.tagList = userSettings.tagList ∨
        s'.tagList = GetStringSlice userSettings.tagList ++ appended) ∧
      "" ∉ appended ∧
      (∀ t ∈ appended, t ∈ record.tags ∧ t ∉ GetStringSlice userSettings.tagList) ∧
      ((∀ r, env.saveSettingsOk r = true) → ∀ t ∈ record.tags, t ≠ "" →
        t ∉ GetStringSlice userSettings.tagList → t ∈ s'.tagList) := by
  have hbody : hook env (some authId) record st =
      bookmarkRequestHook env (some authId) record st := by
    rcases hhook with h | h <;> subst h <;> rfl
  obtain ⟨s', hs', hor, hsaved⟩ := bookmarkRequestHook_appended env authId record st
    userSettings hfind
  rw [hbody]
  refine ⟨s', (GetStringSlice record.tags).filter
    (fun t => t ∉ GetStringSlice userSettings.tagList), hs', hor, ?_, ?_, ?_⟩
  · intro h
    exact GetStringSlice_no_empty _ (List.mem_filter.1 h).1
  · intro t ht
    obtain ⟨h1, h2⟩ := List.mem_filter.1 ht
    exact ⟨((GetStringSlice_mem _ _).1 h1).1, by simpa using h2⟩
  · intro hsave t ht hne hnot
    have hmem : t ∈ (GetStringSlice record.tags).filter
        (fun t => t ∉ GetStringSlice userSettings.tagList) :=
      List.mem_filter.2 ⟨(GetStringSlice_mem _ _).2 ⟨ht, hne⟩, by simpa using hnot⟩
    rw [hsaved hsave (List.ne_nil_of_mem hmem)]
    exact List.mem_append_right _ hmem

/-- The hook at `blankTagRecord` over `storeU1`: the tag of two blanks is in
the stored vocabulary afterwards. -/
theorem bookmark_hook_appends_no_empty_tag_witness :
    findUserSettings storeU1 "u1" = some settingsU1 ∧
    ∃ s', findUserSettings (onBookmarkCreateRequest okEnv (some "u1") blankTagRecord storeU1).2
        "u1" = some s' ∧ "  " ∈ s'.tagList ∧ "" ∉ s'.tagList :=
  ⟨by decide,
   (bookmark_hook_appends_no_empty_tag okEnv "u1" blankTagRecord storeU1 settingsU1
      (by decide) onBookmarkCreateRequest (Or.inl rfl)).elim
    (fun s' h => h.elim (fun appended h2 =>
      ⟨s', h2.1, h2.2.2.2.2 (fun _ => rfl) "  " (by decide) (by decide) (by decide),
        by
          rcases h2.2.1 with h3 | h3
          · rw [h3]; decide
          · rw [h3]
            intro hmem
            rcases List.mem_append.1 hmem with h4 | h4
            · exact absurd h4 (by decide)
            · exact h2.2.2.1 h4⟩))⟩

/-! ## Claims on the batch tagging of one bookmark -/

theorem splitChars_ne_nil (sep : Char → Bool) (l : List Char) : splitChars sep l ≠ [] := by
  cases l with
  | nil => simp [splitChars]
  | cons c rest =>
    unfold splitChars
    split_ifs
    · simp
    · split <;> simp

/-- The pieces of a split, put together again, are the input without its
separators. -/
theorem splitChars_join (sep : Char → Bool) (l : List Char) :
    (splitChars sep l).flatten = l.filter (fun c => !sep c) := by
  induction l with
  | nil => simp [splitChars]
  | cons a rest ih =>
    unfold splitChars
    split_ifs with hs
    · simp [hs, ih]
    · cases hsp : splitChars sep rest with
      | nil => exact absurd hsp (splitChars_ne_nil sep rest)
      | cons p ps =>
        rw [hsp] at ih
        simp only [List.flatten_cons] at ih
        simp [hs, ← ih]

/-- A split yields one piece more than the input has separators. -/
theorem splitChars_length (sep : Char → Bool) (l : List Char) :
    (splitChars sep l).length = (l.filter sep).length + 1 := by
  induction l with
  | nil => simp [splitChars]
  | cons a rest ih =>
    unfold splitChars
    split_ifs with hs
    · simp [hs, ih]
    · cases hsp : splitChars sep rest with
      | nil => exact absurd hsp (splitChars_ne_nil sep rest)
      | cons p ps =>
        rw [hsp] at ih
        simp [hs, ← ih]

theorem exportFolders_parentId (m : GoMap Folder) (fuel : Nat) : ∀ (fs : List Folder)
    (out : List ExportedFolder), exportFolders m fuel fs = some out →
    List.Forall₂ (fun f x => x.id = f.id ∧
      x.parentId = if f.parentId = "" then none else some f.parentId) fs out := by
  intro fs
  induction fs with
  | nil =>
    intro out h
    unfold exportFolders at h
    injection h with h
    subst h
    exact List.Forall₂.nil
  | cons r rest ih =>
    intro out h
    unfold exportFolders at h
    cases hp : buildFolderPath m fuel r.id with
    | none => rw [hp] at h; simp at h
    | some folderPath =>
      cases hr : exportFolders m fuel rest with
      | none => rw [hp, hr] at h; simp at h
      | some folders =>
        rw [hp, hr] at h
        simp only at h
        injection h with h
        subst h
        exact List.Forall₂.cons ⟨rfl, rfl⟩ (ih folders hr)

theorem exportBookmarks_folderId (m : GoMap Folder) (fuel : Nat) : ∀ (bs : List Bookmark)
    (out : List ExportedBookmark), exportBookmarks m fuel bs = some out →
    List.Forall₂ (fun b x => x.id = b.id ∧
      x.folderId = if b.folderId = "" then none else some b.folderId) bs out := by
  intro bs
  induction bs with
  | nil =>
    intro out h
    unfold exportBookmarks at h
    injection h with h
    subst h
    exact List.Forall₂.nil
  | cons r rest ih =>
    intro out h
    unfold exportBookmarks at h
    cases hp : (if r.folderId ≠ "" then buildFolderPath m fuel r.folderId else some []) with
    | none => rw [hp] at h; simp at h
    | some folderPath =>
      cases hr : exportBookmarks m fuel rest with
      | none => rw [hp, hr] at h; simp at h
      | some bookmarks =>
        rw [hp, hr] at h
        simp only at h
        injection h with h
        subst h
        exact List.Forall₂.cons ⟨rfl, rfl⟩ (ih bookmarks hr)

/-- Every answer of the export, whatever the bound on the recursion, carries
for each loaded record the reference the loops compute. -/
theorem syncExportDataHandler_references (env : Env) (u lastSyncTime exportTime : String)
    (st : Store) (fuel : Nat) (folders : List ExportedFolder)
    (bookmarks : List ExportedBookmark) (syncMetadata : SyncMetadata)
    (h : syncExportDataHandler env (some u) lastSyncTime exportTime fuel st =
      some (.ok folders bookmarks syncMetadata)) :
    List.Forall₂ (fun f x => x.id = f.id ∧
      x.parentId = if f.parentId = "" then none else some f.parentId)
      (loadedFolders st u lastSyncTime) folders ∧
    List.Forall₂ (fun b x => x.id = b.id ∧
      x.folderId = if b.folderId = "" then none else some b.folderId)
      (loadedBookmarks st u lastSyncTime) bookmarks := by
  unfold syncExportDataHandler at h
  simp only at h
  split_ifs at h with hfb hff
  rotate_left
  · simp at h
  · simp at h
  have h2 : (match exportFolders (exportFolderMap (loadedFolders st u lastSyncTime) []) fuel
      (loadedFolders st u lastSyncTime) with
    | none => none
    | some folders =>
      match exportBookmarks (exportFolderMap (loadedFolders st u lastSyncTime) []) fuel
          (loadedBookmarks st u lastSyncTime) with
      | none => none
      | some bookmarks =>
        some (SyncExportResult.ok folders bookmarks
          { totalFolders := folders.length, totalBookmarks := bookmarks.length,
            exportTime := exportTime, isIncremental := decide (lastSyncTime ≠ "") })) =
      some (.ok folders bookmarks syncMetadata) := h
  cases hfo : exportFolders (exportFolderMap (loadedFolders st u lastSyncTime) []) fuel
      (loadedFolders st u lastSyncTime) with
  | none => rw [hfo] at h2; simp at h2
  | some fo =>
    cases hbo : exportBookmarks (exportFolderMap (loadedFolders st u lastSyncTime) []) fuel
        (loadedBookmarks st u lastSyncTime) with
    | none => rw [hfo, hbo] at h2; simp at h2
    | some bo =>
      rw [hfo, hbo] at h2
      simp only [Option.some.injEq, SyncExportResult.ok.injEq] at h2
      obtain ⟨h3, h4, _⟩ := h2
      subst h3; subst h4
      exact ⟨exportFolders_parentId _ _ _ _ hfo, exportBookmarks_folderId _ _ _ _ hbo⟩

/-- C24: in every export (full or incremental) the handler answers, and in
its answer the `parentId` of each folder entry is null exactly when the
record's `parentId` is empty and is the stored parent id otherwise, likewise
the `folderId` of each bookmark entry; neither is ever the empty string.  The
same holds of every answer the handler gives, whatever the recursion bound. -/
theorem export_null_for_empty_reference (env : Env) (u lastSyncTime exportTime : String)
    (st : Store) (fuel : Nat)
    (hfb : env.fetchOk "bookmarks" = true) (hff : env.fetchOk "folders" = true)
    (hac : Acyclic (FolderEdge (loadedFolders st u lastSyncTime)))
    (hfuel : (loadedFolders st u lastSyncTime).length < fuel) :
    (∃ folders bookmarks syncMetadata,
      syncExportDataHandler env (some u) lastSyncTime exportTime fuel st =
        some (.ok folders bookmarks syncMetadata)) ∧
    ∀ fuel2 folders bookmarks syncMetadata,
      syncExportDataHandler env (some u) lastSyncTime exportTime fuel2 st =
        some (.ok folders bookmarks syncMetadata) →
      List.Forall₂ (fun f x => x.id = f.id ∧ (x.parentId = none ↔ f.parentId = "") ∧
        (f.parentId ≠ "" → x.parentId = some f.parentId) ∧ x.parentId ≠ some "")
        (loadedFolders st u lastSyncTime) folders ∧
      List.Forall₂ (fun b x => x.id = b.id ∧ (x.folderId = none ↔ b.folderId = "") ∧
        (b.folderId ≠ "" → x.folderId = some b.folderId) ∧ x.folderId ≠ some "")
        (loadedBookmarks st u lastSyncTime) bookmarks := by
  refine ⟨?_, ?_⟩
  · obtain ⟨folders, bookmarks, h, _⟩ :=
      syncExportDataHandler_ok env u lastSyncTime exportTime st fuel hfb hff hac hfuel
    exact ⟨folders, bookmarks, _, h⟩
  · intro fuel2 folders bookmarks syncMetadata h
    obtain ⟨h1, h2⟩ := syncExportDataHandler_references env u lastSyncTime exportTime st fuel2
      folders bookmarks syncMetadata h
    refine ⟨forall₂_imp_mem h1 (fun f _ x _ hx => ⟨hx.1, ?_⟩),
      forall₂_imp_mem h2 (fun b _ x _ hx => ⟨hx.1, ?_⟩)⟩
    · rw [hx.2]
      by_cases hp : f.parentId = ""
      · simp [hp]
      · simp [hp]
    · rw [hx.2]
      by_cases hp : b.folderId = ""
      · simp [hp]
      · simp [hp]

/-- The full export of `storeToClear` for `u1`: the root folder `f1` and the
bookmark `b2` at the root carry null, the others their stored reference. -/
theorem export_null_for_empty_reference_witness :
    exportedParents (syncExportDataHandler okEnv (some "u1") "" "now" 3 storeToClear) =
      some ([("f1", none), ("f2", some "f1")],
        [("b1", some "f1"), ("b2", none), ("b3", some "f2")]) ∧
    (∃ folders bookmarks syncMetadata,
      syncExportDataHandler okEnv (some "u1") "" "now" 3 storeToClear =
        some (.ok folders bookmarks syncMetadata)) ∧
    ∀ fuel2 folders bookmarks syncMetadata,
      syncExportDataHandler okEnv (some "u1") "" "now" fuel2 storeToClear =
        some (.ok folders bookmarks syncMetadata) →
      List.Forall₂ (fun f x => x.id = f.id ∧ (x.parentId = none ↔ f.parentId = "") ∧
        (f.parentId ≠ "" → x.parentId = some f.parentId) ∧ x.parentId ≠ some "")
        (loadedFolders storeToClear "u1" "") folders ∧
      List.Forall₂ (fun b x => x.id = b.id ∧ (x.folderId = none ↔ b.folderId = "") ∧
        (b.folderId ≠ "" → x.folderId = some b.folderId) ∧ x.folderId ≠ some "")
        (loadedBookmarks storeToClear "u1" "") bookmarks :=
  ⟨by decide,
   export_null_for_empty_reference okEnv "u1" "" "now" storeToClear 3 rfl rfl
    (Acyclic.mono (FolderEdge_filter _ _) storeToClear_acyclic) (by decide)⟩

/-! ## Claims on the termination of the path recursion -/

theorem buildFolderPath_bounded (fs : List Folder) (hac : Acyclic (FolderEdge fs)) :
    ∀ (fuel : Nat) (id : String) (visited : List String), visited.Nodup →
    (∀ v ∈ visited, v ∈ fs.map (fun f => f.id)) →
    (∀ v ∈ visited, Relation.TransGen (FolderEdge fs) v id) →
    fs.length < fuel + visited.length →
    ∃ path, buildFolderPath (exportFolderMap fs []) fuel id = some path ∧
      path.length + visited.length ≤ fs.length := by
  intro fuel
  induction fuel with
  | zero =>
    intro id visited hnd hsub _ hlen
    exfalso
    have h1 : visited.length ≤ (fs.map (fun f => f.id)).length :=
      (List.Nodup.subperm hnd hsub).length_le
    simp at h1 hlen
    omega
  | succ n ih =>
    intro id visited hnd hsub hdesc hlen
    have hvis : visited.length ≤ fs.length := by
      have h1 : visited.length ≤ (fs.map (fun f => f.id)).length :=
        (List.Nodup.subperm hnd hsub).length_le
      simpa using h1
    unfold buildFolderPath
    by_cases h1 : id = ""
    · rw [if_pos h1]; exact ⟨[], rfl, by simpa using hvis⟩
    · rw [if_neg h1]
      cases hg : (exportFolderMap fs []).get id with
      | none => exact ⟨[], rfl, by simpa using hvis⟩
      | some folder =>
        obtain ⟨hmem, hfid⟩ := exportFolderMap_get_nil fs id folder hg
        have hnd2 : (id :: visited).Nodup :=
          List.nodup_cons.2 ⟨fun hin => hac id (hdesc id hin), hnd⟩
        have hsub2 : ∀ v ∈ id :: visited, v ∈ fs.map (fun f => f.id) := by
          intro v hv
          rcases List.mem_cons.1 hv with hv | hv
          · rw [hv, ← hfid]; exact List.mem_map.2 ⟨folder, hmem, rfl⟩
          · exact hsub v hv
        have hvis2 : visited.length + 1 ≤ fs.length := by
          have h1 : (id :: visited).length ≤ (fs.map (fun f => f.id)).length :=
            (List.Nodup.subperm hnd2 hsub2).length_le
          simpa using h1
        dsimp only
        by_cases h2 : folder.parentId = ""
        · rw [if_pos h2]
          refine ⟨[folder.name], rfl, ?_⟩
          simp only [List.length_singleton]
          omega
        · rw [if_neg h2]
          have hedge : FolderEdge fs id folder.parentId := ⟨folder, hmem, hfid, rfl, h2⟩
          obtain ⟨parentPath, hp, hlen2⟩ := ih folder.parentId (id :: visited) hnd2 hsub2
            (by
              intro v hv
              rcases List.mem_cons.1 hv with hv | hv
              · rw [hv]; exact Relation.TransGen.single hedge
              · exact Relation.TransGen.tail (hdesc v hv) hedge)
            (by simp; omega)
          rw [hp]
          refine ⟨parentPath ++ [folder.name], rfl, ?_⟩
          simp only [List.length_append, List.length_cons, List.length_nil] at hlen2 ⊢
          omega

/-- C25: for loaded folders whose parent relation is acyclic the recursion of
`buildFolderPath` ends for every folder id, known, unknown or empty: a depth
of one more than the number of loaded folders suffices, every greater bound
gives the same path, and that path has at most as many segments as there are
loaded folders. -/
theorem build_folder_path_terminates_within_bound (fs : List Folder)
    (hac : Acyclic (FolderEdge fs)) (id : String) :
    ∃ path,
      (∀ fuel, fs.length < fuel → buildFolderPath (exportFolderMap fs []) fuel id = some path) ∧
      path.length ≤ fs.length := by
  obtain ⟨path, hp, hlen⟩ := buildFolderPath_bounded fs hac (fs.length + 1) id []
    List.nodup_nil (by simp) (by simp) (by simp)
  refine ⟨path, ?_, by simpa using hlen⟩
  intro fuel hfuel
  exact buildFolderPath_mono _ _ _ _ hp fuel hfuel

/-- On the three folders of `storeToClear`: the path of `f2` has two
segments, the unknown id `zz` and the empty id have the empty path. -/
theorem build_folder_path_terminates_within_bound_witness :
    buildFolderPath (exportFolderMap storeToClear.folders []) 4 "f2" = some ["Work", "Reports"] ∧
    buildFolderPath (exportFolderMap storeToClear.folders []) 4 "zz" = some [] ∧
    buildFolderPath (exportFolderMap storeToClear.folders []) 4 "" = some [] ∧
    ∃ path,
      (∀ fuel, storeToClear.folders.length < fuel →
        buildFolderPath (exportFolderMap storeToClear.folders []) fuel "f2" = some path) ∧
      path.length ≤ storeToClear.folders.length :=
  ⟨by decide, by decide, by decide,
   build_folder_path_terminates_within_bound storeToClear.folders storeToClear_acyclic "f2"⟩

/-! ## Lemmas on the creations of the path resolver -/

theorem usedId_append (st : Store) (r : Folder) (p : String) (h : UsedId st p) :
    UsedId { st with folders := st.folders ++ [r] } p := by
  rcases h with h | h | h
  · exact Or.inl h
  · exact Or.inr (Or.inl (by simp only [List.map_append, List.mem_append]; exact Or.inl h))
  · exact Or.inr (Or.inr (by simp only [List.map_append, List.mem_append]; exact Or.inl h))

theorem usedId_ne_newId (env : Env)
    (hfresh : ∀ s, env.newId s ∉ s.folders.map (fun f => f.id))
    (hfreshP : ∀ s, env.newId s ∉ s.folders.map (fun f => f.parentId))
    (hne : ∀ s, env.newId s ≠ "") (st : Store) (p : String) (h : UsedId st p) :
    p ≠ env.newId st := by
  intro hp
  rcases h with h | h | h
  · exact hne st (hp.symm.trans h)
  · exact hfresh st (hp ▸ h)
  · exact hfreshP st (hp ▸ h)

/-- After a folder with a new id was created below the cursor, no key of the
lookup has the new id as parent part, with or without the new binding. -/
theorem lookupAwayFrom_step (env : Env)
    (hfresh : ∀ s, env.newId s ∉ s.folders.map (fun f => f.id))
    (hfreshP : ∀ s, env.newId s ∉ s.folders.map (fun f => f.parentId))
    (hne : ∀ s, env.newId s ≠ "")
    (m : GoMap Folder) (st : Store) (c name : String) (r : Folder)
    (hc : ':' ∉ c.data) (hused : UsedId st c) (hm : LookupKeys m st) :
    LookupAwayFrom m (env.newId st) { st with folders := st.folders ++ [r] } ∧
    LookupAwayFrom (m.set (name ++ ":" ++ c) r) (env.newId st)
      { st with folders := st.folders ++ [r] } := by
  have h1 : LookupAwayFrom m (env.newId st) { st with folders := st.folders ++ [r] } := by
    intro kv hkv
    obtain ⟨n, p, hk, hp, hu⟩ := hm kv hkv
    exact ⟨n, p, hk, hp, usedId_ne_newId env hfresh hfreshP hne st p hu, usedId_append st r p hu⟩
  refine ⟨h1, ?_⟩
  intro kv hkv
  rcases List.mem_cons.1 hkv with hkv | hkv
  · refine ⟨name, c, by rw [hkv], hc, usedId_ne_newId env hfresh hfreshP hne st c hused, ?_⟩
    exact usedId_append st r c hused
  · exact h1 kv hkv

theorem lookupKeys_of_awayFrom (m : GoMap Folder) (c : String) (st : Store)
    (h : LookupAwayFrom m c st) : LookupKeys m st := by
  intro kv hkv
  obtain ⟨n, p, hk, hp, _, hu⟩ := h kv hkv
  exact ⟨n, p, hk, hp, hu⟩

theorem lookupAwayFrom_get (m : GoMap Folder) (c name : String) (st : Store)
    (hc : ':' ∉ c.data) (h : LookupAwayFrom m c st) : m.get (name ++ ":" ++ c) = none := by
  apply GoMap.get_eq_none
  intro kv hkv heq
  obtain ⟨n, p, hk, hp, hpne, _⟩ := h kv hkv
  rw [hk] at heq
  exact hpne (lookupKey_inj n p name c hp hc heq).2

/-- From a segment that is not in the lookup on, the loop creates every
segment, with and without the insertions into the lookup, and both runs end
alike. -/
theorem ensureFolderPathLoop_listingOnly_fresh (env : Env) (u : String)
    (hfresh : ∀ s, env.newId s ∉ s.folders.map (fun f => f.id))
    (hfreshP : ∀ s, env.newId s ∉ s.folders.map (fun f => f.parentId))
    (hne : ∀ s, env.newId s ≠ "")
    (hcolon : ∀ s, ':' ∉ (env.newId s).data) :
    ∀ (path : List String) (cur cur2 : PathCursor) (st : Store),
    cur2.currentParentId = cur.currentParentId → cur2.createdFolders = cur.createdFolders →
    ':' ∉ (parentIdStrOf cur.currentParentId).data →
    UsedId st (parentIdStrOf cur.currentParentId) →
    LookupKeys cur.folderMap st → LookupKeys cur2.folderMap st →
    (∀ name ∈ path.head?,
      cur.folderMap.get (name ++ ":" ++ parentIdStrOf cur.currentParentId) = none ∧
      cur2.folderMap.get (name ++ ":" ++ parentIdStrOf cur.currentParentId) = none) →
    (ensureFolderPathLoopListingOnly env u path cur2 st).1 =
      (ensureFolderPathLoop env u path cur st).1 ∧
    cursorView (ensureFolderPathLoopListingOnly env u path cur2 st).2 =
      cursorView (ensureFolderPathLoop env u path cur st).2 ∧
    ∀ fin, (ensureFolderPathLoop env u path cur st).2 = .ok fin →
      fin.createdFolders = cur.createdFolders ++ path := by
  intro path
  induction path with
  | nil =>
    intro cur cur2 st h1 h2 _ _ _ _ _
    refine ⟨rfl, ?_, ?_⟩
    · simp [ensureFolderPathLoop, ensureFolderPathLoopListingOnly, cursorView, h1, h2]
    · intro fin hfin
      simp only [ensureFolderPathLoop, Except.ok.injEq] at hfin
      subst hfin
      simp
  | cons name rest ih =>
    intro cur cur2 st h1 h2 hc hused hm hm2 hhead
    obtain ⟨hget, hget2⟩ := hhead name rfl
    unfold ensureFolderPathLoop ensureFolderPathLoopListingOnly
    simp only [h1, hget, hget2, createFolder]
    by_cases hcoll : env.hasCollection "folders" = true
    · simp only [hcoll, if_true]
      by_cases hsave : env.saveFolderOk
          { id := "", userId := u, name := name,
            parentId := parentIdStrOf cur.currentParentId, createdAt := "",
            updatedAt := "" } = true
      · simp only [hsave, if_true]
        obtain ⟨_, hB⟩ := lookupAwayFrom_step env hfresh hfreshP hne cur.folderMap st
          (parentIdStrOf cur.currentParentId) name
          { id := env.newId st, userId := u, name := name,
            parentId := parentIdStrOf cur.currentParentId, createdAt := "", updatedAt := "" }
          hc hused hm
        obtain ⟨hA2, _⟩ := lookupAwayFrom_step env hfresh hfreshP hne cur2.folderMap st
          (parentIdStrOf cur.currentParentId) name
          { id := env.newId st, userId := u, name := name,
            parentId := parentIdStrOf cur.currentParentId, createdAt := "", updatedAt := "" }
          hc hused hm2
        obtain ⟨r1, r2, r3⟩ := ih
          { currentParentId := some (env.newId st)
            createdFolders := cur.createdFolders ++ [name]
            folderMap := cur.folderMap.set (name ++ ":" ++ parentIdStrOf cur.currentParentId)
              { id := env.newId st, userId := u, name := name,
                parentId := parentIdStrOf cur.currentParentId, createdAt := "",
                updatedAt := "" } }
          { currentParentId := some (env.newId st)
            createdFolders := cur2.createdFolders ++ [name]
            folderMap := cur2.folderMap }
          { st with folders := st.folders ++
              [{ id := env.newId st, userId := u, name := name,
                 parentId := parentIdStrOf cur.currentParentId, createdAt := "",
                 updatedAt := "" }] }
          rfl (by simp only [h2]) (hcolon st)
          (Or.inr (Or.inl (by simp [parentIdStrOf])))
          (lookupKeys_of_awayFrom _ _ _ hB) (lookupKeys_of_awayFrom _ _ _ hA2)
          (fun n _ => ⟨lookupAwayFrom_get _ _ n _ (hcolon st) hB,
            lookupAwayFrom_get _ _ n _ (hcolon st) hA2⟩)
        refine ⟨r1, r2, ?_⟩
        intro fin hfin
        rw [r3 fin hfin]
        simp
      · simp only [hsave, Bool.false_eq_true, if_false]
        refine ⟨trivial, trivial, ?_⟩
        intro fin hfin
        cases hfin
    · simp only [hcoll, Bool.false_eq_true, if_false]
      refine ⟨trivial, trivial, ?_⟩
      intro fin hfin
      cases hfin

theorem GoMap.mem_of_get {β : Type} (k : String) (v : β) : ∀ (m : GoMap β),
    m.get k = some v → (k, v) ∈ m := by
  intro m
  induction m with
  | nil => intro h; simp [GoMap.get] at h
  | cons kv rest ih =>
    intro h
    obtain ⟨k2, v2⟩ := kv
    unfold GoMap.get at h
    rw [List.lookup_cons] at h
    by_cases hk : k = k2
    · subst hk
      simp only [beq_self_eq_true, Option.some.injEq] at h
      subst h
      exact List.mem_cons_self _ _
    · have hbeq : (k == k2) = false := by simpa using hk
      rw [hbeq] at h
      exact List.mem_cons_of_mem _ (ih h)

/-- The path loop with and without the insertions into the lookup: the same
store and the same response, whatever fails. -/
theorem ensureFolderPathLoop_listingOnly (env : Env) (u : String)
    (hfresh : ∀ s, env.newId s ∉ s.folders.map (fun f => f.id))
    (hfreshP : ∀ s, env.newId s ∉ s.folders.map (fun f => f.parentId))
    (hne : ∀ s, env.newId s ≠ "")
    (hcolon : ∀ s, ':' ∉ (env.newId s).data) :
    ∀ (path : List String) (cur : PathCursor) (st : Store),
    ':' ∉ (parentIdStrOf cur.currentParentId).data →
    UsedId st (parentIdStrOf cur.currentParentId) →
    LookupKeys cur.folderMap st →
    (∀ kv ∈ cur.folderMap, ':' ∉ kv.2.id.data ∧ kv.2.id ∈ st.folders.map (fun f => f.id)) →
    (ensureFolderPathLoopListingOnly env u path cur st).1 =
      (ensureFolderPathLoop env u path cur st).1 ∧
    cursorView (ensureFolderPathLoopListingOnly env u path cur st).2 =
      cursorView (ensureFolderPathLoop env u path cur st).2 := by
  intro path
  induction path with
  | nil => intro cur st _ _ _ _; exact ⟨rfl, rfl⟩
  | cons name rest ih =>
    intro cur st hc hused hm hval
    cases hget : cur.folderMap.get (name ++ ":" ++ parentIdStrOf cur.currentParentId) with
    | some existing =>
      obtain ⟨hv1, hv2⟩ := hval _ (GoMap.mem_of_get _ _ _ hget)
      have := ih { cur with currentParentId := some existing.id } st hv1
        (Or.inr (Or.inl hv2)) hm hval
      unfold ensureFolderPathLoop ensureFolderPathLoopListingOnly
      simp only [hget]
      exact this
    | none =>
      obtain ⟨r1, r2, _⟩ := ensureFolderPathLoop_listingOnly_fresh env u hfresh hfreshP hne
        hcolon (name :: rest) cur cur st rfl rfl hc hused hm hm
        (fun n hn => by
          have hn2 : n = name := by simpa using hn.symm
          subst hn2
          exact ⟨hget, hget⟩)
      exact ⟨r1, r2⟩

/-- From a segment that is not in the lookup on, every store call succeeding,
the loop creates every segment, chained below the cursor. -/
theorem ensureFolderPathLoop_creates (env : Env) (u : String)
    (hcoll : env.hasCollection "folders" = true)
    (hsave : ∀ f, env.saveFolderOk f = true)
    (hfresh : ∀ s, env.newId s ∉ s.folders.map (fun f => f.id))
    (hfreshP : ∀ s, env.newId s ∉ s.folders.map (fun f => f.parentId))
    (hne : ∀ s, env.newId s ≠ "")
    (hcolon : ∀ s, ':' ∉ (env.newId s).data) :
    ∀ (path : List String) (cur : PathCursor) (st : Store),
    ':' ∉ (parentIdStrOf cur.currentParentId).data →
    UsedId st (parentIdStrOf cur.currentParentId) →
    LookupKeys cur.folderMap st →
    (∀ name ∈ path.head?,
      cur.folderMap.get (name ++ ":" ++ parentIdStrOf cur.currentParentId) = none) →
    ∃ (ids : List String) (fin : PathCursor), ids.length = path.length ∧ ids.Nodup ∧
      (∀ i ∈ ids, i ∉ st.folders.map (fun f => f.id)) ∧
      ensureFolderPathLoop env u path cur st =
        ({ st with folders := st.folders ++
            chainFolders u (parentIdStrOf cur.currentParentId) (path.zip ids) }, .ok fin) ∧
      fin.createdFolders = cur.createdFolders ++ path ∧
      fin.currentParentId = (match ids.getLast? with
        | some i => some i
        | none => cur.currentParentId) := by
  intro path
  induction path with
  | nil =>
    intro cur st _ _ _ _
    exact ⟨[], cur, rfl, List.nodup_nil, by simp, by simp [ensureFolderPathLoop, chainFolders],
      by simp, rfl⟩
  | cons name rest ih =>
    intro cur st hcur hused hmap hhead
    have hget := hhead name rfl
    obtain ⟨_, hB⟩ := lookupAwayFrom_step env hfresh hfreshP hne cur.folderMap st
      (parentIdStrOf cur.currentParentId) name
      { id := env.newId st, userId := u, name := name,
        parentId := parentIdStrOf cur.currentParentId, createdAt := "", updatedAt := "" }
      hcur hused hmap
    obtain ⟨ids, fin, hlen, hnd, hnot, hloop, hcr, hfin⟩ := ih
      { currentParentId := some (env.newId st)
        createdFolders := cur.createdFolders ++ [name]
        folderMap := cur.folderMap.set (name ++ ":" ++ parentIdStrOf cur.currentParentId)
          { id := env.newId st, userId := u, name := name,
            parentId := parentIdStrOf cur.currentParentId, createdAt := "", updatedAt := "" } }
      { st with folders := st.folders ++
          [{ id := env.newId st, userId := u, name := name,
             parentId := parentIdStrOf cur.currentParentId, createdAt := "", updatedAt := "" }] }
      (hcolon st)
      (Or.inr (Or.inl (by simp [parentIdStrOf])))
      (lookupKeys_of_awayFrom _ _ _ hB)
      (fun n _ => lookupAwayFrom_get _ _ n _ (hcolon st) hB)
    refine ⟨env.newId st :: ids, fin, by simp [hlen], ?_, ?_, ?_, ?_, ?_⟩
    · rw [List.nodup_cons]
      refine ⟨?_, hnd⟩
      intro hmem
      exact hnot _ hmem (by simp)
    · intro i hi
      rcases List.mem_cons.1 hi with hi | hi
      · rw [hi]; exact hfresh st
      · intro hmem
        exact hnot i hi (by simp only [List.map_append, List.mem_append]; exact Or.inl hmem)
    · unfold ensureFolderPathLoop
      simp only [hget, hcoll, if_true, createFolder, hsave]
      rw [hloop]
      simp only [List.zip_cons_cons, chainFolders, parentIdStrOf, List.append_assoc,
        List.singleton_append]
      rfl
    · rw [hcr]; simp
    · rw [hfin]
      cases ids with
      | nil => simp
      | cons a l =>
        obtain ⟨b, hb⟩ := getLast?_cons_some a l
        rw [List.getLast?_cons_cons, hb]

/-- The path loop, every store call succeeding: a first part of the path is
found in the lookup, which leaves the store and the lookup as they are, and
from the first segment that is not found on every segment is created. -/
theorem ensureFolderPathLoop_hits_then_creates (env : Env) (u : String)
    (hcoll : env.hasCollection "folders" = true)
    (hsave : ∀ f, env.saveFolderOk f = true)
    (hfresh : ∀ s, env.newId s ∉ s.folders.map (fun f => f.id))
    (hfreshP : ∀ s, env.newId s ∉ s.folders.map (fun f => f.parentId))
    (hne : ∀ s, env.newId s ≠ "")
    (hcolon : ∀ s, ':' ∉ (env.newId s).data) :
    ∀ (path : List String) (cur : PathCursor) (st : Store),
    ':' ∉ (parentIdStrOf cur.currentParentId).data →
    UsedId st (parentIdStrOf cur.currentParentId) →
    LookupKeys cur.folderMap st →
    (∀ kv ∈ cur.folderMap, ':' ∉ kv.2.id.data ∧ kv.2.id ∈ st.folders.map (fun f => f.id)) →
    ∃ (k : Nat) (c : Option String) (ids : List String) (fin : PathCursor),
      k ≤ path.length ∧ ids.length = path.length - k ∧ ids.Nodup ∧
      (∀ i ∈ ids, i ∉ st.folders.map (fun f => f.id)) ∧
      ensureFolderPathLoop env u (path.take k) cur st =
        (st, .ok { cur with currentParentId := c }) ∧
      ensureFolderPathLoop env u path cur st =
        ({ st with folders := st.folders ++
            chainFolders u (parentIdStrOf c) ((path.drop k).zip ids) }, .ok fin) ∧
      fin.createdFolders = cur.createdFolders ++ path.drop k ∧
      fin.currentParentId = (match ids.getLast? with
        | some i => some i
        | none => c) := by
  intro path
  induction path with
  | nil =>
    intro cur st _ _ _ _
    exact ⟨0, cur.currentParentId, [], cur, Nat.le_refl _, rfl, List.nodup_nil, by simp,
      by simp [ensureFolderPathLoop], by simp [ensureFolderPathLoop, chainFolders], by simp, rfl⟩
  | cons name rest ih =>
    intro cur st hc hused hm hval
    cases hget : cur.folderMap.get (name ++ ":" ++ parentIdStrOf cur.currentParentId) with
    | some existing =>
      obtain ⟨hv1, hv2⟩ := hval _ (GoMap.mem_of_get _ _ _ hget)
      obtain ⟨k, c, ids, fin, hk, hlen, hnd, hnot, htake, hloop, hcr, hfin⟩ :=
        ih { cur with currentParentId := some existing.id } st hv1
          (Or.inr (Or.inl hv2)) hm hval
      refine ⟨k + 1, c, ids, fin, by simp [hk], by simp [hlen], hnd, hnot, ?_, ?_, hcr, hfin⟩
      · rw [List.take_succ_cons]
        unfold ensureFolderPathLoop
        simp only [hget]
        exact htake
      · unfold ensureFolderPathLoop
        simp only [hget, List.drop_succ_cons]
        exact hloop
    | none =>
      obtain ⟨ids, fin, hlen, hnd, hnot, hloop, hcr, hfin⟩ := ensureFolderPathLoop_creates env u
        hcoll hsave hfresh hfreshP hne hcolon (name :: rest) cur st hc hused hm
        (fun n hn => by
          have hn2 : n = name := by simpa using hn.symm
          subst hn2
          exact hget)
      exact ⟨0, cur.currentParentId, ids, fin, Nat.zero_le _, by simpa using hlen, hnd, hnot,
        by simp [ensureFolderPathLoop], by simpa using hloop, by simpa using hcr, hfin⟩

theorem buildFolderMap_mem (l : List Folder) : ∀ (m : GoMap Folder),
    ∀ kv ∈ buildFolderMap l m,
      kv ∈ m ∨ ∃ r ∈ l, kv = (r.name ++ ":" ++ r.parentId, r) := by
  induction l with
  | nil => intro m kv h; exact Or.inl h
  | cons a rest ih =>
    intro m kv h
    unfold buildFolderMap at h
    rcases ih _ kv h with h1 | ⟨r, hr, h1⟩
    · rcases List.mem_cons.1 h1 with h2 | h2
      · exact Or.inr ⟨a, List.mem_cons_self _ _, h2⟩
      · exact Or.inl h2
    · exact Or.inr ⟨r, List.mem_cons_of_mem _ hr, h1⟩

/-- The lookup built from the listing of the user's folders, whose ids and
parent ids hold no colon. -/
theorem buildFolderMap_lookup (st : Store) (u : String)
    (hstore : ∀ f ∈ userFolders st u, ':' ∉ f.id.data ∧ ':' ∉ f.parentId.data) :
    LookupKeys (buildFolderMap (userFolders st u) []) st ∧
    ∀ kv ∈ buildFolderMap (userFolders st u) [],
      ':' ∉ kv.2.id.data ∧ kv.2.id ∈ st.folders.map (fun f => f.id) := by
  have hmem : ∀ kv ∈ buildFolderMap (userFolders st u) [],
      ∃ r ∈ userFolders st u, kv = (r.name ++ ":" ++ r.parentId, r) := by
    intro kv hkv
    rcases buildFolderMap_mem _ _ kv hkv with h | h
    · simp at h
    · exact h
  refine ⟨?_, ?_⟩
  · intro kv hkv
    obtain ⟨r, hr, hkv2⟩ := hmem kv hkv
    have hrst : r ∈ st.folders := List.mem_of_mem_filter hr
    exact ⟨r.name, r.parentId, by rw [hkv2], (hstore r hr).2,
      Or.inr (Or.inr (List.mem_map.2 ⟨r, hrst, rfl⟩))⟩
  · intro kv hkv
    obtain ⟨r, hr, hkv2⟩ := hmem kv hkv
    have hrst : r ∈ st.folders := List.mem_of_mem_filter hr
    rw [hkv2]
    exact ⟨(hstore r hr).1, List.mem_map.2 ⟨r, hrst, rfl⟩⟩

theorem pathEnv_newId_length (s : Store) :
    (pathEnv.newId s).length = 1 + (s.folders.map (fun f => f.id.length)).sum +
      (s.folders.map (fun f => f.parentId.length)).sum := by
  show (List.replicate _ 'x').length = _
  exact List.length_replicate _ _

theorem pathEnv_newId_fresh (s : Store) : pathEnv.newId s ∉ s.folders.map (fun f => f.id) := by
  intro h
  obtain ⟨f, hf, hid⟩ := List.mem_map.1 h
  have hlen := pathEnv_newId_length s
  rw [← hid] at hlen
  have hle : f.id.length ≤ (s.folders.map (fun f => f.id.length)).sum :=
    nat_le_sum_of_mem _ _ (List.mem_map.2 ⟨f, hf, rfl⟩)
  omega

theorem pathEnv_newId_freshParent (s : Store) :
    pathEnv.newId s ∉ s.folders.map (fun f => f.parentId) := by
  intro h
  obtain ⟨f, hf, hid⟩ := List.mem_map.1 h
  have hlen := pathEnv_newId_length s
  rw [← hid] at hlen
  have hle : f.parentId.length ≤ (s.folders.map (fun f => f.parentId.length)).sum :=
    nat_le_sum_of_mem _ _ (List.mem_map.2 ⟨f, hf, rfl⟩)
  omega

theorem pathEnv_newId_ne (s : Store) : pathEnv.newId s ≠ "" := by
  intro h
  have hlen := pathEnv_newId_length s
  rw [h] at hlen
  simp at hlen
  omega

theorem pathEnv_newId_colon (s : Store) : ':' ∉ (pathEnv.newId s).data := by
  intro h
  have h2 : ':' ∈ List.replicate (1 + (s.folders.map (fun f => f.id.length)).sum +
      (s.folders.map (fun f => f.parentId.length)).sum) 'x' := h
  rw [List.mem_replicate] at h2
  exact absurd h2.2 (by decide)

/-! ## Claims on the creations of the path resolver -/

/-- C27: in `ensureFolderPathHandler`, when the store assigns to every new
folder an id that is not empty, holds no colon and is in use neither as id nor
as `parentId` of a folder, and the ids and parent ids of the user's folders
hold no colon: the handler leaves the same store and gives the same response
as the handler that does not insert the new folders into its lookup, whatever
fails, so an inserted binding is never hit; and, every store call succeeding,
the first `k` segments of the path resolve to live folders without any
creation, every segment after them is created, chained below the folder the
first `k` resolve to, and the `created` list is the path without its first `k`
segments. -/
theorem ensure_folder_path_creates_suffix (env : Env) (u : String) (path : List String)
    (st : Store)
    (hfresh : ∀ s, env.newId s ∉ s.folders.map (fun f => f.id))
    (hfreshP : ∀ s, env.newId s ∉ s.folders.map (fun f => f.parentId))
    (hne : ∀ s, env.newId s ≠ "")
    (hcolon : ∀ s, ':' ∉ (env.newId s).data)
    (hstore : ∀ f ∈ userFolders st u, ':' ∉ f.id.data ∧ ':' ∉ f.parentId.data) :
    ensureFolderPathHandlerListingOnly env (some u) path st =
      ensureFolderPathHandler env (some u) path st ∧
    (env.fetchOk "folders" = true → env.hasCollection "folders" = true →
      (∀ f, env.saveFolderOk f = true) →
      ∃ (k : Nat) (c : Option String) (ids : List String),
        k ≤ path.length ∧ ids.length = path.length - k ∧ ids.Nodup ∧
        (∀ i ∈ ids, i ∉ st.folders.map (fun f => f.id)) ∧
        ensureFolderPathHandler env (some u) (path.take k) st = (st, .ok c []) ∧
        ensureFolderPathHandler env (some u) path st =
          ({ st with folders := st.folders ++
              chainFolders u (parentIdStrOf c) ((path.drop k).zip ids) },
            .ok (match ids.getLast? with
              | some i => some i
              | none => c) (path.drop k))) := by
  obtain ⟨hkeys, hval⟩ := buildFolderMap_lookup st u hstore
  refine ⟨?_, ?_⟩
  · unfold ensureFolderPathHandler ensureFolderPathHandlerListingOnly
    simp only
    split_ifs with hlen hfetch
    · rfl
    · obtain ⟨r1, r2⟩ := ensureFolderPathLoop_listingOnly env u hfresh hfreshP hne hcolon path
        { currentParentId := none, createdFolders := [],
          folderMap := buildFolderMap (userFolders st u) [] } st
        (by simp [parentIdStrOf]) (Or.inl rfl) hkeys hval
      rcases h1 : ensureFolderPathLoop env u path
        { currentParentId := none, createdFolders := [],
          folderMap := buildFolderMap (userFolders st u) [] } st with ⟨st1, res1⟩
      rcases h2 : ensureFolderPathLoopListingOnly env u path
        { currentParentId := none, createdFolders := [],
          folderMap := buildFolderMap (userFolders st u) [] } st with ⟨st2, res2⟩
      rw [h1, h2] at r1 r2
      simp only at r1 r2
      subst r1
      cases res1 with
      | ok f1 =>
        cases res2 with
        | ok f2 =>
          simp only [cursorView, Except.ok.injEq, Prod.mk.injEq] at r2
          simp only [r2.1, r2.2]
        | error m2 => simp [cursorView] at r2
      | error m1 =>
        cases res2 with
        | ok f2 => simp [cursorView] at r2
        | error m2 =>
          simp only [cursorView, Except.error.injEq] at r2
          simp only [r2]
    · rfl
  · intro hfetch hcoll hsave
    obtain ⟨k, c, ids, fin, hk, hlen, hnd, hnot, htake, hloop, hcr, hfin⟩ :=
      ensureFolderPathLoop_hits_then_creates env u hcoll hsave hfresh hfreshP hne hcolon path
        { currentParentId := none, createdFolders := [],
          folderMap := buildFolderMap (userFolders st u) [] } st
        (by simp [parentIdStrOf]) (Or.inl rfl) hkeys hval
    refine ⟨k, c, ids, hk, hlen, hnd, hnot, ?_, ?_⟩
    · unfold ensureFolderPathHandler
      simp only
      by_cases h0 : (path.take k).length = 0
      · have hnil : path.take k = [] := List.length_eq_zero.1 h0
        rw [hnil] at htake
        simp only [ensureFolderPathLoop, Prod.mk.injEq, Except.ok.injEq, true_and] at htake
        have hc : c = none := by
          have := congrArg PathCursor.currentParentId htake
          exact this.symm
        simp only [h0, if_true, hc]
      · simp only [h0, if_false, hfetch, if_true, htake]
    · unfold ensureFolderPathHandler
      simp only
      by_cases h0 : path.length = 0
      · have hnil : path = [] := List.length_eq_zero.1 h0
        subst hnil
        have hids : ids = [] := List.length_eq_zero.1 (by simpa using hlen)
        subst hids
        simp only [List.take_nil, ensureFolderPathLoop, Prod.mk.injEq, Except.ok.injEq,
          true_and] at htake
        have hc : c = none := by
          have := congrArg PathCursor.currentParentId htake
          exact this.symm
        subst hc
        simp [chainFolders]
      · simp only [h0, if_false, hfetch, if_true, hloop]
        rw [hcr, hfin]
        simp

/-- Resolving `Work / New / Reports` for `u1` in `storeToClear`: `Work` is
found, `New` is created below it, and `Reports` is created below `New`
although a folder `Reports` lies below `Work`. -/
theorem ensure_folder_path_creates_suffix_witness :
    (ensureFolderPathHandler pathEnv (some "u1") ["Work", "New", "Reports"] storeToClear).2 =
      .ok (some (String.mk (List.replicate 20 'x'))) ["New", "Reports"] ∧
    ensureFolderPathHandler pathEnv (some "u1") ["Work"] storeToClear =
      (storeToClear, .ok (some "f1") []) ∧
    ensureFolderPathHandlerListingOnly pathEnv (some "u1") ["Work", "New", "Reports"]
        storeToClear =
      ensureFolderPathHandler pathEnv (some "u1") ["Work", "New", "Reports"] storeToClear ∧
    (pathEnv.fetchOk "folders" = true → pathEnv.hasCollection "folders" = true →
      (∀ f, pathEnv.saveFolderOk f = true) →
      ∃ (k : Nat) (c : Option String) (ids : List String),
        k ≤ ["Work", "New", "Reports"].length ∧
        ids.length = ["Work", "New", "Reports"].length - k ∧ ids.Nodup ∧
        (∀ i ∈ ids, i ∉ storeToClear.folders.map (fun f => f.id)) ∧
        ensureFolderPathHandler pathEnv (some "u1") (["Work", "New", "Reports"].take k)
          storeToClear = (storeToClear, .ok c []) ∧
        ensureFolderPathHandler pathEnv (some "u1") ["Work", "New", "Reports"] storeToClear =
          ({ storeToClear with folders := (storeToClear.folders ++
              chainFolders "u1" (parentIdStrOf c)
                ((["Work", "New", "Reports"].drop k).zip ids)) },
            .ok (match ids.getLast? with
              | some i => some i
              | none => c) (["Work", "New", "Reports"].drop k))) :=
  ⟨by decide, by decide,
   ensure_folder_path_creates_suffix pathEnv "u1" ["Work", "New", "Reports"] storeToClear
    pathEnv_newId_fresh pathEnv_newId_freshParent pathEnv_newId_ne pathEnv_newId_colon
    (by decide)⟩

/-! ## Claims on the dark mode in the settings restoration -/

theorem settings_guard_iff (settings : UserSettingsBackupData) :
    (settings.TagList.isSome || settings.AccentColor ≠ "" || settings.DefaultView ≠ "" ||
      settings.Language ≠ "") = true ↔
    (settings.TagList ≠ none ∨ settings.AccentColor ≠ "" ∨ settings.DefaultView ≠ "" ∨
      settings.Language ≠ "") := by
  cases h : settings.TagList <;> simp [or_assoc]

theorem restoreVocabulary_darkMode (env : Env) (u : String) (e : BookmarkBackup) (st : Store)
    (s : UserSettings) (hfind : findUserSettings st u = some s) :
    ∃ s', findUserSettings (restoreVocabulary env u e st) u = some s' ∧
      s'.darkMode = s.darkMode := by
  have hsu : s.userId = u := by
    have := List.find?_some hfind
    simpa using this
  unfold restoreVocabulary restoreBookmarkTags
  by_cases hlen : e.Tags.length > 0
  · rw [if_pos hlen, hfind]
    dsimp only
    split_ifs with hlonger
    · unfold saveSettings
      split_ifs
      · exact ⟨_, find_settings_after_save
          ({ s with tagList := (unionRestoredTags (GetStringSlice s.tagList) e.Tags
            (GetStringSlice s.tagList)) }) s u rfl hsu _ hfind, rfl⟩
      · exact ⟨s, hfind, rfl⟩
    · exact ⟨s, hfind, rfl⟩
  · rw [if_neg hlen]
    exact ⟨s, hfind, rfl⟩

theorem webdavRestoreBookmarks_darkMode (env : Env) (u : String) (m : GoMap String)
    (hcoll : env.hasCollection "bookmarks" = true) :
    ∀ (entries : List BookmarkBackup) (st : Store) (n : Nat) (s : UserSettings),
    findUserSettings st u = some s →
    ∃ s', findUserSettings (webdavRestoreBookmarks env u m entries st n).1 u = some s' ∧
      s'.darkMode = s.darkMode := by
  intro entries
  induction entries with
  | nil =>
    intro st n s hfind
    exact ⟨s, hfind, rfl⟩
  | cons e rest ih =>
    intro st n s hfind
    obtain ⟨_, hse, _⟩ := webdavRestoreBookmark_cases env u m e st hcoll
    obtain ⟨s1, hfind1, hd1⟩ := restoreVocabulary_darkMode env u e st s hfind
    rw [← findUserSettings_congr _ _ u hse] at hfind1
    obtain ⟨s2, hfind2, hd2⟩ := ih (webdavRestoreBookmark env u m e st).1
      (if (webdavRestoreBookmark env u m e st).2 then n + 1 else n) s1 hfind1
    unfold webdavRestoreBookmarks
    exact ⟨s2, hfind2, hd2.trans hd1⟩

/-- C28: in the settings restoration (settings record of the user present,
its save succeeding) `darkMode` is overwritten with the snapshot's value
whenever at least one of `tagList`, `accentColor`, `defaultView`, `language`
is present in the snapshot (an absent `darkMode` decodes to `false`), and when
none of the four is present nothing is saved and `darkMode` stays as it was.
Both hold for the settings step and for the whole restore of a snapshot, so a
snapshot whose settings carry only `darkMode = true` does not restore it. -/
theorem restore_dark_mode_follows_other_settings (env : Env) (u : String) (st : Store)
    (s : UserSettings)
    (hfind : findUserSettings st u = some s)
    (hsave : ∀ r, env.saveSettingsOk r = true) :
    (∀ settings : UserSettingsBackupData,
      ((settings.TagList ≠ none ∨ settings.AccentColor ≠ "" ∨ settings.DefaultView ≠ "" ∨
          settings.Language ≠ "") →
        ∃ s', findUserSettings (webdavRestoreSettings env u settings st).1 u = some s' ∧
          s'.darkMode = settings.DarkMode) ∧
      (settings.TagList = none → settings.AccentColor = "" → settings.DefaultView = "" →
        settings.Language = "" → webdavRestoreSettings env u settings st = (st, []))) ∧
    ∀ (downloadedFileName : String) (backupData : WebDAVBackupData),
      env.hasCollection "bookmarks" = true →
      ((backupData.UserSettings.TagList ≠ none ∨ backupData.UserSettings.AccentColor ≠ "" ∨
          backupData.UserSettings.DefaultView ≠ "" ∨ backupData.UserSettings.Language ≠ "") →
        ∃ s', findUserSettings
            (webdavRestoreBackupData env u downloadedFileName backupData st).1 u = some s' ∧
          s'.darkMode = backupData.UserSettings.DarkMode) ∧
      (backupData.UserSettings.TagList = none → backupData.UserSettings.AccentColor = "" →
        backupData.UserSettings.DefaultView = "" → backupData.UserSettings.Language = "" →
        ∃ s', findUserSettings
            (webdavRestoreBackupData env u downloadedFileName backupData st).1 u = some s' ∧
          s'.darkMode = s.darkMode) := by
  have hstep : ∀ (settings : UserSettingsBackupData) (st1 : Store) (s1 : UserSettings),
      findUserSettings st1 u = some s1 →
      ((settings.TagList ≠ none ∨ settings.AccentColor ≠ "" ∨ settings.DefaultView ≠ "" ∨
          settings.Language ≠ "") →
        ∃ s', findUserSettings (webdavRestoreSettings env u settings st1).1 u = some s' ∧
          s'.darkMode = settings.DarkMode) ∧
      (settings.TagList = none → settings.AccentColor = "" → settings.DefaultView = "" →
        settings.Language = "" → webdavRestoreSettings env u settings st1 = (st1, [])) := by
    intro settings st1 s1 hfind1
    have hsu : s1.userId = u := by
      have := List.find?_some hfind1
      simpa using this
    refine ⟨?_, ?_⟩
    · intro hpresent
      rw [webdavRestoreSettings_found env u settings st1 s1 hfind1 hsave
        ((settings_guard_iff settings).2 hpresent)]
      obtain ⟨f1, f2, _, f4, _⟩ := restoredSettingsRecord_fields settings s1
      refine ⟨restoredSettingsRecord settings s1, ?_, f4⟩
      have := find_settings_after_save (restoredSettingsRecord settings s1) s1 u f1
        (f2.trans hsu) _ hfind1
      rw [f1] at this
      exact this
    · intro h1 h2 h3 h4
      refine (webdavRestoreSettings_absent env u settings st1 ?_).1
      rw [settings_guard_iff]
      simp [h1, h2, h3, h4]
  refine ⟨fun settings => hstep settings st s hfind, ?_⟩
  intro downloadedFileName backupData hcoll
  have hfolders := (webdavRestoreFolders_frame env u backupData.Folders st).2
  have hfind1 : findUserSettings (webdavRestoreFolders env u backupData.Folders st).2 u =
      some s := by
    rw [findUserSettings_congr _ _ u hfolders]
    exact hfind
  obtain ⟨s2, hfind2, hd2⟩ := webdavRestoreBookmarks_darkMode env u
    (webdavRestoreFolders env u backupData.Folders st).1 hcoll backupData.Bookmarks
    (webdavRestoreFolders env u backupData.Folders st).2 0 s hfind1
  obtain ⟨hp, ha⟩ := hstep backupData.UserSettings _ s2 hfind2
  rw [webdavRestoreBackupData_fst]
  refine ⟨hp, ?_⟩
  intro h1 h2 h3 h4
  rw [ha h1 h2 h3 h4]
  exact ⟨s2, hfind2, hd2⟩

/-- The settings record of `u1` in `storeToClear` has `darkMode = false`: the
restore of a snapshot that carries only `darkMode = true` leaves it so, the
restore of one that also carries an accent colour and a language sets it. -/
theorem restore_dark_mode_follows_other_settings_witness :
    findUserSettings storeToClear "u1" = some liveSettingsA ∧
    liveSettingsA.darkMode = false ∧ settingsDarkOnly.DarkMode = true ∧
    (findUserSettings (webdavRestoreBackupData okEnv "u1" "backup_1.json"
      (snapshotOfSettings settingsDarkOnly) storeToClear).1 "u1").map (fun s => s.darkMode) =
      some false ∧
    (findUserSettings (webdavRestoreBackupData okEnv "u1" "backup_1.json"
      (snapshotOfSettings settingsAccentLanguage) storeToClear).1 "u1").map
      (fun s => s.darkMode) = some true ∧
    (∀ settings : UserSettingsBackupData,
      ((settings.TagList ≠ none ∨ settings.AccentColor ≠ "" ∨ settings.DefaultView ≠ "" ∨
          settings.Language ≠ "") →
        ∃ s', findUserSettings (webdavRestoreSettings okEnv "u1" settings storeToClear).1 "u1" =
            some s' ∧
          s'.darkMode = settings.DarkMode) ∧
      (settings.TagList = none → settings.AccentColor = "" → settings.DefaultView = "" →
        settings.Language = "" →
        webdavRestoreSettings okEnv "u1" settings storeToClear = (storeToClear, []))) ∧
    ∀ (downloadedFileName : String) (backupData : WebDAVBackupData),
      okEnv.hasCollection "bookmarks" = true →
      ((backupData.UserSettings.TagList ≠ none ∨ backupData.UserSettings.AccentColor ≠ "" ∨
          backupData.UserSettings.DefaultView ≠ "" ∨ backupData.UserSettings.Language ≠ "") →
        ∃ s', findUserSettings
            (webdavRestoreBackupData okEnv "u1" downloadedFileName backupData storeToClear).1
            "u1" = some s' ∧
          s'.darkMode = backupData.UserSettings.DarkMode) ∧
      (backupData.UserSettings.TagList = none → backupData.UserSettings.AccentColor = "" →
        backupData.UserSettings.DefaultView = "" → backupData.UserSettings.Language = "" →
        ∃ s', findUserSettings
            (webdavRestoreBackupData okEnv "u1" downloadedFileName backupData storeToClear).1
            "u1" = some s' ∧
          s'.darkMode = liveSettingsA.darkMode) :=
  ⟨by decide, rfl, rfl, by decide, by decide,
   restore_dark_mode_follows_other_settings okEnv "u1" storeToClear liveSettingsA (by decide)
    (fun _ => rfl)⟩

/-! ## Lemmas on the records of other users in the bulk data clearer -/

theorem matchExistingName_eq_find (EqualFold : String → String → Bool) (ai : String) :
    ∀ (names : List String),
    matchExistingName EqualFold ai names =
      names.find? (fun n => EqualFold ai (TrimSpace n)) := by
  intro names
  induction names with
  | nil => rfl
  | cons a rest ih =>
    show (if EqualFold ai (TrimSpace a) = true then some a
      else matchExistingName EqualFold ai rest) = _
    rw [List.find?_cons]
    by_cases h : EqualFold ai (TrimSpace a) = true
    · simp [h]
    · simp [h, ih]

theorem suggestedFolderOf_eq (Unmarshal : String → Option String)
    (EqualFold : String → String → Bool) (names : List String) (content : Option String) :
    suggestedFolderOf Unmarshal EqualFold names content =
      match content.bind (fun c => Unmarshal (cleanAIContent c)) with
      | none => ""
      | some FolderName =>
        (names.find? (fun n => EqualFold (TrimSpace FolderName) (TrimSpace n))).getD "" := by
  unfold suggestedFolderOf
  cases content with
  | none => rfl
  | some c =>
    simp only [Option.some_bind]
    cases Unmarshal (cleanAIContent c) with
    | none => rfl
    | some f =>
      simp only
      rw [matchExistingName_eq_find]
      cases names.find? (fun n => EqualFold (TrimSpace f) (TrimSpace n)) <;> rfl

theorem suggestedFolderOf_mem (Unmarshal : String → Option String)
    (EqualFold : String → String → Bool) (names : List String) (content : Option String) :
    suggestedFolderOf Unmarshal EqualFold names content = "" ∨
      suggestedFolderOf Unmarshal EqualFold names content ∈ names := by
  rw [suggestedFolderOf_eq]
  cases content.bind (fun c => Unmarshal (cleanAIContent c)) with
  | none => exact Or.inl rfl
  | some f =>
    simp only
    cases hfind : names.find? (fun n => EqualFold (TrimSpace f) (TrimSpace n)) with
    | none => exact Or.inl rfl
    | some n => exact Or.inr (List.mem_of_find?_eq_some hfind)

/-- C30: in `suggestFolderHandler`, for a request that passes the checks (title
and url given, settings with an API key, folder listing succeeding), for every
AI response content and every list of existing folder names: the answer to a
decoded 200 reply is `suggested_folder`, which is the empty string when the
content is missing or does not parse, and else the first existing name that,
trimmed, `EqualFold` matches with the trimmed AI-suggested name, or the empty
string when there is none; so it is the empty string or one of the existing
names, as is the `suggested_folder` of every answer the handler gives. -/
theorem suggest_folder_returns_existing_name (env : Env) (geminiApiKey : UserSettings → String)
    (Unmarshal : String → Option String) (EqualFold : String → String → Bool)
    (u title url : String) (st : Store) (s : UserSettings) (content : Option String)
    (htitle : title ≠ "") (hurl : url ≠ "")
    (hfind : findUserSettings st u = some s) (hkey : geminiApiKey s ≠ "")
    (hfetch : env.fetchOk "folders" = true) :
    suggestFolderHandler env geminiApiKey Unmarshal EqualFold (some u) (some (title, url))
        (.answered 200 (some content)) st =
      .ok (suggestedFolderOf Unmarshal EqualFold
        ((userFolders st u).map (fun f => f.name)) content) ∧
    (content.bind (fun c => Unmarshal (cleanAIContent c)) = none →
      suggestedFolderOf Unmarshal EqualFold ((userFolders st u).map (fun f => f.name))
        content = "") ∧
    (∀ FolderName, content.bind (fun c => Unmarshal (cleanAIContent c)) = some FolderName →
      suggestedFolderOf Unmarshal EqualFold ((userFolders st u).map (fun f => f.name))
          content =
        (((userFolders st u).map (fun f => f.name)).find?
          (fun n => EqualFold (TrimSpace FolderName) (TrimSpace n))).getD "") ∧
    (∀ (exchange : AIExchange) (name : String),
      suggestFolderHandler env geminiApiKey Unmarshal EqualFold (some u) (some (title, url))
        exchange st = .ok name →
      name = "" ∨ name ∈ (userFolders st u).map (fun f => f.name)) := by
  have hcheck : ¬ (title = "" ∨ url = "") := by
    rintro (h | h)
    · exact htitle h
    · exact hurl h
  refine ⟨?_, ?_, ?_, ?_⟩
  · unfold suggestFolderHandler
    simp only [if_neg hcheck, hfind, if_neg hkey, hfetch, if_true, ne_eq, not_true_eq_false,
      if_false]
    split_ifs with hlen
    · have hnil : userFolders st u = [] := List.length_eq_zero.1 hlen
      rw [hnil]
      have := suggestedFolderOf_mem Unmarshal EqualFold [] content
      simp only [List.map_nil, List.not_mem_nil, or_false] at this ⊢
      rw [this]
    · rfl
  · intro h
    rw [suggestedFolderOf_eq, h]
  · intro f h
    rw [suggestedFolderOf_eq, h]
  · intro exchange name h
    unfold suggestFolderHandler at h
    simp only [if_neg hcheck, hfind, if_neg hkey, hfetch, if_true] at h
    split_ifs at h with hlen
    · injection h with h
      exact Or.inl h.symm
    · cases exchange with
      | requestFailed => simp at h
      | callFailed => simp at h
      | answered statusCode decoded =>
        simp only at h
        split_ifs at h with hcode
        cases decoded with
        | none => simp at h
        | some c =>
          simp only [SuggestFolderResult.ok.injEq] at h
          rw [← h]
          exact suggestedFolderOf_mem _ _ _ _

/-- A suggestion for `u1` in `storeToClear` (folders `Work`, `Reports`): the
AI answers `work` with surrounding blanks inside a code fence and gets the
existing name `Work`; for `Archive`, which is no folder of the user, the
suggestion is empty. -/
theorem suggest_folder_returns_existing_name_witness :
    cleanAIContent " ```json\nname= work \n``` " = "name= work" ∧
    suggestFolderHandler okEnv (fun _ => "key") plainUnmarshal lowerCaseEqual (some "u1")
      (some ("Lean", "https://lean-lang.org"))
      (.answered 200 (some (some " ```json\nname= work \n``` "))) storeToClear = .ok "Work" ∧
    suggestFolderHandler okEnv (fun _ => "key") plainUnmarshal lowerCaseEqual (some "u1")
      (some ("Lean", "https://lean-lang.org"))
      (.answered 200 (some (some "name=Archive"))) storeToClear = .ok "" ∧
    suggestFolderHandler okEnv (fun _ => "key") plainUnmarshal lowerCaseEqual (some "u1")
        (some ("Lean", "https://lean-lang.org"))
        (.answered 200 (some (some "name=REPORTS"))) storeToClear =
      .ok (suggestedFolderOf plainUnmarshal lowerCaseEqual
        ((userFolders storeToClear "u1").map (fun f => f.name)) (some "name=REPORTS")) ∧
    ((some "name=REPORTS").bind (fun c => plainUnmarshal (cleanAIContent c)) = none →
      suggestedFolderOf plainUnmarshal lowerCaseEqual
        ((userFolders storeToClear "u1").map (fun f => f.name)) (some "name=REPORTS") = "") ∧
    (∀ FolderName,
      (some "name=REPORTS").bind (fun c => plainUnmarshal (cleanAIContent c)) =
        some FolderName →
      suggestedFolderOf plainUnmarshal lowerCaseEqual
          ((userFolders storeToClear "u1").map (fun f => f.name)) (some "name=REPORTS") =
        (((userFolders storeToClear "u1").map (fun f => f.name)).find?
          (fun n => lowerCaseEqual (TrimSpace FolderName) (TrimSpace n))).getD "") ∧
    (∀ (exchange : AIExchange) (name : String),
      suggestFolderHandler okEnv (fun _ => "key") plainUnmarshal lowerCaseEqual (some "u1")
        (some ("Lean", "https://lean-lang.org")) exchange storeToClear = .ok name →
      name = "" ∨ name ∈ (userFolders storeToClear "u1").map (fun f => f.name)) :=
  ⟨by decide, by decide, by decide,
   suggest_folder_returns_existing_name okEnv (fun _ => "key") plainUnmarshal lowerCaseEqual
    "u1" "Lean" "https://lean-lang.org" storeToClear liveSettingsA (some "name=REPORTS")
    (by decide) (by decide) (by decide) (by decide) rfl⟩

end MarkHub
